import Mathlib

/-!
Verification development for the match-diagram repository: a shallow
embedding of its relational store, diagram evaluator, mutation engine and
fixed-edge graph, together with theorems settling the specification claims.

Machine integers: the source uses `usize` indices and a signed `Weight`
wrapper.  Overflow is immaterial to every claim below, so indices are
embedded as `Nat` and weights as `Int`.
-/

namespace MatchDiagram

/-- Embedding of `Value` (module `value`, not present under src; modelled
from the spec §3: tagged sum `{Symbol(u64), Nil}` with structural
equality). -/
inductive Value where
  | symbol (n : Nat)
  | nil
deriving DecidableEq, Repr

/-- Embedding of `Predicate` (module `predicate`, not present under src;
modelled from the spec §3: opaque integer identifier). -/
abbrev Predicate := Nat

/-- Embedding of `NodeIndex` (module `node_index`, not present under src;
modelled from the spec: plain index into the diagram's node array). -/
abbrev NodeIndex := Nat

/-- Embedding of `Weight` (module `weight`, not present under src; modelled
from the spec §3: signed integer multiplicity, combined by addition). -/
abbrev Weight := Int

/-- Embedding of `Fact` from src/fact.rs: a predicate together with its
tuple of values. -/
structure Fact where
  predicate : Predicate
  values : List Value
deriving DecidableEq, Repr

/-- Embedding of `Table` from src/table.rs: a column-count plus the rows in
insertion order; the source's parallel `values`/`row_weights` arrays are
fused into one list of (row, weight) pairs. -/
structure Table where
  num_columns : Nat
  rows : List (List Value × Weight)
deriving DecidableEq, Repr

/-- `Table::new` from src/table.rs. -/
def Table.new (num_columns : Nat) : Table :=
  ⟨num_columns, []⟩

/-- `Table::push` from src/table.rs (the returned row id is the prior
`num_rows`, i.e. the length of `rows`). -/
def Table.push (t : Table) (row : List Value) (w : Weight) : Table :=
  ⟨t.num_columns, t.rows ++ [(row, w)]⟩

/-- Modelled from the spec: the weighted `Database` consumed by
src/evaluation.rs (`facts_for_predicate`, `insert_fact_with_weight`,
`weighted_facts`, `all_facts`, `contains`, `weight`) is not among the
source files (src/database.rs is an older, weight-free iteration whose
`Table::push` call does not even type-check against src/table.rs).  Per
spec §4.1 it is a map `Predicate → Table`; insertion creates the
predicate's table on first use with arity = the fact's length, and
otherwise appends a new row without deduplication. -/
structure Database where
  tables : List (Predicate × Table)
deriving DecidableEq, Repr

/-- Modelled from the spec: `Database::new`. -/
def Database.new : Database := ⟨[]⟩

/-- Modelled from the spec: lookup of the table for a predicate. -/
def Database.table? (db : Database) (p : Predicate) : Option Table :=
  (db.tables.find? (fun e => e.1 = p)).map (·.2)

/-- Modelled from the spec: `Database::insert_fact_with_weight` (§4.1). -/
def Database.insert_fact_with_weight (db : Database) (f : Fact) (w : Weight) : Database :=
  match db.table? f.predicate with
  | some _ =>
    ⟨db.tables.map fun e => if e.1 = f.predicate then (e.1, e.2.push f.values w) else e⟩
  | none =>
    ⟨db.tables ++ [(f.predicate, (Table.new f.values.length).push f.values w)]⟩

/-- Modelled from the spec: `Database::insert_fact` (default weight 1). -/
def Database.insert_fact (db : Database) (f : Fact) : Database :=
  db.insert_fact_with_weight f 1

/-- Modelled from the spec: `Database::facts_for_predicate`, the rows of
the predicate's table in insertion order. -/
def Database.facts_for_predicate (db : Database) (p : Predicate) : List (List Value) :=
  match db.table? p with
  | some t => t.rows.map (·.1)
  | none => []

/-- Modelled from the spec: `Database::weighted_facts`, every (fact,
weight) row of every table. -/
def Database.weighted_facts (db : Database) : List (Fact × Weight) :=
  db.tables.flatMap fun e => e.2.rows.map fun r => (⟨e.1, r.1⟩, r.2)

/-- Modelled from the spec: `Database::all_facts`, every row of every
table regardless of weight. -/
def Database.all_facts (db : Database) : List Fact :=
  db.tables.flatMap fun e => e.2.rows.map fun r => ⟨e.1, r.1⟩

/-- Modelled from the spec: `Database::contains`, a linear scan for any
row equal to the fact's tuple (weights ignored). -/
def Database.containsFact (db : Database) (f : Fact) : Bool :=
  (db.facts_for_predicate f.predicate).any (fun vs => vs = f.values)

/-- Modelled from the spec: `Database::weight`, the sum of weights of all
rows equal to the fact's tuple. -/
def Database.weight (db : Database) (f : Fact) : Weight :=
  match db.table? f.predicate with
  | some t => (t.rows.filter (fun r => r.1 = f.values)).foldl (fun a r => a + r.2) 0
  | none => 0

/-- Embedding of `RegisterFile` from src/registers.rs: a fixed-size row of
`Option<Value>` slots with structural equality. -/
abbrev RegisterFile := List (Option Value)

/-- `RegisterFile::new` from src/registers.rs: all slots unbound. -/
def RegisterFile.new (size : Nat) : RegisterFile :=
  List.replicate size none

/-- Embedding of `RegisterSet` from src/registers.rs: the source's
`HashMap<RegisterFile, State>` is embedded as an association list with
unique keys; an entry is (register file, weight, depth). -/
structure RegisterSet where
  num_registers : Nat
  states : List (RegisterFile × Weight × Nat)
deriving DecidableEq, Repr

/-- `RegisterSet::new` from src/registers.rs. -/
def RegisterSet.new (num_registers : Nat) : RegisterSet :=
  ⟨num_registers, []⟩

/-- The entry update of `RegisterSet::push` from src/registers.rs on the
underlying association list.  Occupied key: depth is lowered to the
minimum, weight accumulates, and the entry is dropped when the new weight
is zero (returns false).  Vacant key: the entry is appended (returns
true). -/
def push_state_list : List (RegisterFile × Weight × Nat) → RegisterFile → Weight → Nat →
    List (RegisterFile × Weight × Nat) × Bool
  | [], rf, w, d => ([(rf, w, d)], true)
  | (k, w0, d0) :: rest, rf, w, d =>
    if k = rf then
      (if w0 + w = 0 then rest else (k, w0 + w, if d0 > d then d else d0) :: rest, false)
    else
      let r := push_state_list rest rf w d
      ((k, w0, d0) :: r.1, r.2)

/-- `RegisterSet::push` from src/registers.rs (the source asserts the
width matches; theorems about it carry that as a hypothesis). -/
def RegisterSet.push (s : RegisterSet) (rf : RegisterFile) (w : Weight) (d : Nat) :
    RegisterSet × Bool :=
  let r := push_state_list s.states rf w d
  (⟨s.num_registers, r.1⟩, r.2)

/-- `RegisterSet::contains` from src/registers.rs. -/
def RegisterSet.containsFile (s : RegisterSet) (rf : RegisterFile) : Bool :=
  s.states.any (fun e => e.1 = rf)

example :
    (RegisterSet.push ⟨1, [([some Value.nil], 2, 5)]⟩ [some Value.nil] 3 7).1.states =
      [([some Value.nil], 5, 5)] := by decide

example :
    (RegisterSet.push ⟨1, [([some Value.nil], 2, 5)]⟩ [none] 3 7).1.states =
      [([some Value.nil], 2, 5), ([none], 3, 7)] := by decide

/-- Embedding of `MatchTermConstraint` from src/diagram.rs. -/
inductive MatchTermConstraint where
  | register (i : Nat)
  | constant (v : Value)
  | free
deriving DecidableEq, Repr

/-- Embedding of `MatchTerm` from src/diagram.rs. -/
structure MatchTerm where
  constraint : MatchTermConstraint
  target : Option Nat
deriving DecidableEq, Repr

/-- Embedding of `OutputTerm` from src/diagram.rs. -/
inductive OutputTerm where
  | register (i : Nat)
  | constant (v : Value)
deriving DecidableEq, Repr

/-- Embedding of `Node` from src/diagram.rs: a diagram node either matches
facts of a predicate or outputs facts of a predicate. -/
inductive Node where
  | matchNode (predicate : Predicate) (terms : List MatchTerm)
  | outputNode (predicate : Predicate) (terms : List OutputTerm)
deriving DecidableEq, Repr

instance : Inhabited Node := ⟨Node.outputNode 0 []⟩

/-- Embedding of `Edges` from src/graph_diagram.rs. -/
structure Edges where
  on_match : List NodeIndex
  on_refute : List NodeIndex
deriving DecidableEq, Repr

/-- `Edges::new` from src/graph_diagram.rs. -/
def Edges.new : Edges := ⟨[], []⟩

/-- Embedding of `GraphNode` from src/graph_diagram.rs. -/
structure GraphNode where
  node : Node
  out_edges : Edges
  in_edges : Edges
deriving DecidableEq, Repr

/-- `GraphNode::new` from src/graph_diagram.rs. -/
def GraphNode.new (node : Node) : GraphNode :=
  ⟨node, Edges.new, Edges.new⟩

instance : Inhabited GraphNode := ⟨GraphNode.new default⟩

/-- Embedding of `GraphDiagram` from src/graph_diagram.rs: the single
`MultiDiagram`/`Diagram` implementation in the source, over which
src/evaluation.rs and src/mutate.rs are instantiated here. -/
structure GraphDiagram where
  num_registers : Nat
  roots : List NodeIndex
  graph : List GraphNode
deriving DecidableEq, Repr

/-- `GraphDiagram::new` from src/graph_diagram.rs. -/
def GraphDiagram.new (num_registers : Nat) : GraphDiagram :=
  ⟨num_registers, [], []⟩

/-- `MultiDiagram::len` for `GraphDiagram`. -/
def GraphDiagram.len (d : GraphDiagram) : Nat :=
  d.graph.length

/-- `MultiDiagram::get_node` for `GraphDiagram` (the source indexes the
dense node array; out-of-range access panics there and yields the junk
default here). -/
def GraphDiagram.get_node (d : GraphDiagram) (n : NodeIndex) : Node :=
  (d.graph.getD n default).node

/-- `GraphDiagram::match_target_group`. -/
def GraphDiagram.match_target_group (d : GraphDiagram) (n : NodeIndex) : List NodeIndex :=
  (d.graph.getD n default).out_edges.on_match

/-- `GraphDiagram::refute_target_group`. -/
def GraphDiagram.refute_target_group (d : GraphDiagram) (n : NodeIndex) : List NodeIndex :=
  (d.graph.getD n default).out_edges.on_refute

/-- `GraphDiagram::match_source_group`. -/
def GraphDiagram.match_source_group (d : GraphDiagram) (n : NodeIndex) : List NodeIndex :=
  (d.graph.getD n default).in_edges.on_match

/-- `GraphDiagram::refute_source_group`. -/
def GraphDiagram.refute_source_group (d : GraphDiagram) (n : NodeIndex) : List NodeIndex :=
  (d.graph.getD n default).in_edges.on_refute

/-- Pointwise update of one graph node (the `_mut` accessors of
src/graph_diagram.rs). -/
def GraphDiagram.modify_graph_node (d : GraphDiagram) (n : NodeIndex)
    (f : GraphNode → GraphNode) : GraphDiagram :=
  ⟨d.num_registers, d.roots, d.graph.modify f n⟩

/-- `Vec::swap_remove` as used by `remove_from_group` in
src/graph_diagram.rs: the element at `i` is replaced by the last element,
which is then popped. -/
def swapRemove (l : List NodeIndex) (i : Nat) : List NodeIndex :=
  (l.set i (l.getLastD 0)).dropLast

/-- `remove_from_group` from src/graph_diagram.rs (the source panics when
the node is absent; here the list is returned unchanged on that input,
which well-formedness hypotheses exclude). -/
def remove_from_group (group : List NodeIndex) (node : NodeIndex) : List NodeIndex :=
  match group.findIdx? (fun n => n = node) with
  | some i => swapRemove group i
  | none => group

/-- `insert_into_group` from src/graph_diagram.rs (the source panics when
the node is already present; here it is kept unchanged on that input). -/
def insert_into_group (group : List NodeIndex) (node : NodeIndex) : List NodeIndex :=
  if group.any (fun n => n = node) then group else group ++ [node]

/-- `MultiDiagram::insert_node` for `GraphDiagram`. -/
def GraphDiagram.insert_node (d : GraphDiagram) (node : Node) : GraphDiagram × NodeIndex :=
  (⟨d.num_registers, d.roots, d.graph ++ [GraphNode.new node]⟩, d.graph.length)

/-- `Diagram::get_root` for `GraphDiagram` (`roots[0]`; panics in the
source when there is no root, `none` here). -/
def GraphDiagram.get_root (d : GraphDiagram) : Option NodeIndex :=
  d.roots.head?

/-- `Diagram::set_root` for `GraphDiagram`: clears the root list and
pushes the new root. -/
def GraphDiagram.set_root (d : GraphDiagram) (root : NodeIndex) : GraphDiagram :=
  ⟨d.num_registers, [root], d.graph⟩

/-- `Diagram::get_on_match` for `GraphDiagram`: head of the match-target
group. -/
def GraphDiagram.get_on_match (d : GraphDiagram) (src : NodeIndex) : Option NodeIndex :=
  (d.match_target_group src).head?

/-- `Diagram::get_on_refute` for `GraphDiagram`. -/
def GraphDiagram.get_on_refute (d : GraphDiagram) (src : NodeIndex) : Option NodeIndex :=
  (d.refute_target_group src).head?

/-- `Diagram::set_on_match` for `GraphDiagram`: detach the previous match
target's back-edge, overwrite the forward group with the new target, and
record the back-edge on the new target. -/
def GraphDiagram.set_on_match (d : GraphDiagram) (src target : NodeIndex) : GraphDiagram :=
  let d1 :=
    match d.get_on_match src with
    | some old =>
      d.modify_graph_node old fun g =>
        { g with in_edges := { g.in_edges with on_match := remove_from_group g.in_edges.on_match src } }
    | none => d
  let d2 := d1.modify_graph_node src fun g =>
    { g with out_edges := { g.out_edges with on_match := [target] } }
  d2.modify_graph_node target fun g =>
    { g with in_edges := { g.in_edges with on_match := insert_into_group g.in_edges.on_match src } }

/-- `Diagram::set_on_refute` for `GraphDiagram`. -/
def GraphDiagram.set_on_refute (d : GraphDiagram) (src target : NodeIndex) : GraphDiagram :=
  let d1 :=
    match d.get_on_refute src with
    | some old =>
      d.modify_graph_node old fun g =>
        { g with in_edges := { g.in_edges with on_refute := remove_from_group g.in_edges.on_refute src } }
    | none => d
  let d2 := d1.modify_graph_node src fun g =>
    { g with out_edges := { g.out_edges with on_refute := [target] } }
  d2.modify_graph_node target fun g =>
    { g with in_edges := { g.in_edges with on_refute := insert_into_group g.in_edges.on_refute src } }

/-- `Diagram::clear_on_match` for `GraphDiagram`. -/
def GraphDiagram.clear_on_match (d : GraphDiagram) (src : NodeIndex) : GraphDiagram :=
  let d1 :=
    match d.get_on_match src with
    | some old =>
      d.modify_graph_node old fun g =>
        { g with in_edges := { g.in_edges with on_match := remove_from_group g.in_edges.on_match src } }
    | none => d
  d1.modify_graph_node src fun g =>
    { g with out_edges := { g.out_edges with on_match := [] } }

/-- `Diagram::clear_on_refute` for `GraphDiagram`. -/
def GraphDiagram.clear_on_refute (d : GraphDiagram) (src : NodeIndex) : GraphDiagram :=
  let d1 :=
    match d.get_on_refute src with
    | some old =>
      d.modify_graph_node old fun g =>
        { g with in_edges := { g.in_edges with on_refute := remove_from_group g.in_edges.on_refute src } }
    | none => d
  d1.modify_graph_node src fun g =>
    { g with out_edges := { g.out_edges with on_refute := [] } }

/-- `Diagram::get_match_sources` for `GraphDiagram` (always `Some` in the
source). -/
def GraphDiagram.get_match_sources (d : GraphDiagram) (target : NodeIndex) : List NodeIndex :=
  d.match_source_group target

/-- `Diagram::get_refute_sources` for `GraphDiagram`. -/
def GraphDiagram.get_refute_sources (d : GraphDiagram) (target : NodeIndex) : List NodeIndex :=
  d.refute_source_group target

/-- `MultiDiagram::get_node_mut`-style node replacement used by the
mutation arms of src/mutate.rs. -/
def GraphDiagram.set_node (d : GraphDiagram) (n : NodeIndex) (node : Node) : GraphDiagram :=
  d.modify_graph_node n fun g => { g with node := node }

/-- The per-term body of the fact loop in
`propagate_match_node_into_output` (src/evaluation.rs lines 90-104): the
constraint is checked against the ORIGINAL register file and the target
slot of the result is overwritten with the fact value, refuted or not. -/
def match_term_step (register_file : RegisterFile) (acc : RegisterFile × Bool)
    (tv : MatchTerm × Value) : RegisterFile × Bool :=
  let refuted :=
    match tv.1.constraint with
    | .free => acc.2
    | .constant v => if v ≠ tv.2 then true else acc.2
    | .register reg => if register_file.getD reg none ≠ some tv.2 then true else acc.2
  let result :=
    match tv.1.target with
    | some target => acc.1.set target (some tv.2)
    | none => acc.1
  (result, refuted)

/-- One fact's pass of `propagate_match_node_into_output`: terms are
zipped with the fact's values (the shorter of the two bounds the loop),
starting from a clone of the input register file. -/
def match_fact (terms : List MatchTerm) (register_file : RegisterFile) (vs : List Value) :
    RegisterFile × Bool :=
  (terms.zip vs).foldl (match_term_step register_file) (register_file, false)

/-- The per-fact body of `propagate_match_node_into_output`: push the
resulting register file into the refute set when refuted and into the
match set otherwise, with the input weight and depth + 1, accumulating
whether any push was new. -/
def propagate_match_fact_step (terms : List MatchTerm) (register_file : RegisterFile)
    (weight : Weight) (input_depth : Nat) (acc : RegisterSet × RegisterSet × Bool)
    (vs : List Value) : RegisterSet × RegisterSet × Bool :=
  let fr := match_fact terms register_file vs
  if fr.2 then
    let pr := acc.2.1.push fr.1 weight (input_depth + 1)
    (acc.1, pr.1, acc.2.2 || pr.2)
  else
    let pm := acc.1.push fr.1 weight (input_depth + 1)
    (pm.1, acc.2.1, acc.2.2 || pm.2)

/-- `propagate_match_node_into_output` from src/evaluation.rs: the fact
loop over the node's predicate.  Returns the updated match/refute sets
and whether a new state was added to one of them. -/
def propagate_match_node_into_output (predicate : Predicate) (terms : List MatchTerm)
    (database : Database) (register_file : RegisterFile) (weight : Weight)
    (input_depth : Nat) (matchSet refuteSet : RegisterSet) :
    RegisterSet × RegisterSet × Bool :=
  (database.facts_for_predicate predicate).foldl
    (propagate_match_fact_step terms register_file weight input_depth)
    (matchSet, refuteSet, false)

/-- One iteration of the tuple-building loop of
`propagate_output_node_into_output` (src/evaluation.rs lines 122-138):
constants are emitted, in-range registers are emitted (Nil when unbound),
out-of-range registers are skipped. -/
def output_value_step (register_file : RegisterFile) (values : List Value)
    (term : OutputTerm) : List Value :=
  match term with
  | .constant v => values ++ [v]
  | .register idx =>
    if idx < register_file.length then
      match register_file.getD idx none with
      | some v => values ++ [v]
      | none => values ++ [Value.nil]
    else values

/-- The tuple built by `propagate_output_node_into_output`. -/
def output_values (terms : List OutputTerm) (register_file : RegisterFile) : List Value :=
  terms.foldl (output_value_step register_file) []

/-- `propagate_output_node_into_output` from src/evaluation.rs: the built
tuple is inserted into the node's output database with the binding's
weight. -/
def propagate_output_node_into_output (predicate : Predicate) (terms : List OutputTerm)
    (register_file : RegisterFile) (weight : Weight) (db : Database) : Database :=
  db.insert_fact_with_weight ⟨predicate, output_values terms register_file⟩ weight

/-- Embedding of `NodeOutputState` from src/evaluation.rs. -/
inductive NodeOutputState where
  | matchOut (matchSet refuteSet : RegisterSet)
  | outputOut (db : Database)
deriving DecidableEq, Repr

/-- The depth test of `propagate` (src/evaluation.rs line 163):
`max_depth.map(|max_depth| depth < max_depth).unwrap_or(true)`. -/
def depth_ok (max_depth : Option Nat) (depth : Nat) : Bool :=
  (max_depth.map (fun md => decide (depth < md))).getD true

/-- One input entry's step of `propagate` at a match node: entries whose
depth passes the optional bound are propagated, others are skipped. -/
def match_prop_step (predicate : Predicate) (terms : List MatchTerm) (database : Database)
    (max_depth : Option Nat) (acc : RegisterSet × RegisterSet)
    (e : RegisterFile × Weight × Nat) : RegisterSet × RegisterSet :=
  if depth_ok max_depth e.2.2 then
    let out := propagate_match_node_into_output predicate terms database e.1 e.2.1 e.2.2
      acc.1 acc.2
    (out.1, out.2.1)
  else acc

/-- `propagate` from src/evaluation.rs: a match node processes exactly the
input entries whose depth passes the optional bound, an output node
processes every entry. -/
def propagate (d : GraphDiagram) (node : NodeIndex) (database : Database)
    (registers : RegisterSet) (max_depth : Option Nat) : NodeOutputState :=
  match d.get_node node with
  | .matchNode predicate terms =>
    let mr := registers.states.foldl (match_prop_step predicate terms database max_depth)
      (RegisterSet.new registers.num_registers, RegisterSet.new registers.num_registers)
    .matchOut mr.1 mr.2
  | .outputNode predicate terms =>
    .outputOut (registers.states.foldl
      (fun db e => propagate_output_node_into_output predicate terms e.1 e.2.1 db)
      Database.new)

/-- Embedding of `NodeState` from src/evaluation.rs. -/
structure NodeState where
  input : RegisterSet
  output : Option NodeOutputState
deriving DecidableEq, Repr

/-- Push every entry of a register set list into a register set,
discarding the per-push newness flags (the plain input-accumulation loops
of src/evaluation.rs). -/
def RegisterSet.push_all (s : RegisterSet) (l : List (RegisterFile × Weight × Nat)) :
    RegisterSet :=
  l.foldl (fun acc e => (acc.push e.1 e.2.1 e.2.2).1) s

/-- Push every entry of a register set list, tracking whether any push
reported a new state (the merge loops of `NodeState::merge_output`). -/
def RegisterSet.push_all_new (s : RegisterSet) (l : List (RegisterFile × Weight × Nat)) :
    RegisterSet × Bool :=
  l.foldl (fun (acc : RegisterSet × Bool) e =>
      let pr := acc.1.push e.1 e.2.1 e.2.2
      (pr.1, acc.2 || pr.2))
    (s, false)

/-- `NodeState::merge_output` from src/evaluation.rs: returns the merged
state and whether a new state was added (weighted fact insertion for
output nodes never counts as new; installing a first output always does;
the source panics when the node changed type, embedded as a no-op). -/
def NodeState.merge_output (s : NodeState) (out : NodeOutputState) : NodeState × Bool :=
  match s.output, out with
  | some (.outputOut old_db), .outputOut new_db =>
    ({ s with output := some (.outputOut
        (new_db.weighted_facts.foldl (fun db fw => db.insert_fact_with_weight fw.1 fw.2) old_db)) },
     false)
  | some (.matchOut old_m old_r), .matchOut new_m new_r =>
    let m := old_m.push_all_new new_m.states
    let r := old_r.push_all_new new_r.states
    ({ s with output := some (.matchOut m.1 r.1) }, m.2 || r.2)
  | none, o => ({ s with output := some o }, true)
  | _, _ => (s, false)

/-- `DEFAULT_MAX_DEPTH` from src/evaluation.rs. -/
def DEFAULT_MAX_DEPTH : Nat := 8

/-- Embedding of `Evaluation` from src/evaluation.rs. -/
structure Evaluation where
  states : List NodeState
  max_depth : Nat
  total_db : Database
deriving DecidableEq, Repr

/-- `Evaluation::new` from src/evaluation.rs. -/
def Evaluation.new : Evaluation :=
  ⟨[], DEFAULT_MAX_DEPTH, Database.new⟩

/-- `Evaluation::grow` from src/evaluation.rs: append fresh node states up
to the requested count. -/
def Evaluation.grow (e : Evaluation) (num_nodes num_registers : Nat) : Evaluation :=
  { e with states := e.states ++
      List.replicate (num_nodes - e.states.length) ⟨RegisterSet.new num_registers, none⟩ }

/-- The junk state produced by an out-of-range state access (a panic in
the source). -/
def junkState : NodeState := ⟨RegisterSet.new 0, none⟩

/-- In-place update of one node state (`self.states[node.0]` mutation in
src/evaluation.rs). -/
def Evaluation.modify_state (e : Evaluation) (n : NodeIndex) (f : NodeState → NodeState) :
    Evaluation :=
  { e with states := e.states.modify f n }

/-- One iteration of the `Evaluation::run_pending` loop body
(src/evaluation.rs lines 370-394) on the popped item: push the carried
register set into the node's input, propagate, merge the output, and
report the merge's newness flag together with the raw propagation
output. -/
def step_eval (d : GraphDiagram) (input : Database) (e : Evaluation) (node : NodeIndex)
    (regs : RegisterSet) : Evaluation × Bool × NodeOutputState :=
  let e := e.modify_state node (fun s => { s with input := s.input.push_all regs.states })
  let output := propagate d node input regs (some e.max_depth)
  let merged := (e.states.getD node junkState).merge_output output
  ({ e with states := e.states.set node merged.1 }, merged.2, output)

/-- The worklist items enqueued by one `run_pending` iteration: when the
merge reported a new state at a match node, every match target receives
the freshly propagated matches and every refute target the refutes
(pushed in source order onto the stack). -/
def step_pending (d : GraphDiagram) (node : NodeIndex) (newFlag : Bool)
    (output : NodeOutputState) (rest : List (NodeIndex × RegisterSet)) :
    List (NodeIndex × RegisterSet) :=
  if newFlag then
    match output with
    | .matchOut matchSet refuteSet =>
      (d.refute_target_group node).foldl (fun p t => (t, refuteSet) :: p)
        ((d.match_target_group node).foldl (fun p t => (t, matchSet) :: p) rest)
    | .outputOut _ => rest
  else rest

/-- `Evaluation::run_pending` from src/evaluation.rs as a fuel-indexed
loop; the pending worklist is a stack whose head is the source `Vec`'s
end, so pops and pushes mirror the source order exactly.  `none` means
the fuel ran out before the worklist emptied. -/
def run_pending_aux (d : GraphDiagram) (input : Database) :
    Nat → Evaluation → List (NodeIndex × RegisterSet) → Option Evaluation
  | _, e, [] => some e
  | 0, _, _ :: _ => none
  | fuel + 1, e, (node, regs) :: rest =>
    let se := step_eval d input e node regs
    run_pending_aux d input fuel se.1 (step_pending d node se.2.1 se.2.2 rest)

/-- `Evaluation::build_total_db` from src/evaluation.rs: every row of
every output node's database is inserted (with weight 1) into the total
database. -/
def Evaluation.build_total_db (e : Evaluation) : Evaluation :=
  let total := e.states.foldl
    (fun db s =>
      match s.output with
      | some (.outputOut odb) => odb.all_facts.foldl Database.insert_fact db
      | _ => db)
    e.total_db
  { e with total_db := total }

/-- One iteration of the root-seeding loop of `Evaluation::run_multi`:
push the all-unbound register file with weight 1 and depth 0 into an
in-range root's input. -/
def seed_root_step (d : GraphDiagram) (num_registers : Nat) (e : Evaluation)
    (root : NodeIndex) : Evaluation :=
  if root < d.len then
    e.modify_state root
      (fun s => { s with input := (s.input.push (RegisterFile.new num_registers) 1 0).1 })
  else e

/-- `Evaluation::run_multi` from src/evaluation.rs: fresh evaluation,
root seeds at weight 1 depth 0 (skipping out-of-range roots), worklist to
quiescence, then the total database. -/
def Evaluation.run_multi (d : GraphDiagram) (input : Database) (num_registers : Nat)
    (fuel : Nat) : Option Evaluation :=
  let e := Evaluation.new.grow d.len num_registers
  let e := d.roots.foldl (seed_root_step d num_registers) e
  let pending := d.roots.filterMap fun n =>
    if n < d.len then
      some (n, ((RegisterSet.new num_registers).push (RegisterFile.new num_registers) 1 0).1)
    else none
  (run_pending_aux d input fuel e pending.reverse).map Evaluation.build_total_db

/-- Outcome of the invalidation loop of `Evaluation::rerun_from`. -/
inductive InvalidateResult where
  | ok (e : Evaluation)
  | cyclic
  | outOfFuel

/-- The invalidation worklist of `Evaluation::rerun_from`
(src/evaluation.rs lines 425-446): reset each reached state, and bail out
as cyclic as soon as a successor lies in the start set. -/
def invalidate_aux (d : GraphDiagram) (num_registers : Nat) (start_set : List NodeIndex) :
    Nat → Evaluation → List NodeIndex → List NodeIndex → InvalidateResult
  | _, e, [], _ => .ok e
  | 0, _, _ :: _, _ => .outOfFuel
  | fuel + 1, e, node :: rest, invalidated =>
    if invalidated.contains node then
      invalidate_aux d num_registers start_set fuel e rest invalidated
    else
      let e := { e with states := e.states.set node ⟨RegisterSet.new num_registers, none⟩ }
      let succs := d.match_target_group node ++ d.refute_target_group node
      if succs.any (fun n => start_set.contains n) then .cyclic
      else
        invalidate_aux d num_registers start_set fuel e
          (succs.foldl (fun p n => n :: p) rest) (node :: invalidated)

/-- The input rebuilt for one start node by `Evaluation::rerun_from`
(src/evaluation.rs lines 453-479): push every recorded match of the
node's match sources and every recorded refute of its refute sources
(read from the original evaluation `self`), then the root seed when the
node is a root. -/
def rerun_input (self : Evaluation) (d : GraphDiagram) (num_registers : Nat)
    (node : NodeIndex) (inp0 : RegisterSet) : RegisterSet :=
  let inp := (d.get_match_sources node).foldl
    (fun inp source =>
      if source < self.states.length then
        match (self.states.getD source junkState).output with
        | some (.matchOut ms _) => inp.push_all ms.states
        | _ => inp
      else inp)
    inp0
  let inp := (d.get_refute_sources node).foldl
    (fun inp source =>
      if source < self.states.length then
        match (self.states.getD source junkState).output with
        | some (.matchOut _ rs) => inp.push_all rs.states
        | _ => inp
      else inp)
    inp
  if d.roots.contains node then (inp.push (RegisterFile.new num_registers) 1 0).1
  else inp

/-- One iteration of the input-reconstruction loop of
`Evaluation::rerun_from`: store the rebuilt input at the start node and
queue it. -/
def rerun_seed_step (self : Evaluation) (d : GraphDiagram) (num_registers : Nat)
    (acc : Evaluation × List (NodeIndex × RegisterSet)) (node : NodeIndex) :
    Evaluation × List (NodeIndex × RegisterSet) :=
  let inp := rerun_input self d num_registers node (acc.1.states.getD node junkState).input
  (acc.1.modify_state node (fun s => { s with input := inp }), (node, inp) :: acc.2)

/-- The input-reconstruction loop of `Evaluation::rerun_from`
(src/evaluation.rs lines 453-481): each start node's input is rebuilt
from the surviving sources' recorded matches/refutes in the ORIGINAL
evaluation, seeded with the empty register file when the node is a root,
and the rebuilt input is queued. -/
def rerun_seed (self : Evaluation) (d : GraphDiagram) (num_registers : Nat)
    (eval : Evaluation) (start : List NodeIndex) :
    Evaluation × List (NodeIndex × RegisterSet) :=
  start.foldl (rerun_seed_step self d num_registers) (eval, [])

/-- `Evaluation::rerun_from` from src/evaluation.rs: invalidate the
forward closure of the start nodes (full `run_multi` restart when that
closure meets the start set), rebuild the start inputs from surviving
sources, run the worklist, and rebuild the total database.  `none` means
fuel ran out. -/
def Evaluation.rerun_from (self : Evaluation) (d : GraphDiagram) (input : Database)
    (start : List NodeIndex) (num_registers : Nat) (fuel : Nat) : Option Evaluation :=
  let eval := self.grow d.len num_registers
  let eval := { eval with total_db := Database.new }
  match invalidate_aux d num_registers start fuel eval start.reverse [] with
  | .outOfFuel => none
  | .cyclic => Evaluation.run_multi d input num_registers fuel
  | .ok eval =>
    let seeded := rerun_seed self d num_registers eval start
    (run_pending_aux d input fuel seeded.1 seeded.2).map Evaluation.build_total_db

/-- Embedding of `Edge` from src/mutation.rs (the mutation algebra's edge
designator). -/
inductive Edge where
  | root
  | matchEdge (src : NodeIndex)
  | refuteEdge (src : NodeIndex)
deriving DecidableEq, Repr

/-- Embedding of `Term` from src/mutation.rs: a (node, term position)
pair. -/
structure Term where
  node : NodeIndex
  term : Nat
deriving DecidableEq, Repr

/-- Embedding of `Mutation` from src/mutation.rs. -/
inductive Mutation where
  | setConstraintRegister (term : Term) (register : Nat)
  | setConstraintConstant (term : Term) (value : Value)
  | setConstraintFree (term : Term)
  | setTarget (term : Term) (register : Option Nat)
  | insertPassthrough (predicate : Predicate) (num_terms : Nat) (edge : Edge)
  | removeNode (node : NodeIndex)
  | setEdge (edge : Edge) (target : NodeIndex)
  | setOutputRegister (term : Term) (register : Nat)
  | setOutputConstant (term : Term) (value : Value)
  | setPredicate (node : NodeIndex) (predicate : Predicate)
deriving DecidableEq, Repr

/-- Embedding of `MutationResult` from src/mutate.rs. -/
structure MutationResult where
  phenotype_could_have_changed : Bool
  node_to_restart : Option NodeIndex
deriving DecidableEq, Repr

/-- `changed_node` from src/mutate.rs. -/
def changed_node (node : NodeIndex) : Option MutationResult :=
  some ⟨true, some node⟩

/-- The `node_could_be_passthrough` test of the RemoveNode arm
(src/mutate.rs lines 131-136): a Match node none of whose terms writes a
register. -/
def node_could_be_passthrough (d : GraphDiagram) (node : NodeIndex) : Bool :=
  match d.get_node node with
  | .matchNode _ terms => terms.all (fun t => t.target = none)
  | .outputNode _ _ => false

/-- The shared shape of the four constraint/target arms of
`apply_mutation`: bounds-check the node, require a match node and an
in-range term position, and update that term. -/
def set_match_term (d : GraphDiagram) (node : NodeIndex) (term : Nat)
    (f : MatchTerm → MatchTerm) : GraphDiagram × Option MutationResult :=
  if node ≥ d.len then (d, none)
  else
    match d.get_node node with
    | .matchNode p terms =>
      if term < terms.length then
        (d.set_node node (.matchNode p (terms.modify f term)), changed_node node)
      else (d, none)
    | .outputNode _ _ => (d, none)

/-- `apply_mutation` from src/mutate.rs, instantiated (like the rest of
the development) at the `GraphDiagram` implementation of the `Diagram`
trait; in-place mutation becomes returning the new diagram next to the
source's `Option<MutationResult>`. -/
def apply_mutation (d : GraphDiagram) (mutation : Mutation) :
    GraphDiagram × Option MutationResult :=
  match mutation with
  | .setConstraintRegister ⟨node, term⟩ register =>
    set_match_term d node term fun t => { t with constraint := .register register }
  | .setConstraintConstant ⟨node, term⟩ value =>
    set_match_term d node term fun t => { t with constraint := .constant value }
  | .setConstraintFree ⟨node, term⟩ =>
    set_match_term d node term fun t => { t with constraint := .free }
  | .setTarget ⟨node, term⟩ register =>
    set_match_term d node term fun t => { t with target := register }
  | .insertPassthrough predicate num_terms edge =>
    if d.len > 2 then (d, none)
    else
      let node : Node := .matchNode predicate (List.replicate num_terms ⟨.free, none⟩)
      let ins := d.insert_node node
      let d := ins.1
      let node_index := ins.2
      let d :=
        match edge with
        | .root =>
          -- `diagram.get_root()` panics in the source when no root exists;
          -- that input is completed here by skipping the rewiring.
          match d.get_root with
          | some target =>
            (((d.set_on_match node_index target).set_on_refute node_index target).set_root
              node_index)
          | none => d.set_root node_index
        | .matchEdge src =>
          let d :=
            match d.get_on_match src with
            | some target => (d.set_on_match node_index target).set_on_refute node_index target
            | none => d
          d.set_on_match src node_index
        | .refuteEdge src =>
          let d :=
            match d.get_on_refute src with
            | some target => (d.set_on_match node_index target).set_on_refute node_index target
            | none => d
          d.set_on_refute src node_index
      (d, some ⟨false, none⟩)
  | .removeNode node =>
    if node ≥ d.len then (d, none)
    else if some node = d.get_root then (d, none)
    else
      let maybe_match := d.get_on_match node
      let maybe_refute := d.get_on_refute node
      let match_sources := d.get_match_sources node
      let d1 :=
        match maybe_match with
        | some on_match =>
          match_sources.foldl (fun (dd : GraphDiagram) src => dd.set_on_match src on_match) d
        | none => match_sources.foldl (fun (dd : GraphDiagram) src => dd.clear_on_match src) d
      let refute_sources := d1.get_refute_sources node
      let d2 :=
        match maybe_refute with
        | some on_refute =>
          refute_sources.foldl (fun (dd : GraphDiagram) src => dd.set_on_refute src on_refute) d1
        | none => refute_sources.foldl (fun (dd : GraphDiagram) src => dd.clear_on_refute src) d1
      let had_sources := !match_sources.isEmpty || !refute_sources.isEmpty
      if maybe_match = maybe_refute ∧ node_could_be_passthrough d node then
        (d2, some ⟨false, none⟩)
      else (d2, some ⟨had_sources, none⟩)
  | .setEdge edge target =>
    match edge with
    | .root => (d.set_root target, some ⟨true, none⟩)
    | .matchEdge src =>
      if src ≥ d.len ∨ target ≥ d.len then (d, none)
      else (d.set_on_match src target, some ⟨true, some src⟩)
    | .refuteEdge src =>
      if src ≥ d.len ∨ target ≥ d.len then (d, none)
      else (d.set_on_refute src target, some ⟨true, some src⟩)
  | .setOutputRegister ⟨node, term⟩ register =>
    if node ≥ d.len then (d, none)
    else
      match d.get_node node with
      | .outputNode p terms =>
        (d.set_node node (.outputNode p (terms.set term (.register register))),
         some ⟨true, some node⟩)
      | .matchNode _ _ => (d, none)
  | .setOutputConstant ⟨node, term⟩ value =>
    if node ≥ d.len then (d, none)
    else
      match d.get_node node with
      | .outputNode p terms =>
        (d.set_node node (.outputNode p (terms.set term (.constant value))),
         some ⟨true, some node⟩)
      | .matchNode _ _ => (d, none)
  | .setPredicate node predicate =>
    if node ≥ d.len then (d, none)
    else
      match d.get_node node with
      | .outputNode _ terms => (d.set_node node (.outputNode predicate terms), changed_node node)
      | .matchNode _ terms => (d.set_node node (.matchNode predicate terms), changed_node node)

/-- `INVALID_NODE_INDEX` from src/fixgraph.rs (`usize::MAX`). -/
def INVALID_NODE_INDEX : Nat := 2 ^ 64 - 1

/-- Embedding of `FixGraph` from src/fixgraph.rs: a graph with a fixed
number of edge slots per node; the payload type is irrelevant to the
claims and fixed at `Nat`. -/
structure FixGraph where
  edges_per_node : Nat
  nodes : List Nat
  edges : List Nat
deriving DecidableEq, Repr

/-- `FixGraph::new` / `with_capacity` from src/fixgraph.rs (capacity has
no observable effect). -/
def FixGraph.new (edges_per_node : Nat) : FixGraph :=
  ⟨edges_per_node, [], []⟩

/-- `FixGraph::push` from src/fixgraph.rs: append the node and extend the
edge array with `edges_per_node` invalid slots; returns the new node's
index. -/
def FixGraph.push (g : FixGraph) (node : Nat) : FixGraph × NodeIndex :=
  (⟨g.edges_per_node, g.nodes ++ [node],
    g.edges ++ List.replicate g.edges_per_node INVALID_NODE_INDEX⟩,
   g.nodes.length)

/-- `FixGraph::edge_num_to_index` from src/fixgraph.rs, verbatim:
`(node.0 / self.edges_per_node) + edge.0`. -/
def FixGraph.edge_num_to_index (g : FixGraph) (node edge : Nat) : Nat :=
  node / g.edges_per_node + edge

/-- `FixGraph::set_edge` from src/fixgraph.rs (the source panics when the
target is outside the graph; that input is embedded as a no-op). -/
def FixGraph.set_edge (g : FixGraph) (source edge target : Nat) : FixGraph :=
  if target ≥ g.nodes.length then g
  else { g with edges := g.edges.set (g.edge_num_to_index source edge) target }

/-- `FixGraph::get_edge` from src/fixgraph.rs. -/
def FixGraph.get_edge (g : FixGraph) (source edge : Nat) : Option NodeIndex :=
  let node := g.edges.getD (g.edge_num_to_index source edge) INVALID_NODE_INDEX
  if node = INVALID_NODE_INDEX then none else some node

/-! Specification helpers: observation functions used to phrase the
claims, not part of the embedded code. -/

/-- The (weight, depth) slot stored for a register file, if any. -/
def RegisterSet.find? (s : RegisterSet) (rf : RegisterFile) : Option (Weight × Nat) :=
  (s.states.find? (fun e => e.1 = rf)).map (·.2)

/-- The failure condition of one match term constraint against the
original register file and one fact value (spec §4.2). -/
def constraint_fails (rf : RegisterFile) : MatchTermConstraint → Value → Bool
  | .free, _ => false
  | .constant v0, v => v0 ≠ v
  | .register r, v => rf.getD r none ≠ some v

/-- The register write of one (term, value) pair: the target slot, when
present, is overwritten with the fact value. -/
def match_write_step (r : RegisterFile) (tv : MatchTerm × Value) : RegisterFile :=
  match tv.1.target with
  | some t => r.set t (some tv.2)
  | none => r

/-- The claimed contribution of one output term (spec §4.2): a constant
contributes itself, an in-range register its bound value or Nil, an
out-of-range register nothing. -/
def output_contrib (rf : RegisterFile) : OutputTerm → Option Value
  | .constant v => some v
  | .register r => if r < rf.length then some ((rf.getD r none).getD Value.nil) else none

/-- The phenotype answer the RemoveNode arm computes, phrased over the
pre-mutation diagram. -/
def remove_node_phenotype (d : GraphDiagram) (n : NodeIndex) : Bool :=
  if d.get_on_match n = d.get_on_refute n ∧ node_could_be_passthrough d n then false
  else !(d.get_match_sources n).isEmpty || !(d.get_refute_sources n).isEmpty

/-- A two-output-node diagram: node 0 emits @1(:1), node 1 emits @2(:2),
the root is node 0. -/
def c1_diagram : GraphDiagram :=
  ⟨0, [0],
   [GraphNode.new (.outputNode 1 [.constant (.symbol 1)]),
    GraphNode.new (.outputNode 2 [.constant (.symbol 2)])]⟩

/-! Observation and invariant helpers for the evaluator claims (C3, C6). -/

/-- The distinct register files recorded in a register set. -/
def RegisterSet.files (s : RegisterSet) : List RegisterFile := s.states.map Prod.fst

/-- All weights in an entry list are positive (true throughout any run
seeded with weight 1). -/
def pos_entries (l : List (RegisterFile × Weight × Nat)) : Prop := ∀ e ∈ l, 0 < e.2.1

/-- A register file of width k whose bound slots carry values from a
fixed universe. -/
def file_in_universe (k : Nat) (vals : List Value) (rf : RegisterFile) : Prop :=
  rf.length = k ∧ ∀ v : Value, some v ∈ rf → v ∈ vals

/-- A register set with unique keys, positive weights and universe-bound
files. -/
def good_set (k : Nat) (vals : List Value) (s : RegisterSet) : Prop :=
  (s.states.map Prod.fst).Nodup ∧ pos_entries s.states ∧
    ∀ e ∈ s.states, file_in_universe k vals e.1

/-- Positivity of a recorded node output. -/
def pos_output : Option NodeOutputState → Prop
  | some (.matchOut m r) => pos_entries m.states ∧ pos_entries r.states
  | _ => True

/-- Well-formedness of a recorded node output for the counting argument. -/
def good_output (k : Nat) (vals : List Value) : Option NodeOutputState → Prop
  | some (.matchOut m r) => good_set k vals m ∧ good_set k vals r
  | _ => True

/-- Every value appearing in some fact of the database. -/
def db_values (db : Database) : List Value := db.all_facts.flatMap (·.values)

/-- A (result file, refuted) pair is already recorded on the respective
side of a node output. -/
def resultIn (fr : RegisterFile × Bool) : Option NodeOutputState → Prop
  | some (.matchOut m r) => if fr.2 then fr.1 ∈ r.files else fr.1 ∈ m.files
  | _ => False

/-- An emitted fact is already recorded in a node's output database. -/
def outFactIn (f : Fact) : Option NodeOutputState → Prop
  | some (.outputOut odb) => odb.containsFact f = true
  | _ => False

/-- Per-node quiescence: every binding accumulated in the node's input
(respecting the depth bound at match nodes) already has its propagation
results recorded in the node's output. -/
def quiescent_at (d : GraphDiagram) (db : Database) (e : Evaluation) (n : NodeIndex) : Prop :=
  match d.get_node n with
  | .matchNode p ts =>
    ∀ ent ∈ (e.states.getD n junkState).input.states, ent.2.2 < e.max_depth →
      ∀ vs ∈ db.facts_for_predicate p,
        resultIn (match_fact ts ent.1 vs) (e.states.getD n junkState).output
  | .outputNode p ts =>
    ∀ ent ∈ (e.states.getD n junkState).input.states,
      outFactIn ⟨p, output_values ts ent.1⟩ (e.states.getD n junkState).output

/-- A stable (finalised) evaluation: positive output weights and per-node
quiescence. -/
def Evaluation.stable (d : GraphDiagram) (db : Database) (e : Evaluation) : Prop :=
  (∀ s ∈ e.states, pos_output s.output) ∧ ∀ n, quiescent_at d db e n

/-- Everything one propagation output produced is already present in a
recorded output. -/
def out_le (a : NodeOutputState) (b : Option NodeOutputState) : Prop :=
  match a, b with
  | .matchOut m r, some (.matchOut m2 r2) =>
    (∀ rf ∈ m.files, rf ∈ m2.files) ∧ (∀ rf ∈ r.files, rf ∈ r2.files)
  | .outputOut odb, some (.outputOut odb2) => ∀ f ∈ odb.all_facts, odb2.containsFact f = true
  | .matchOut m r, _ => m.states = [] ∧ r.states = []
  | .outputOut odb, _ => odb.all_facts = []

/-- The fixpoint property of claim C6: one more propagation step at any
node, over that node's accumulated input, produces nothing that is not
already recorded. -/
def no_new_files (d : GraphDiagram) (db : Database) (e : Evaluation) : Prop :=
  ∀ n, out_le (propagate d n db (e.states.getD n junkState).input (some e.max_depth))
    (e.states.getD n junkState).output

/-- One pending worklist item still carries this binding (at a depth no
worse than the recorded one) to this node. -/
def pend_covers (p : List (NodeIndex × RegisterSet)) (n : NodeIndex)
    (ent : RegisterFile × Weight × Nat) : Prop :=
  ∃ q ∈ p, q.1 = n ∧ ∃ ent2 ∈ q.2.states, ent2.1 = ent.1 ∧ ent2.2.2 ≤ ent.2.2

/-- The worklist-loop invariant at one node: every accumulated input
binding is either already processed into the recorded output or still
covered by a pending item. -/
def inv_at (d : GraphDiagram) (db : Database) (e : Evaluation)
    (p : List (NodeIndex × RegisterSet)) (n : NodeIndex) : Prop :=
  match d.get_node n with
  | .matchNode pr ts =>
    ∀ ent ∈ (e.states.getD n junkState).input.states, ent.2.2 < e.max_depth →
      (∀ vs ∈ db.facts_for_predicate pr,
        resultIn (match_fact ts ent.1 vs) (e.states.getD n junkState).output) ∨
      pend_covers p n ent
  | .outputNode pr ts =>
    ∀ ent ∈ (e.states.getD n junkState).input.states,
      outFactIn ⟨pr, output_values ts ent.1⟩ (e.states.getD n junkState).output ∨
      pend_covers p n ent

/-- The full worklist-loop invariant. -/
def run_inv (d : GraphDiagram) (db : Database) (e : Evaluation)
    (p : List (NodeIndex × RegisterSet)) : Prop :=
  (∀ s ∈ e.states, pos_output s.output) ∧ (∀ q ∈ p, pos_entries q.2.states) ∧
    ∀ n, inv_at d db e p n

/-- All register files of width k over a value universe. -/
def allFiles : Nat → List Value → List RegisterFile
  | 0, _ => [[]]
  | k + 1, vals => (none :: vals.map some).flatMap (fun o => (allFiles k vals).map (o :: ·))

/-- Remaining capacity of one node output for the termination measure. -/
def out_cap (cc : Nat) : Option NodeOutputState → Nat
  | none => 1 + 2 * cc
  | some (.matchOut m r) => (cc - m.states.length) + (cc - r.states.length)
  | some (.outputOut _) => 0

/-- Total remaining capacity of an evaluation. -/
def Evaluation.capN (cc : Nat) (e : Evaluation) : Nat :=
  (e.states.map (fun s => out_cap cc s.output)).sum

/-- Total number of outgoing match/refute edges of the diagram: a bound
on how many items one worklist step can enqueue. -/
def total_edges (d : GraphDiagram) : Nat :=
  (d.graph.map (fun g => g.out_edges.on_match.length + g.out_edges.on_refute.length)).sum

/-- The invariant of the termination argument. -/
def term_inv (k : Nat) (vals : List Value) (e : Evaluation)
    (p : List (NodeIndex × RegisterSet)) : Prop :=
  (∀ s ∈ e.states, good_output k vals s.output) ∧ ∀ q ∈ p, good_set k vals q.2

/-- The strictly decreasing worklist measure. -/
def phi (cc t : Nat) (e : Evaluation) (p : List (NodeIndex × RegisterSet)) : Nat :=
  p.length + e.capN cc * (t + 1)

/-- A recorded node output matches the kind of the diagram's node there
(the source panics on "node changed type?", so a run never mixes
kinds). -/
def out_kind_ok (d : GraphDiagram) (e : Evaluation) (n : NodeIndex) : Prop :=
  match (e.states.getD n junkState).output, d.get_node n with
  | none, _ => True
  | some (.matchOut _ _), .matchNode _ _ => True
  | some (.outputOut _), .outputNode _ _ => True
  | _, _ => False

/-- A node state that carries no information: empty input and no recorded
output (the state produced by invalidation, by `grow`, and by an
out-of-range access). -/
def reset_at (e : Evaluation) (n : NodeIndex) : Prop :=
  (e.states.getD n junkState).input.states = [] ∧
    (e.states.getD n junkState).output = none


/-! Claim C1: incremental re-evaluation versus full evaluation. -/

/-- C1 fails on the code: `SetEdge{Root, 1}` applies successfully with
result (phenotype_could_have_changed = true, node_to_restart = None), but
`rerun_from` with the empty start list — the contract for a None restart
hint — invalidates nothing and rebuilds total_db from the STALE node
states of the pre-mutation evaluation: the result still contains @1(:1)
and lacks @2(:2), while a from-scratch `run_multi` of the mutated diagram
contains @2(:2) and not @1(:1).  The spec (§4.3) asserts the empty start
list "forces a full rebuild"; the code does not. -/
theorem rerun_from_empty_start_is_stale :
    (apply_mutation c1_diagram (.setEdge .root 1)).2 = some ⟨true, none⟩ ∧
    ((Evaluation.run_multi c1_diagram Database.new 0 100).bind
        (fun e0 => e0.rerun_from (apply_mutation c1_diagram (.setEdge .root 1)).1
          Database.new [] 0 100)).map
      (fun e => (e.total_db.containsFact ⟨1, [.symbol 1]⟩,
                 e.total_db.containsFact ⟨2, [.symbol 2]⟩)) = some (true, false) ∧
    (Evaluation.run_multi (apply_mutation c1_diagram (.setEdge .root 1)).1
        Database.new 0 100).map
      (fun e => (e.total_db.containsFact ⟨1, [.symbol 1]⟩,
                 e.total_db.containsFact ⟨2, [.symbol 2]⟩)) = some (false, true) := by
  decide

/-! Claim C10: `FixGraph` edge-slot aliasing. -/

/-- C10 fails on the code: `edge_num_to_index` divides the node index by
`edges_per_node` instead of multiplying, so with two edge slots per node
the distinct slots (node 0, edge 1) and (node 1, edge 1) share index 1:
writing one is visible through the other, and writing (node 1, edge 1)
overwrites (node 0, edge 1).  The block allocation in `push` (extending
`edges` by `edges_per_node` invalid slots per node) shows the intended
layout is `node * edges_per_node + edge`. -/
theorem fixgraph_edge_slot_aliasing :
    ((((FixGraph.new 2).push 10).1.push 20).1.set_edge 0 1 1).get_edge 1 1 = some 1 ∧
    (((((FixGraph.new 2).push 10).1.push 20).1.set_edge 0 1 1).set_edge 1 1 0).get_edge 0 1 =
      some 0 ∧
    ((((FixGraph.new 2).push 10).1.push 20).1.set_edge 0 1 1).get_edge 0 1 = some 1 := by
  decide

/-! Claims C7 and C8: the mutation algebra. -/

theorem modify_refute_sources (d : GraphDiagram) (m : NodeIndex) (f : GraphNode → GraphNode)
    (hf : ∀ g, (f g).in_edges.on_refute = g.in_edges.on_refute) (x : NodeIndex) :
    (d.modify_graph_node m f).refute_source_group x = d.refute_source_group x := by
  unfold GraphDiagram.refute_source_group GraphDiagram.modify_graph_node
  simp only [List.getD_eq_getElem?_getD, List.getElem?_modify]
  cases h : d.graph[x]? with
  | none => simp
  | some g => by_cases hmx : m = x <;> simp [hmx, hf g]

theorem set_on_match_refute_sources (d : GraphDiagram) (s t x : NodeIndex) :
    (d.set_on_match s t).refute_source_group x = d.refute_source_group x := by
  unfold GraphDiagram.set_on_match
  cases h : d.get_on_match s with
  | none =>
    rw [modify_refute_sources _ _
        (fun g => { g with in_edges := { g.in_edges with
          on_match := insert_into_group g.in_edges.on_match s } }) (fun g => rfl) x,
      modify_refute_sources _ _
        (fun g => { g with out_edges := { g.out_edges with on_match := [t] } })
        (fun g => rfl) x]
  | some old =>
    rw [modify_refute_sources _ _
        (fun g => { g with in_edges := { g.in_edges with
          on_match := insert_into_group g.in_edges.on_match s } }) (fun g => rfl) x,
      modify_refute_sources _ _
        (fun g => { g with out_edges := { g.out_edges with on_match := [t] } })
        (fun g => rfl) x,
      modify_refute_sources _ _
        (fun g => { g with in_edges := { g.in_edges with
          on_match := remove_from_group g.in_edges.on_match s } }) (fun g => rfl) x]

theorem clear_on_match_refute_sources (d : GraphDiagram) (s x : NodeIndex) :
    (d.clear_on_match s).refute_source_group x = d.refute_source_group x := by
  unfold GraphDiagram.clear_on_match
  cases h : d.get_on_match s with
  | none =>
    rw [modify_refute_sources _ _
        (fun g => { g with out_edges := { g.out_edges with on_match := [] } })
        (fun g => rfl) x]
  | some old =>
    rw [modify_refute_sources _ _
        (fun g => { g with out_edges := { g.out_edges with on_match := [] } })
        (fun g => rfl) x,
      modify_refute_sources _ _
        (fun g => { g with in_edges := { g.in_edges with
          on_match := remove_from_group g.in_edges.on_match s } }) (fun g => rfl) x]

theorem fold_step_refute_sources (step : GraphDiagram → NodeIndex → GraphDiagram)
    (hstep : ∀ dd s x, (step dd s).refute_source_group x = dd.refute_source_group x)
    (l : List NodeIndex) :
    ∀ (d : GraphDiagram) (x : NodeIndex),
      (l.foldl step d).refute_source_group x = d.refute_source_group x := by
  induction l with
  | nil => intro d x; rfl
  | cons s rest ih =>
    intro d x
    rw [List.foldl_cons, ih, hstep]

/-- C7 fails on the code: the very first guard of the RemoveNode arm
rejects the root, so removing an existing node does NOT always succeed
(the claim asserts it does for every existing node). -/
theorem remove_root_counterexample :
    0 < (GraphDiagram.mk 0 [0] [GraphNode.new (.outputNode 0 [])]).len ∧
    (apply_mutation (GraphDiagram.mk 0 [0] [GraphNode.new (.outputNode 0 [])])
      (.removeNode 0)).2 = none := by
  decide

/-- C7 amended: RemoveNode{n} succeeds exactly on existing non-root
nodes, always with node_to_restart = None; phenotype_could_have_changed
is false when n's match target equals its refute target and n is a Match
node none of whose terms writes a register (the splice is then a
passthrough elimination), and otherwise it is true iff n has at least one
incoming match or refute source (the root cannot be removed, so root
reachability never counts). -/
theorem remove_node_spec (d : GraphDiagram) (n : NodeIndex)
    (hn : n < d.len) (hroot : d.get_root ≠ some n) :
    ((apply_mutation d (.removeNode n)).2 =
      some ⟨remove_node_phenotype d n, none⟩) ∧
    (∀ m, d.get_root = some m → (apply_mutation d (.removeNode m)).2 = none) ∧
    (∀ m, m ≥ d.len → (apply_mutation d (.removeNode m)).2 = none) := by
  refine ⟨?_, ?_, ?_⟩
  · have hnlt : ¬ (n ≥ d.len) := Nat.not_le.mpr hn
    have hr : ¬ (some n = d.get_root) := fun h => hroot h.symm
    have hpreserve :
        ((match d.get_on_match n with
          | some on_match =>
            (d.get_match_sources n).foldl
              (fun (dd : GraphDiagram) src => dd.set_on_match src on_match) d
          | none =>
            (d.get_match_sources n).foldl
              (fun (dd : GraphDiagram) src => dd.clear_on_match src) d) :
          GraphDiagram).get_refute_sources n = d.get_refute_sources n := by
      cases d.get_on_match n with
      | some on_match =>
        exact fold_step_refute_sources _
          (fun dd s x => set_on_match_refute_sources dd s on_match x)
          (d.get_match_sources n) d n
      | none =>
        exact fold_step_refute_sources _
          (fun dd s x => clear_on_match_refute_sources dd s x)
          (d.get_match_sources n) d n
    by_cases hcond : d.get_on_match n = d.get_on_refute n ∧ node_could_be_passthrough d n = true
    · simp only [apply_mutation, hnlt, if_false, hr, remove_node_phenotype, hpreserve]
      rw [if_pos hcond, if_pos hcond]
    · simp only [apply_mutation, hnlt, if_false, hr, remove_node_phenotype, hpreserve]
      rw [if_neg hcond, if_neg hcond]
  · intro m hm
    by_cases hmlen : m ≥ d.len
    · simp [apply_mutation, hmlen]
    · simp [apply_mutation, hmlen, hm.symm]
  · intro m hm
    simp [apply_mutation, hm]

/-- Witness for C7's amended theorem: removing the non-root output node
of a two-node diagram succeeds with (true, None) since it has a match
source. -/
theorem remove_node_spec_witness :
    (apply_mutation
      (GraphDiagram.mk 2 [0]
        [⟨.matchNode 0 [⟨.free, some 0⟩], ⟨[1], []⟩, ⟨[], []⟩⟩,
         ⟨.outputNode 1 [.register 0], ⟨[], []⟩, ⟨[0], []⟩⟩])
      (.removeNode 1)).2 = some ⟨true, none⟩ := by
  have h := remove_node_spec
    (GraphDiagram.mk 2 [0]
      [⟨.matchNode 0 [⟨.free, some 0⟩], ⟨[1], []⟩, ⟨[], []⟩⟩,
       ⟨.outputNode 1 [.register 0], ⟨[], []⟩, ⟨[0], []⟩⟩])
    1 (by decide) (by decide)
  rw [h.1]
  decide

/-- C8 fails on the code: `SetEdge` with a Root edge performs no bounds
check — on a one-node diagram, target 5 (≥ len) is accepted, the root
becomes the dangling index 5, and success is reported. -/
theorem set_edge_root_out_of_range_counterexample :
    (GraphDiagram.mk 0 [0] [GraphNode.new (.outputNode 0 [])]).len ≤ 5 ∧
    (apply_mutation (GraphDiagram.mk 0 [0] [GraphNode.new (.outputNode 0 [])])
      (.setEdge .root 5)).2 = some ⟨true, none⟩ ∧
    (apply_mutation (GraphDiagram.mk 0 [0] [GraphNode.new (.outputNode 0 [])])
      (.setEdge .root 5)).1.roots = [5] := by
  decide

/-- C8 amended: every mutation arm that bounds-checks its node reference
(SetConstraintRegister/Constant/Free, SetTarget, RemoveNode, SetEdge on a
Match or Refute edge, SetOutputRegister/Constant, SetPredicate) returns
None and leaves the diagram unchanged when the referenced node index is ≥
diagram.len(); SetEdge with a Root edge is the exception: it never
bounds-checks, sets the root to the given target (even out of range) and
reports success. -/
theorem mutation_bounds_spec (d : GraphDiagram) (node term register : Nat)
    (value : Value) (reg? : Option Nat) (target : NodeIndex) (p : Predicate)
    (hnode : node ≥ d.len) :
    apply_mutation d (.setConstraintRegister ⟨node, term⟩ register) = (d, none) ∧
    apply_mutation d (.setConstraintConstant ⟨node, term⟩ value) = (d, none) ∧
    apply_mutation d (.setConstraintFree ⟨node, term⟩) = (d, none) ∧
    apply_mutation d (.setTarget ⟨node, term⟩ reg?) = (d, none) ∧
    apply_mutation d (.removeNode node) = (d, none) ∧
    apply_mutation d (.setEdge (.matchEdge node) target) = (d, none) ∧
    apply_mutation d (.setEdge (.refuteEdge node) target) = (d, none) ∧
    (∀ src, apply_mutation d (.setEdge (.matchEdge src) node) = (d, none)) ∧
    (∀ src, apply_mutation d (.setEdge (.refuteEdge src) node) = (d, none)) ∧
    apply_mutation d (.setOutputRegister ⟨node, term⟩ register) = (d, none) ∧
    apply_mutation d (.setOutputConstant ⟨node, term⟩ value) = (d, none) ∧
    apply_mutation d (.setPredicate node p) = (d, none) ∧
    apply_mutation d (.setEdge .root node) = (d.set_root node, some ⟨true, none⟩) := by
  refine ⟨?_, ?_, ?_, ?_, ?_, ?_, ?_, ?_, ?_, ?_, ?_, ?_, ?_⟩ <;>
    simp [apply_mutation, set_match_term, hnode]

/-- Witness for C8's amended theorem at a concrete one-node diagram and
index 7. -/
theorem mutation_bounds_spec_witness :
    apply_mutation (GraphDiagram.mk 0 [0] [GraphNode.new (.outputNode 0 [])])
      (.removeNode 7) =
      ((GraphDiagram.mk 0 [0] [GraphNode.new (.outputNode 0 [])]), none) ∧
    apply_mutation (GraphDiagram.mk 0 [0] [GraphNode.new (.outputNode 0 [])])
      (.setEdge .root 7) =
      ((GraphDiagram.mk 0 [0] [GraphNode.new (.outputNode 0 [])]).set_root 7,
       some ⟨true, none⟩) := by
  have h := mutation_bounds_spec (GraphDiagram.mk 0 [0] [GraphNode.new (.outputNode 0 [])])
    7 0 0 Value.nil none 0 0 (by decide)
  exact ⟨h.2.2.2.2.1, h.2.2.2.2.2.2.2.2.2.2.2.2⟩

/-! Claim C4: `RegisterSet::push`. -/

theorem push_state_list_absent (rf : RegisterFile) (w : Weight) (d : Nat)
    (l : List (RegisterFile × Weight × Nat)) (h : ∀ e ∈ l, e.1 ≠ rf) :
    push_state_list l rf w d = (l ++ [(rf, w, d)], true) := by
  induction l with
  | nil => simp [push_state_list]
  | cons e rest ih =>
    obtain ⟨k, w0, d0⟩ := e
    have hk : k ≠ rf := h _ (List.mem_cons_self _ _)
    simp only [push_state_list, if_neg hk,
      ih (fun e he => h e (List.mem_cons_of_mem _ he)), List.cons_append]

theorem push_state_list_present (rf : RegisterFile) (w w0 : Weight) (d d0 : Nat) :
    ∀ (l : List (RegisterFile × Weight × Nat)), (l.map Prod.fst).Nodup →
    l.find? (fun e => e.1 = rf) = some (rf, w0, d0) →
    (push_state_list l rf w d).2 = false ∧
    ((push_state_list l rf w d).1.find? (fun e => e.1 = rf)).map (·.2) =
      (if w0 + w = 0 then none else some (w0 + w, min d0 d)) := by
  intro l
  induction l with
  | nil => intro _ h; simp [List.find?] at h
  | cons e rest ih =>
    intro hnodup hfind
    rw [List.map_cons, List.nodup_cons] at hnodup
    obtain ⟨k, w1, d1⟩ := e
    by_cases hk : k = rf
    · subst hk
      have heq : ((k, w1, d1) : RegisterFile × Weight × Nat) = (k, w0, d0) := by
        have h := List.find?_cons_of_pos (p := fun e => decide (e.1 = k))
          (l := rest) (a := (k, w1, d1)) (by simp)
        rw [h] at hfind
        exact Option.some.inj hfind
      have hw1 : w1 = w0 := congrArg (fun x => x.2.1) heq
      have hd1 : d1 = d0 := congrArg (fun x => x.2.2) heq
      subst hw1; subst hd1
      have hkeys : ∀ e ∈ rest, ¬ (e.1 = k) := by
        intro e he hek
        exact hnodup.1 (List.mem_map.mpr ⟨e, he, hek⟩)
      by_cases hz : w1 + w = 0
      · refine ⟨by simp [push_state_list, hz], ?_⟩
        have hnone : rest.find? (fun e => e.1 = k) = none :=
          List.find?_eq_none.mpr (by simpa using hkeys)
        simp [push_state_list, hz, hnone]
      · refine ⟨by simp [push_state_list, hz], ?_⟩
        have hmin : (if d1 > d then d else d1) = min d1 d := by
          rw [Nat.min_def]; split_ifs <;> omega
        simp [push_state_list, hz, List.find?_cons_of_pos, hmin]
    · have hrec := ih hnodup.2
        (by rwa [List.find?_cons_of_neg _ (by simpa using hk)] at hfind)
      refine ⟨?_, ?_⟩
      · simpa [push_state_list, hk] using hrec.1
      · simpa [push_state_list, hk, List.find?_cons_of_neg, hk] using hrec.2

/-- C4: for a register set with unique keys and a register file of
matching width, `push(rf, w, d)` appends a fresh entry carrying weight w
and depth d and returns true when rf is absent; when rf is present with
weight w0 and depth d0 it returns false and the stored slot becomes
(w0 + w, min d0 d), the entry disappearing entirely when w0 + w = 0. -/
theorem registerSet_push_spec (s : RegisterSet) (rf : RegisterFile) (w : Weight) (d : Nat)
    (hw : rf.length = s.num_registers) (hnodup : (s.states.map Prod.fst).Nodup) :
    (s.find? rf = none →
      s.push rf w d = (⟨s.num_registers, s.states ++ [(rf, w, d)]⟩, true)) ∧
    (∀ w0 d0, s.find? rf = some (w0, d0) →
      (s.push rf w d).2 = false ∧
      (s.push rf w d).1.find? rf =
        (if w0 + w = 0 then none else some (w0 + w, min d0 d))) := by
  constructor
  · intro habs
    have habs' : s.states.find? (fun e => e.1 = rf) = none := by
      simpa [RegisterSet.find?, Option.map_eq_none'] using habs
    have h : ∀ e ∈ s.states, e.1 ≠ rf := by
      intro e he
      simpa using List.find?_eq_none.mp habs' e he
    simp [RegisterSet.push, push_state_list_absent rf w d s.states h]
  · intro w0 d0 hfind
    have hsome : s.states.find? (fun e => e.1 = rf) = some (rf, w0, d0) := by
      simp only [RegisterSet.find?, Option.map_eq_some'] at hfind
      obtain ⟨e, he, hev⟩ := hfind
      have h1 : e.1 = rf := by simpa using List.find?_some he
      obtain ⟨k, wd⟩ := e
      have h1' : k = rf := h1
      subst h1'
      subst hev
      exact he
    have := push_state_list_present rf w w0 d d0 s.states hnodup hsome
    exact ⟨this.1, by simpa [RegisterSet.push, RegisterSet.find?] using this.2⟩

/-- Witness for C4 at a concrete register set: pushing weight −2 onto an
existing entry of weight 2 removes it and reports no new state. -/
theorem registerSet_push_spec_witness :
    (RegisterSet.push ⟨1, [([none], 2, 3)]⟩ [none] (-2) 5).2 = false ∧
    (RegisterSet.push ⟨1, [([none], 2, 3)]⟩ [none] (-2) 5).1.find? [none] = none := by
  have h := registerSet_push_spec ⟨1, [([none], 2, 3)]⟩ [none] (-2) 5 (by decide) (by decide)
  have h2 := h.2 2 3 (by decide)
  exact ⟨h2.1, by simpa using h2.2⟩

/-! Claim C5: output tuple construction. -/

theorem output_value_step_contrib (rf : RegisterFile) (acc : List Value) (t : OutputTerm) :
    output_value_step rf acc t = acc ++ (output_contrib rf t).toList := by
  cases t with
  | constant v => simp [output_value_step, output_contrib]
  | register r =>
    simp only [output_value_step, output_contrib]
    by_cases hr : r < rf.length
    · simp only [if_pos hr]
      cases hv : rf.getD r none with
      | some v => simp
      | none => simp
    · simp only [if_neg hr]; simp

theorem output_values_loop (rf : RegisterFile) (terms : List OutputTerm) :
    ∀ acc : List Value,
    terms.foldl (output_value_step rf) acc = acc ++ terms.filterMap (output_contrib rf) := by
  induction terms with
  | nil => simp
  | cons t rest ih =>
    intro acc
    rw [List.foldl_cons, output_value_step_contrib, ih, List.filterMap_cons]
    cases h : output_contrib rf t <;> simp [h]

/-! Claims C2 and C9: match-node propagation semantics. -/

theorem getD_set_self (l : List (Option Value)) (i : Nat) (a : Option Value)
    (h : i < l.length) : (l.set i a).getD i none = a := by
  simp [List.getD_eq_getElem?_getD, List.getElem?_set, h]

theorem getD_set_ne (l : List (Option Value)) (i j : Nat) (a : Option Value)
    (h : i ≠ j) : (l.set i a).getD j none = l.getD j none := by
  simp [List.getD_eq_getElem?_getD, List.getElem?_set, h]

theorem match_term_step_split (rf : RegisterFile) (acc : RegisterFile × Bool)
    (tv : MatchTerm × Value) :
    match_term_step rf acc tv =
      (match_write_step acc.1 tv, acc.2 || constraint_fails rf tv.1.constraint tv.2) := by
  obtain ⟨t, v⟩ := tv
  obtain ⟨c, tgt⟩ := t
  cases c with
  | free => simp [match_term_step, match_write_step, constraint_fails]
  | constant v0 =>
    by_cases hv : v0 ≠ v <;>
      simp [match_term_step, match_write_step, constraint_fails, hv]
  | register r =>
    by_cases hv : rf.getD r none ≠ some v <;>
      simp [match_term_step, match_write_step, constraint_fails, hv, Bool.or_comm]

theorem match_fact_fold_split (rf : RegisterFile) (l : List (MatchTerm × Value)) :
    ∀ (r0 : RegisterFile) (b0 : Bool),
    l.foldl (match_term_step rf) (r0, b0) =
      (l.foldl match_write_step r0,
       b0 || l.any (fun tv => constraint_fails rf tv.1.constraint tv.2)) := by
  induction l with
  | nil => simp
  | cons tv rest ih =>
    intro r0 b0
    rw [List.foldl_cons, match_term_step_split, ih, List.foldl_cons, List.any_cons]
    simp [Bool.or_assoc]

/-- `match_fact` decomposed into its register writes and its refutation
flag. -/
theorem match_fact_split (ts : List MatchTerm) (rf : RegisterFile) (vs : List Value) :
    match_fact ts rf vs =
      ((ts.zip vs).foldl match_write_step rf,
       (ts.zip vs).any (fun tv => constraint_fails rf tv.1.constraint tv.2)) := by
  simpa [match_fact] using match_fact_fold_split rf (ts.zip vs) rf false

theorem match_write_step_length (r0 : RegisterFile) (tv : MatchTerm × Value) :
    (match_write_step r0 tv).length = r0.length := by
  obtain ⟨t, v⟩ := tv
  cases ht : t.target <;> simp [match_write_step, ht]

theorem write_fold_length (l : List (MatchTerm × Value)) :
    ∀ r0 : RegisterFile, (l.foldl match_write_step r0).length = r0.length := by
  induction l with
  | nil => simp
  | cons tv rest ih =>
    intro r0
    rw [List.foldl_cons, ih, match_write_step_length]

theorem write_fold_frame (l : List (MatchTerm × Value)) (j : Nat) :
    ∀ r0 : RegisterFile, (∀ tv ∈ l, tv.1.target ≠ some j) →
    (l.foldl match_write_step r0).getD j none = r0.getD j none := by
  induction l with
  | nil => simp
  | cons tv rest ih =>
    intro r0 h
    rw [List.foldl_cons, ih _ (fun tv htv => h tv (List.mem_cons_of_mem _ htv))]
    obtain ⟨t, v⟩ := tv
    cases ht : t.target with
    | none => simp [match_write_step, ht]
    | some t0 =>
      have hne : t0 ≠ j := by
        intro he
        exact h _ (List.mem_cons_self _ _) (by simp [ht, he])
      simp [match_write_step, ht, List.getElem?_set, hne]

theorem write_fold_mem (l : List (MatchTerm × Value))
    (hnd : (l.filterMap (fun tv => tv.1.target)).Nodup) :
    ∀ r0 : RegisterFile, (∀ tv ∈ l, ∀ t, tv.1.target = some t → t < r0.length) →
    ∀ tv ∈ l, ∀ t, tv.1.target = some t →
      (l.foldl match_write_step r0).getD t none = some tv.2 := by
  induction l with
  | nil => simp
  | cons hd rest ih =>
    intro r0 hrange tv htv t ht
    rcases List.mem_cons.mp htv with heq | hmem
    · subst heq
      rw [List.foldl_cons]
      have hrest : ∀ tv2 ∈ rest, tv2.1.target ≠ some t := by
        intro tv2 htv2 ht2
        rw [List.filterMap_cons, ht] at hnd
        exact (List.nodup_cons.mp hnd).1 (List.mem_filterMap.mpr ⟨tv2, htv2, ht2⟩)
      rw [write_fold_frame rest t _ hrest]
      have hlt : t < r0.length := hrange tv (List.mem_cons_self _ _) t ht
      simp [match_write_step, ht, List.getElem?_set, hlt]
    · rw [List.foldl_cons]
      have hnd' : (rest.filterMap (fun tv => tv.1.target)).Nodup := by
        rw [List.filterMap_cons] at hnd
        cases h : hd.1.target with
        | none => rwa [h] at hnd
        | some t0 =>
          rw [h] at hnd
          exact (List.nodup_cons.mp hnd).2
      have hrange' : ∀ tv2 ∈ rest, ∀ t2, tv2.1.target = some t2 →
          t2 < (match_write_step r0 hd).length := by
        intro tv2 htv2 t2 ht2
        rw [match_write_step_length]
        exact hrange tv2 (List.mem_cons_of_mem _ htv2) t2 ht2
      exact ih hnd' (match_write_step r0 hd) hrange' tv hmem t ht

theorem push_all_cons (s : RegisterSet) (e : RegisterFile × Weight × Nat)
    (l : List (RegisterFile × Weight × Nat)) :
    s.push_all (e :: l) = ((s.push e.1 e.2.1 e.2.2).1).push_all l := by
  simp [RegisterSet.push_all]

theorem propagate_match_fold (ts : List MatchTerm) (rf : RegisterFile) (w : Weight)
    (d : Nat) (facts : List (List Value)) :
    ∀ (m r : RegisterSet) (b : Bool),
    ((facts.foldl (propagate_match_fact_step ts rf w d) (m, r, b)).1 =
      m.push_all ((facts.filter (fun vs => !(match_fact ts rf vs).2)).map
        (fun vs => ((match_fact ts rf vs).1, w, d + 1)))) ∧
    ((facts.foldl (propagate_match_fact_step ts rf w d) (m, r, b)).2.1 =
      r.push_all ((facts.filter (fun vs => (match_fact ts rf vs).2)).map
        (fun vs => ((match_fact ts rf vs).1, w, d + 1)))) := by
  induction facts with
  | nil => simp [RegisterSet.push_all]
  | cons vs rest ih =>
    intro m r b
    by_cases hre : (match_fact ts rf vs).2
    · have hstep : propagate_match_fact_step ts rf w d (m, r, b) vs =
          (m, (r.push (match_fact ts rf vs).1 w (d + 1)).1,
           b || (r.push (match_fact ts rf vs).1 w (d + 1)).2) := by
        simp [propagate_match_fact_step, hre]
      rw [List.foldl_cons, hstep]
      refine ⟨?_, ?_⟩
      · rw [(ih _ _ _).1]
        simp [hre]
      · rw [(ih _ _ _).2]
        simp [hre, push_all_cons]
    · have hstep : propagate_match_fact_step ts rf w d (m, r, b) vs =
          ((m.push (match_fact ts rf vs).1 w (d + 1)).1, r,
           b || (m.push (match_fact ts rf vs).1 w (d + 1)).2) := by
        simp [propagate_match_fact_step, hre]
      rw [List.foldl_cons, hstep]
      refine ⟨?_, ?_⟩
      · rw [(ih _ _ _).1]
        simp [hre, push_all_cons]
      · rw [(ih _ _ _).2]
        simp [hre]

/-- C2: for a match node whose term count does not exceed the fact width,
with in-range and pairwise-distinct targets and in-range register
constraints, each fact's propagation starts from a copy of rf, writes the
fact value into every targeted slot (refuted or not), leaves other slots
untouched, refutes exactly when some term's constraint fails against the
original rf (failed Constant, or Register slot differing from the value —
an unbound register refutes), and the results land in the refute
(respectively match) set with the same weight and depth + 1. -/
theorem propagate_match_spec (p : Predicate) (ts : List MatchTerm) (db : Database)
    (rf : RegisterFile) (w : Weight) (d : Nat) (m0 r0 : RegisterSet)
    (harity : ∀ vs ∈ db.facts_for_predicate p, ts.length ≤ vs.length)
    (htnd : (ts.filterMap (·.target)).Nodup)
    (htr : ∀ t ∈ ts, ∀ i, t.target = some i → i < rf.length) :
    (∀ vs ∈ db.facts_for_predicate p,
      (match_fact ts rf vs).1.length = rf.length ∧
      (∀ i t, ∀ hi : i < ts.length, (ts.get ⟨i, hi⟩).target = some t →
        (match_fact ts rf vs).1.getD t none = some (vs.getD i Value.nil)) ∧
      (∀ j, (∀ t ∈ ts, t.target ≠ some j) →
        (match_fact ts rf vs).1.getD j none = rf.getD j none)) ∧
    (∀ vs ∈ db.facts_for_predicate p,
      ((match_fact ts rf vs).2 = true ↔
        ∃ i, ∃ hi : i < ts.length,
          constraint_fails rf (ts.get ⟨i, hi⟩).constraint (vs.getD i Value.nil) = true)) ∧
    ((propagate_match_node_into_output p ts db rf w d m0 r0).1 =
      m0.push_all (((db.facts_for_predicate p).filter
        (fun vs => !(match_fact ts rf vs).2)).map
        (fun vs => ((match_fact ts rf vs).1, w, d + 1)))) ∧
    ((propagate_match_node_into_output p ts db rf w d m0 r0).2.1 =
      r0.push_all (((db.facts_for_predicate p).filter
        (fun vs => (match_fact ts rf vs).2)).map
        (fun vs => ((match_fact ts rf vs).1, w, d + 1)))) := by
  have hzlen : ∀ vs ∈ db.facts_for_predicate p, (ts.zip vs).length = ts.length := by
    intro vs hvs
    rw [List.length_zip]
    exact Nat.min_eq_left (harity vs hvs)
  refine ⟨?_, ?_, ?_, ?_⟩
  · intro vs hvs
    have hnd' : ((ts.zip vs).filterMap (fun tv => tv.1.target)).Nodup := by
      have : (ts.zip vs).filterMap (fun tv => tv.1.target) =
          ((ts.zip vs).map Prod.fst).filterMap (·.target) := by
        rw [List.filterMap_map]
        rfl
      rw [this, List.map_fst_zip ts vs (harity vs hvs)]
      exact htnd
    have hrange : ∀ tv ∈ ts.zip vs, ∀ t, tv.1.target = some t → t < rf.length := by
      intro tv htv t ht
      exact htr tv.1 (List.of_mem_zip htv).1 t ht
    refine ⟨?_, ?_, ?_⟩
    · rw [match_fact_split]
      exact write_fold_length _ rf
    · intro i t hi ht
      have hiz : i < (ts.zip vs).length := by rw [hzlen vs hvs]; exact hi
      have hiv : i < vs.length := Nat.lt_of_lt_of_le hi (harity vs hvs)
      have hmem : ((ts.get ⟨i, hi⟩, vs.get ⟨i, hiv⟩) : MatchTerm × Value) ∈ ts.zip vs := by
        rw [List.mem_iff_getElem]
        exact ⟨i, hiz, by simp [List.getElem_zip]⟩
      rw [match_fact_split]
      have := write_fold_mem (ts.zip vs) hnd' rf hrange _ hmem t ht
      simpa [List.getElem?_eq_getElem hiv] using this
    · intro j hj
      rw [match_fact_split]
      refine write_fold_frame _ _ rf ?_
      intro tv htv
      exact hj tv.1 (List.of_mem_zip htv).1
  · intro vs hvs
    rw [match_fact_split]
    simp only [List.any_eq_true]
    constructor
    · rintro ⟨tv, htv, hfail⟩
      obtain ⟨i, hiz, hget⟩ := List.mem_iff_getElem.mp htv
      have hi : i < ts.length := by rw [hzlen vs hvs] at hiz; exact hiz
      have hiv : i < vs.length := Nat.lt_of_lt_of_le hi (harity vs hvs)
      refine ⟨i, hi, ?_⟩
      have : tv = (ts.get ⟨i, hi⟩, vs.get ⟨i, hiv⟩) := by
        rw [← hget]
        simp [List.getElem_zip]
      rw [this] at hfail
      simpa [List.getElem?_eq_getElem hiv] using hfail
    · rintro ⟨i, hi, hfail⟩
      have hiz : i < (ts.zip vs).length := by rw [hzlen vs hvs]; exact hi
      have hiv : i < vs.length := Nat.lt_of_lt_of_le hi (harity vs hvs)
      refine ⟨(ts.get ⟨i, hi⟩, vs.get ⟨i, hiv⟩), ?_, ?_⟩
      · rw [List.mem_iff_getElem]
        exact ⟨i, hiz, by simp [List.getElem_zip]⟩
      · simpa [List.getElem?_eq_getElem hiv] using hfail
  · exact (propagate_match_fold ts rf w d (db.facts_for_predicate p) m0 r0 false).1
  · exact (propagate_match_fold ts rf w d (db.facts_for_predicate p) m0 r0 false).2

/-- Witness for C2: one fact @0(:1,:2) against terms (:1 → %0, _ → %1)
with two unbound registers matches and binds both registers. -/
theorem propagate_match_spec_witness :
    ((propagate_match_node_into_output 0
        [⟨.constant (.symbol 1), some 0⟩, ⟨.free, some 1⟩]
        (Database.new.insert_fact ⟨0, [.symbol 1, .symbol 2]⟩)
        [none, none] 1 0 (RegisterSet.new 2) (RegisterSet.new 2)).1 =
      (RegisterSet.new 2).push_all
        [([some (.symbol 1), some (.symbol 2)], 1, 1)]) ∧
    ((propagate_match_node_into_output 0
        [⟨.constant (.symbol 1), some 0⟩, ⟨.free, some 1⟩]
        (Database.new.insert_fact ⟨0, [.symbol 1, .symbol 2]⟩)
        [none, none] 1 0 (RegisterSet.new 2) (RegisterSet.new 2)).2.1 =
      (RegisterSet.new 2).push_all []) := by
  have h := propagate_match_spec 0
    [⟨.constant (.symbol 1), some 0⟩, ⟨.free, some 1⟩]
    (Database.new.insert_fact ⟨0, [.symbol 1, .symbol 2]⟩)
    [none, none] 1 0 (RegisterSet.new 2) (RegisterSet.new 2)
    (by decide) (by decide) (by decide)
  refine ⟨?_, ?_⟩
  · rw [h.2.2.1]; decide
  · rw [h.2.2.2]; decide

/-- C9 is refuted on the code: a Match node with zero terms on a
predicate of arity one MATCHES the fact :1 (the result lands in the match
set at depth 1), whereas the claim demands every such fact be refuted and
the match set stay empty. -/
theorem match_arity_mismatch_counterexample :
    ((propagate_match_node_into_output 0 []
        (Database.new.insert_fact ⟨0, [.symbol 1]⟩)
        [none] 1 0 (RegisterSet.new 1) (RegisterSet.new 1)).1.states =
      [([none], 1, 1)]) ∧
    ((propagate_match_node_into_output 0 []
        (Database.new.insert_fact ⟨0, [.symbol 1]⟩)
        [none] 1 0 (RegisterSet.new 1) (RegisterSet.new 1)).2.1.states = []) := by
  decide

/-- C9 amended: refutation at a match node is decided solely by the
common prefix of the term list and the fact tuple — a fact is refuted iff
some position below min(#terms, fact width) fails its constraint; an
arity mismatch alone never forces refutation, so facts of mismatched
arity can still land in the match set. -/
theorem match_refutes_common_prefix (ts : List MatchTerm) (rf : RegisterFile)
    (vs : List Value) :
    (match_fact ts rf vs).2 = true ↔
      ∃ i, ∃ h1 : i < ts.length, ∃ h2 : i < vs.length,
        constraint_fails rf (ts.get ⟨i, h1⟩).constraint (vs.get ⟨i, h2⟩) = true := by
  rw [match_fact_split]
  simp only [List.any_eq_true]
  constructor
  · rintro ⟨tv, htv, hfail⟩
    obtain ⟨i, hiz, hget⟩ := List.mem_iff_getElem.mp htv
    rw [List.length_zip] at hiz
    have h1 : i < ts.length := Nat.lt_of_lt_of_le hiz (Nat.min_le_left _ _)
    have h2 : i < vs.length := Nat.lt_of_lt_of_le hiz (Nat.min_le_right _ _)
    refine ⟨i, h1, h2, ?_⟩
    have : tv = (ts.get ⟨i, h1⟩, vs.get ⟨i, h2⟩) := by
      rw [← hget]
      simp [List.getElem_zip]
    rw [this] at hfail
    exact hfail
  · rintro ⟨i, h1, h2, hfail⟩
    have hiz : i < (ts.zip vs).length := by
      rw [List.length_zip]
      exact lt_min h1 h2
    exact ⟨(ts.get ⟨i, h1⟩, vs.get ⟨i, h2⟩),
      List.mem_iff_getElem.mpr ⟨i, hiz, by simp [List.getElem_zip]⟩, hfail⟩

/-- C5: an Output node's tuple gains `v` from each `Constant(v)` term,
the bound value (or Nil when unbound) from each in-range `Register(r)`
term, and nothing at all from a `Register(r)` term with r ≥ rf.len(),
which is skipped (so the tuple can be shorter than the term count). -/
theorem output_values_spec (terms : List OutputTerm) (rf : RegisterFile) :
    output_values terms rf = terms.filterMap (output_contrib rf) ∧
    (∀ t ∈ terms, ∀ r, t = OutputTerm.register r → r ≥ rf.length →
      output_contrib rf t = none) ∧
    (∀ t ∈ terms, ∀ v, t = OutputTerm.constant v → output_contrib rf t = some v) ∧
    (∀ t ∈ terms, ∀ r, t = OutputTerm.register r → r < rf.length →
      output_contrib rf t = some ((rf.getD r none).getD Value.nil)) := by
  refine ⟨by simpa using output_values_loop rf terms [], ?_, ?_, ?_⟩
  · intro t _ r ht hr
    subst ht
    simp [output_contrib, Nat.not_lt.mpr hr]
  · intro t _ v ht
    subst ht
    simp [output_contrib]
  · intro t _ r ht hr
    subst ht
    simp [output_contrib, hr]

/-! Foundational lemmas about `push_state_list` / `RegisterSet.push` used
by the evaluator claims C3 and C6. -/

theorem push_entries_cases (rf : RegisterFile) (w : Weight) (d : Nat) :
    ∀ l : List (RegisterFile × Weight × Nat), ∀ e ∈ (push_state_list l rf w d).1,
      e ∈ l ∨ e = (rf, w, d) ∨
      (∃ e0 ∈ l, e0.1 = rf ∧ e = (rf, e0.2.1 + w, if e0.2.2 > d then d else e0.2.2)) := by
  intro l
  induction l with
  | nil =>
    intro e he
    simp [push_state_list] at he
    exact Or.inr (Or.inl he)
  | cons hd rest ih =>
    intro e he
    obtain ⟨k, w0, d0⟩ := hd
    by_cases hk : k = rf
    · subst hk
      by_cases hz : w0 + w = 0
      · simp only [push_state_list, if_pos rfl, if_pos hz] at he
        exact Or.inl (List.mem_cons_of_mem _ he)
      · simp only [push_state_list, if_pos rfl, if_neg hz] at he
        rcases List.mem_cons.mp he with heq | hmem
        · exact Or.inr (Or.inr ⟨(k, w0, d0), List.mem_cons_self _ _, rfl, heq⟩)
        · exact Or.inl (List.mem_cons_of_mem _ hmem)
    · simp only [push_state_list, if_neg hk] at he
      rcases List.mem_cons.mp he with heq | hmem
      · exact Or.inl (heq ▸ List.mem_cons_self _ _)
      · rcases ih e hmem with h | h | ⟨e0, he0, h1, h2⟩
        · exact Or.inl (List.mem_cons_of_mem _ h)
        · exact Or.inr (Or.inl h)
        · exact Or.inr (Or.inr ⟨e0, List.mem_cons_of_mem _ he0, h1, h2⟩)

theorem push_pos_files (rf : RegisterFile) (w : Weight) (d : Nat) (hw : 0 < w) :
    ∀ l : List (RegisterFile × Weight × Nat), pos_entries l →
    (push_state_list l rf w d).1.map Prod.fst =
      l.map Prod.fst ++ (if (push_state_list l rf w d).2 then [rf] else []) := by
  intro l
  induction l with
  | nil => intro _; simp [push_state_list]
  | cons hd rest ih =>
    intro hpos
    obtain ⟨k, w0, d0⟩ := hd
    have hw0 : 0 < w0 := hpos _ (List.mem_cons_self _ _)
    by_cases hk : k = rf
    · subst hk
      have hz : ¬ (w0 + w = 0) := by positivity
      simp [push_state_list, hz]
    · have := ih (fun e he => hpos e (List.mem_cons_of_mem _ he))
      simp only [push_state_list, if_neg hk, List.map_cons, this]
      by_cases hb : (push_state_list rest rf w d).2 <;> simp [hb]

theorem push_keys_subset (rf : RegisterFile) (w : Weight) (d : Nat)
    (l : List (RegisterFile × Weight × Nat)) :
    ∀ x ∈ (push_state_list l rf w d).1.map Prod.fst, x ∈ l.map Prod.fst ∨ x = rf := by
  intro x hx
  obtain ⟨e, he, hex⟩ := List.mem_map.mp hx
  rcases push_entries_cases rf w d l e he with h | h | ⟨e0, he0, _, h2⟩
  · exact Or.inl (hex ▸ List.mem_map_of_mem _ h)
  · subst h
    exact Or.inr hex.symm
  · subst h2
    exact Or.inr hex.symm

theorem push_nodup (rf : RegisterFile) (w : Weight) (d : Nat) :
    ∀ l : List (RegisterFile × Weight × Nat), (l.map Prod.fst).Nodup →
    ((push_state_list l rf w d).1.map Prod.fst).Nodup := by
  intro l
  induction l with
  | nil => intro _; simp [push_state_list]
  | cons hd rest ih =>
    intro hnd
    rw [List.map_cons, List.nodup_cons] at hnd
    obtain ⟨k, w0, d0⟩ := hd
    by_cases hk : k = rf
    · subst hk
      by_cases hz : w0 + w = 0
      · simpa [push_state_list, hz] using hnd.2
      · simpa [push_state_list, hz] using hnd
    · simp only [push_state_list, if_neg hk, List.map_cons, List.nodup_cons]
      refine ⟨?_, ih hnd.2⟩
      intro hmem
      rcases push_keys_subset rf w d rest k hmem with h | h
      · exact hnd.1 h
      · exact hk h

theorem push_mem_files (rf : RegisterFile) (w : Weight) (d : Nat) :
    ∀ l : List (RegisterFile × Weight × Nat),
    rf ∈ (push_state_list l rf w d).1.map Prod.fst ∨
      ∃ e0 ∈ l, e0.1 = rf ∧ e0.2.1 + w = 0 := by
  intro l
  induction l with
  | nil => simp [push_state_list]
  | cons hd rest ih =>
    obtain ⟨k, w0, d0⟩ := hd
    by_cases hk : k = rf
    · subst hk
      by_cases hz : w0 + w = 0
      · exact Or.inr ⟨(k, w0, d0), List.mem_cons_self _ _, rfl, hz⟩
      · simp [push_state_list, hz]
    · rcases ih with h | ⟨e0, he0, h1, h2⟩
      · exact Or.inl (by simpa [push_state_list, hk] using Or.inr h)
      · exact Or.inr ⟨e0, List.mem_cons_of_mem _ he0, h1, h2⟩

theorem push_pos_mem_files (rf : RegisterFile) (w : Weight) (d : Nat) (hw : 0 < w)
    (l : List (RegisterFile × Weight × Nat)) (hpos : pos_entries l) :
    rf ∈ (push_state_list l rf w d).1.map Prod.fst := by
  rcases push_mem_files rf w d l with h | ⟨e0, he0, _, h2⟩
  · exact h
  · have := hpos e0 he0
    exact absurd h2 (by positivity)

theorem push_pos_files_mono (rf : RegisterFile) (w : Weight) (d : Nat) (hw : 0 < w)
    (l : List (RegisterFile × Weight × Nat)) (hpos : pos_entries l) :
    ∀ x ∈ l.map Prod.fst, x ∈ (push_state_list l rf w d).1.map Prod.fst := by
  intro x hx
  rw [push_pos_files rf w d hw l hpos]
  exact List.mem_append_left _ hx

theorem push_pos_preserved (rf : RegisterFile) (w : Weight) (d : Nat) (hw : 0 < w)
    (l : List (RegisterFile × Weight × Nat)) (hpos : pos_entries l) :
    pos_entries (push_state_list l rf w d).1 := by
  intro e he
  rcases push_entries_cases rf w d l e he with h | h | ⟨e0, he0, _, h2⟩
  · exact hpos e h
  · subst h; exact hw
  · subst h2
    have := hpos e0 he0
    simpa using by positivity

theorem push_universe_preserved (k : Nat) (vals : List Value) (rf : RegisterFile)
    (w : Weight) (d : Nat) (l : List (RegisterFile × Weight × Nat))
    (hl : ∀ e ∈ l, file_in_universe k vals e.1) (hrf : file_in_universe k vals rf) :
    ∀ e ∈ (push_state_list l rf w d).1, file_in_universe k vals e.1 := by
  intro e he
  rcases push_entries_cases rf w d l e he with h | h | ⟨e0, he0, _, h2⟩
  · exact hl e h
  · subst h; exact hrf
  · subst h2; exact hrf

theorem push_length_flag (rf : RegisterFile) (w : Weight) (d : Nat) (hw : 0 < w)
    (l : List (RegisterFile × Weight × Nat)) (hpos : pos_entries l) :
    (push_state_list l rf w d).1.length =
      l.length + (if (push_state_list l rf w d).2 then 1 else 0) := by
  have h := congrArg List.length (push_pos_files rf w d hw l hpos)
  simp only [List.length_map, List.length_append] at h
  rw [h]
  by_cases hb : (push_state_list l rf w d).2 <;> simp [hb]

theorem push_depth_source (rf : RegisterFile) (w : Weight) (d : Nat)
    (l : List (RegisterFile × Weight × Nat)) :
    ∀ e ∈ (push_state_list l rf w d).1,
      (∃ e0 ∈ l, e0.1 = e.1 ∧ e0.2.2 = e.2.2) ∨ (e.1 = rf ∧ e.2.2 = d) := by
  intro e he
  rcases push_entries_cases rf w d l e he with h | h | ⟨e0, he0, h1, h2⟩
  · exact Or.inl ⟨e, h, rfl, rfl⟩
  · subst h; exact Or.inr ⟨rfl, rfl⟩
  · subst h2
    by_cases hd : e0.2.2 > d
    · exact Or.inr ⟨rfl, by simp [hd]⟩
    · exact Or.inl ⟨e0, he0, h1, by simp [hd]⟩

theorem push_states (s : RegisterSet) (rf : RegisterFile) (w : Weight) (d : Nat) :
    (s.push rf w d).1.states = (push_state_list s.states rf w d).1 := rfl

theorem push_num_registers (s : RegisterSet) (rf : RegisterFile) (w : Weight) (d : Nat) :
    (s.push rf w d).1.num_registers = s.num_registers := rfl

theorem push_all_new_fst (l : List (RegisterFile × Weight × Nat)) :
    ∀ s : RegisterSet, (s.push_all_new l).1 = s.push_all l := by
  induction l with
  | nil => intro s; rfl
  | cons e rest ih =>
    intro s
    rw [push_all_cons]
    show (rest.foldl _ ((s.push e.1 e.2.1 e.2.2).1, _ || (s.push e.1 e.2.1 e.2.2).2)).1 = _
    have haux : ∀ (b : Bool) (s1 : RegisterSet),
        (rest.foldl (fun (acc : RegisterSet × Bool) e =>
          ((acc.1.push e.1 e.2.1 e.2.2).1, acc.2 || (acc.1.push e.1 e.2.1 e.2.2).2)) (s1, b)).1 =
          s1.push_all rest := by
      clear ih
      induction rest with
      | nil => intro b s1; rfl
      | cons x xs ihx =>
        intro b s1
        rw [push_all_cons]
        exact ihx _ _
    exact haux _ _

theorem push_all_num_registers (l : List (RegisterFile × Weight × Nat)) :
    ∀ s : RegisterSet, (s.push_all l).num_registers = s.num_registers := by
  induction l with
  | nil => intro s; rfl
  | cons e rest ih =>
    intro s
    rw [push_all_cons, ih]
    rfl

theorem push_all_pos (l : List (RegisterFile × Weight × Nat)) (hl : pos_entries l) :
    ∀ s : RegisterSet, pos_entries s.states → pos_entries (s.push_all l).states := by
  induction l with
  | nil => intro s h; exact h
  | cons e rest ih =>
    intro s hs
    rw [push_all_cons]
    exact ih (fun x hx => hl x (List.mem_cons_of_mem _ hx)) _
      (push_pos_preserved _ _ _ (hl e (List.mem_cons_self _ _)) _ hs)

theorem push_all_nodup (l : List (RegisterFile × Weight × Nat)) :
    ∀ s : RegisterSet, (s.states.map Prod.fst).Nodup →
      ((s.push_all l).states.map Prod.fst).Nodup := by
  induction l with
  | nil => intro s h; exact h
  | cons e rest ih =>
    intro s hs
    rw [push_all_cons]
    exact ih _ (push_nodup _ _ _ _ hs)

theorem push_all_universe (k : Nat) (vals : List Value)
    (l : List (RegisterFile × Weight × Nat)) (hl : ∀ e ∈ l, file_in_universe k vals e.1) :
    ∀ s : RegisterSet, (∀ e ∈ s.states, file_in_universe k vals e.1) →
      ∀ e ∈ (s.push_all l).states, file_in_universe k vals e.1 := by
  induction l with
  | nil => intro s h; exact h
  | cons x rest ih =>
    intro s hs
    rw [push_all_cons]
    exact ih (fun e he => hl e (List.mem_cons_of_mem _ he)) _
      (push_universe_preserved k vals _ _ _ _ hs (hl x (List.mem_cons_self _ _)))

theorem push_all_files_mono (l : List (RegisterFile × Weight × Nat)) (hl : pos_entries l) :
    ∀ s : RegisterSet, pos_entries s.states →
      ∀ x ∈ s.files, x ∈ (s.push_all l).files := by
  induction l with
  | nil => intro s _ x hx; exact hx
  | cons e rest ih =>
    intro s hs x hx
    rw [push_all_cons]
    refine ih (fun y hy => hl y (List.mem_cons_of_mem _ hy)) _
      (push_pos_preserved _ _ _ (hl e (List.mem_cons_self _ _)) _ hs) x ?_
    exact push_pos_files_mono _ _ _ (hl e (List.mem_cons_self _ _)) _ hs x hx

theorem push_all_mem_files (l : List (RegisterFile × Weight × Nat)) (hl : pos_entries l) :
    ∀ s : RegisterSet, pos_entries s.states →
      ∀ x ∈ l, x.1 ∈ (s.push_all l).files := by
  induction l with
  | nil => intro s _ x hx; simp at hx
  | cons e rest ih =>
    intro s hs x hx
    have hpos_e := hl e (List.mem_cons_self _ _)
    have hpos' : pos_entries (s.push e.1 e.2.1 e.2.2).1.states :=
      push_pos_preserved _ _ _ hpos_e _ hs
    rcases List.mem_cons.mp hx with heq | hmem
    · subst heq
      rw [push_all_cons]
      exact push_all_files_mono rest (fun y hy => hl y (List.mem_cons_of_mem _ hy)) _ hpos' x.1
        (push_pos_mem_files _ _ _ hpos_e _ hs)
    · rw [push_all_cons]
      exact ih (fun y hy => hl y (List.mem_cons_of_mem _ hy)) _ hpos' x hmem

theorem push_all_depth_source (l : List (RegisterFile × Weight × Nat)) :
    ∀ s : RegisterSet, ∀ ent ∈ (s.push_all l).states,
      (∃ e0 ∈ s.states, e0.1 = ent.1 ∧ e0.2.2 = ent.2.2) ∨
      (∃ x ∈ l, x.1 = ent.1 ∧ x.2.2 = ent.2.2) := by
  induction l with
  | nil => intro s ent hent; exact Or.inl ⟨ent, hent, rfl, rfl⟩
  | cons x rest ih =>
    intro s ent hent
    rw [push_all_cons] at hent
    rcases ih _ ent hent with ⟨e0, he0, h1, h2⟩ | ⟨y, hy, h1, h2⟩
    · rcases push_depth_source x.1 x.2.1 x.2.2 s.states e0 he0 with ⟨e1, he1, g1, g2⟩ | ⟨g1, g2⟩
      · exact Or.inl ⟨e1, he1, g1.trans h1, g2.trans h2⟩
      · exact Or.inr ⟨x, List.mem_cons_self _ _, g1.symm.trans h1, g2.symm.trans h2⟩
    · exact Or.inr ⟨y, List.mem_cons_of_mem _ hy, h1, h2⟩

theorem push_all_length_ge (l : List (RegisterFile × Weight × Nat)) (hl : pos_entries l) :
    ∀ s : RegisterSet, pos_entries s.states →
      s.states.length ≤ (s.push_all l).states.length := by
  induction l with
  | nil => intro s _; exact Nat.le_refl _
  | cons e rest ih =>
    intro s hs
    have hpos_e := hl e (List.mem_cons_self _ _)
    rw [push_all_cons]
    refine Nat.le_trans ?_ (ih (fun y hy => hl y (List.mem_cons_of_mem _ hy)) _
      (push_pos_preserved _ _ _ hpos_e _ hs))
    rw [push_states, push_length_flag _ _ _ hpos_e _ hs]
    exact Nat.le_add_right _ _

theorem push_all_new_seed_or (l : List (RegisterFile × Weight × Nat)) :
    ∀ p : RegisterSet × Bool,
      (l.foldl (fun (acc : RegisterSet × Bool) x =>
        ((acc.1.push x.1 x.2.1 x.2.2).1, acc.2 || (acc.1.push x.1 x.2.1 x.2.2).2)) p).2 =
      (p.2 || (l.foldl (fun (acc : RegisterSet × Bool) x =>
        ((acc.1.push x.1 x.2.1 x.2.2).1, acc.2 || (acc.1.push x.1 x.2.1 x.2.2).2))
        (p.1, false)).2) := by
  induction l with
  | nil => intro p; simp
  | cons x xs ih =>
    intro p
    obtain ⟨s, b⟩ := p
    rw [List.foldl_cons, List.foldl_cons,
      ih ((s.push x.1 x.2.1 x.2.2).1, b || (s.push x.1 x.2.1 x.2.2).2),
      ih ((s.push x.1 x.2.1 x.2.2).1, false || (s.push x.1 x.2.1 x.2.2).2)]
    simp [Bool.or_assoc]

theorem push_all_new_cons_snd (x : RegisterFile × Weight × Nat)
    (xs : List (RegisterFile × Weight × Nat)) (s : RegisterSet) :
    (s.push_all_new (x :: xs)).2 =
      ((s.push x.1 x.2.1 x.2.2).2 || ((s.push x.1 x.2.1 x.2.2).1.push_all_new xs).2) := by
  show (xs.foldl _ ((s.push x.1 x.2.1 x.2.2).1, false || (s.push x.1 x.2.1 x.2.2).2)).2 = _
  rw [Bool.false_or, push_all_new_seed_or xs ((s.push x.1 x.2.1 x.2.2).1, (s.push x.1 x.2.1 x.2.2).2)]
  rfl

theorem push_all_new_flag_length (l : List (RegisterFile × Weight × Nat))
    (hl : pos_entries l) :
    ∀ s : RegisterSet, pos_entries s.states → (s.push_all_new l).2 = true →
      s.states.length + 1 ≤ (s.push_all l).states.length := by
  induction l with
  | nil => intro s _ h; simp [RegisterSet.push_all_new] at h
  | cons e rest ih =>
    intro s hs hflag
    have hpos_e := hl e (List.mem_cons_self _ _)
    have hrest : pos_entries rest := fun y hy => hl y (List.mem_cons_of_mem _ hy)
    have hpos2 : pos_entries (s.push e.1 e.2.1 e.2.2).1.states :=
      push_pos_preserved _ _ _ hpos_e _ hs
    rw [push_all_cons]
    rw [push_all_new_cons_snd] at hflag
    by_cases hb : (s.push e.1 e.2.1 e.2.2).2
    · have hlen : s.states.length + 1 = (s.push e.1 e.2.1 e.2.2).1.states.length := by
        rw [push_states, push_length_flag _ _ _ hpos_e _ hs]
        show s.states.length + 1 = s.states.length + (if (s.push e.1 e.2.1 e.2.2).2 then 1 else 0)
        rw [if_pos hb]
      rw [hlen]
      exact push_all_length_ge rest hrest _ hpos2
    · have hflag2 : ((s.push e.1 e.2.1 e.2.2).1.push_all_new rest).2 = true := by
        rcases Bool.or_eq_true_iff.mp hflag with h | h
        · exact absurd h hb
        · exact h
      have hlen : s.states.length = (s.push e.1 e.2.1 e.2.2).1.states.length := by
        rw [push_states, push_length_flag _ _ _ hpos_e _ hs]
        show s.states.length = s.states.length + (if (s.push e.1 e.2.1 e.2.2).2 then 1 else 0)
        rw [if_neg hb]
        simp
      rw [hlen]
      exact ih hrest _ hpos2 hflag2

/-! Database insertion lemmas for the evaluator claims. -/

theorem tables_mk (l : List (Predicate × Table)) : (Database.mk l).tables = l := rfl

theorem find?_key_map_upd (k : Predicate) (g : Table → Table) (p : Predicate)
    (l : List (Predicate × Table)) :
    (l.map (fun e => if e.1 = k then (e.1, g e.2) else e)).find? (fun e => e.1 = p) =
      (l.find? (fun e => e.1 = p)).map (fun e => if e.1 = k then (e.1, g e.2) else e) := by
  rw [List.find?_map]
  have hcong : ((fun (e : Predicate × Table) => decide (e.1 = p)) ∘
      (fun e => if e.1 = k then (e.1, g e.2) else e)) =
      (fun (e : Predicate × Table) => decide (e.1 = p)) := by
    funext e
    by_cases hek : e.1 = k <;> simp [Function.comp, hek]
  rw [hcong]

theorem table?_insert_eq (db : Database) (f : Fact) (w : Weight) :
    (db.insert_fact_with_weight f w).table? f.predicate =
      some (((db.table? f.predicate).getD (Table.new f.values.length)).push f.values w) := by
  cases ht : db.table? f.predicate with
  | some t =>
    have ht2 : (db.tables.find? (fun e => e.1 = f.predicate)).map (·.2) = some t := ht
    obtain ⟨e, he, hev⟩ := Option.map_eq_some'.mp ht2
    have hek : e.1 = f.predicate := by simpa using List.find?_some he
    simp only [Database.insert_fact_with_weight, ht]
    unfold Database.table?
    rw [tables_mk, find?_key_map_upd f.predicate (fun t => t.push f.values w) f.predicate
      db.tables, he]
    simp [hek, hev]
  | none =>
    have ht2 : db.tables.find? (fun e => e.1 = f.predicate) = none :=
      Option.map_eq_none'.mp ht
    simp only [Database.insert_fact_with_weight, ht]
    unfold Database.table?
    rw [tables_mk, List.find?_append, ht2]
    simp

theorem table?_insert_ne (db : Database) (f : Fact) (w : Weight) (p : Predicate)
    (h : p ≠ f.predicate) :
    (db.insert_fact_with_weight f w).table? p = db.table? p := by
  cases ht : db.table? f.predicate with
  | some t =>
    simp only [Database.insert_fact_with_weight, ht]
    unfold Database.table?
    rw [tables_mk, find?_key_map_upd f.predicate (fun t => t.push f.values w) p db.tables]
    cases hf : db.tables.find? (fun e => e.1 = p) with
    | none => simp
    | some e =>
      have hek : e.1 = p := by simpa using List.find?_some hf
      simp [hek, h]
  | none =>
    simp only [Database.insert_fact_with_weight, ht]
    unfold Database.table?
    rw [tables_mk, List.find?_append]
    cases hf : db.tables.find? (fun e => e.1 = p) with
    | none => simp [Ne.symm h]
    | some e => simp

theorem facts_insert (db : Database) (f : Fact) (w : Weight) (p : Predicate) :
    (db.insert_fact_with_weight f w).facts_for_predicate p =
      if p = f.predicate then db.facts_for_predicate p ++ [f.values]
      else db.facts_for_predicate p := by
  by_cases hp : p = f.predicate
  · subst hp
    rw [if_pos rfl]
    unfold Database.facts_for_predicate
    rw [table?_insert_eq]
    cases ht : db.table? f.predicate with
    | some t => simp [Table.push]
    | none => simp [Table.push, Table.new]
  · rw [if_neg hp]
    unfold Database.facts_for_predicate
    rw [table?_insert_ne db f w p hp]

theorem contains_insert_mono (db : Database) (f : Fact) (w : Weight) (x : Fact)
    (h : db.containsFact x = true) :
    (db.insert_fact_with_weight f w).containsFact x = true := by
  unfold Database.containsFact at h ⊢
  rw [facts_insert]
  by_cases hp : x.predicate = f.predicate <;> simp_all

theorem contains_insert_self (db : Database) (f : Fact) (w : Weight) :
    (db.insert_fact_with_weight f w).containsFact f = true := by
  unfold Database.containsFact
  rw [facts_insert, if_pos rfl]
  simp

theorem fold_insert_contains_mono (l : List (Fact × Weight)) (x : Fact) :
    ∀ db0 : Database, db0.containsFact x = true →
      (l.foldl (fun db fw => db.insert_fact_with_weight fw.1 fw.2) db0).containsFact x =
        true := by
  induction l with
  | nil => intro db0 h; exact h
  | cons fw rest ih =>
    intro db0 h
    exact ih _ (contains_insert_mono _ _ _ _ h)

theorem fold_insert_contains_mem (l : List (Fact × Weight)) :
    ∀ db0 : Database, ∀ fw ∈ l,
      (l.foldl (fun db fw => db.insert_fact_with_weight fw.1 fw.2) db0).containsFact fw.1 =
        true := by
  induction l with
  | nil => intro db0 fw h; simp at h
  | cons g rest ih =>
    intro db0 fw h
    rcases List.mem_cons.mp h with heq | hmem
    · subst heq
      exact fold_insert_contains_mono rest fw.1 _ (contains_insert_self _ _ _)
    · exact ih _ fw hmem

theorem weighted_mem_of_contains (db : Database) (x : Fact)
    (h : db.containsFact x = true) : ∃ fw ∈ db.weighted_facts, fw.1 = x := by
  unfold Database.containsFact Database.facts_for_predicate at h
  cases ht : db.table? x.predicate with
  | none => rw [ht] at h; simp at h
  | some t =>
    rw [ht] at h
    simp only [List.any_eq_true, List.mem_map] at h
    obtain ⟨vs, ⟨r, hr, hrv⟩, hveq⟩ := h
    obtain ⟨e, he, hev⟩ := Option.map_eq_some'.mp ht
    have hek : e.1 = x.predicate := by simpa using List.find?_some he
    refine ⟨(⟨e.1, r.1⟩, r.2), ?_, ?_⟩
    · unfold Database.weighted_facts
      rw [List.mem_flatMap]
      exact ⟨e, List.mem_of_find?_eq_some he, List.mem_map.mpr ⟨r, hev ▸ hr, rfl⟩⟩
    · have : r.1 = x.values := by
        rw [hrv]
        simpa using hveq
      simp [hek, this]

theorem mem_all_facts_weighted (db : Database) (x : Fact) :
    x ∈ db.all_facts ↔ ∃ fw ∈ db.weighted_facts, fw.1 = x := by
  simp only [Database.all_facts, Database.weighted_facts, List.mem_flatMap, List.mem_map]
  constructor
  · rintro ⟨e, he, r, hr, hx⟩
    exact ⟨(⟨e.1, r.1⟩, r.2), ⟨e, he, r, hr, rfl⟩, hx⟩
  · rintro ⟨fw, ⟨e, he, r, hr, hfw⟩, hx⟩
    refine ⟨e, he, r, hr, ?_⟩
    rw [← hx, ← hfw]

theorem all_facts_insert_sub (db : Database) (f : Fact) (w : Weight) (x : Fact)
    (hx : x ∈ (db.insert_fact_with_weight f w).all_facts) :
    x ∈ db.all_facts ∨ x = f := by
  rcases ht : db.table? f.predicate with _ | t
  · simp only [Database.insert_fact_with_weight, ht] at hx
    simp only [Database.all_facts, tables_mk, List.mem_flatMap, List.mem_map] at hx ⊢
    obtain ⟨e, he, r, hr, hxe⟩ := hx
    rcases List.mem_append.mp he with h | h
    · exact Or.inl ⟨e, h, r, hr, hxe⟩
    · simp only [List.mem_singleton] at h
      subst h
      simp only [Table.push, Table.new, List.nil_append, List.mem_singleton] at hr
      subst hr
      exact Or.inr (by rw [← hxe])
  · simp only [Database.insert_fact_with_weight, ht] at hx
    simp only [Database.all_facts, tables_mk, List.mem_flatMap, List.mem_map] at hx ⊢
    obtain ⟨e, he, r, hr, hxe⟩ := hx
    obtain ⟨e0, he0, he0e⟩ := he
    by_cases hk : e0.1 = f.predicate
    · rw [if_pos hk] at he0e
      subst he0e
      simp only [Table.push] at hr
      rcases List.mem_append.mp hr with h | h
      · exact Or.inl ⟨e0, he0, r, h, hxe⟩
      · simp only [List.mem_singleton] at h
        subst h
        refine Or.inr ?_
        rw [← hxe]
        show Fact.mk e0.1 f.values = f
        rw [hk]
    · rw [if_neg hk] at he0e
      subst he0e
      exact Or.inl ⟨e0, he0, r, hr, hxe⟩

theorem push_all_keys_subset (l : List (RegisterFile × Weight × Nat)) :
    ∀ s : RegisterSet, ∀ x ∈ (s.push_all l).files, x ∈ s.files ∨ ∃ y ∈ l, y.1 = x := by
  induction l with
  | nil => intro s x hx; exact Or.inl hx
  | cons e rest ih =>
    intro s x hx
    rw [push_all_cons] at hx
    rcases ih _ x hx with h | ⟨y, hy, hyx⟩
    · rcases push_keys_subset e.1 e.2.1 e.2.2 s.states x h with h2 | h2
      · exact Or.inl h2
      · exact Or.inr ⟨e, List.mem_cons_self _ _, h2.symm⟩
    · exact Or.inr ⟨y, List.mem_cons_of_mem _ hy, hyx⟩

/-! Propagation-level lemmas for the evaluator claims. -/

theorem pmn_eq (p : Predicate) (ts : List MatchTerm) (db : Database) (rf : RegisterFile)
    (w : Weight) (d : Nat) (m r : RegisterSet) :
    propagate_match_node_into_output p ts db rf w d m r =
      (db.facts_for_predicate p).foldl (propagate_match_fact_step ts rf w d)
        (m, r, false) := rfl

theorem mapped_pos (w : Weight) (hw : 0 < w) (d : Nat) (ts : List MatchTerm)
    (rf : RegisterFile) (facts : List (List Value)) :
    pos_entries (facts.map (fun vs => ((match_fact ts rf vs).1, w, d + 1))) := by
  intro e he
  obtain ⟨vs, _, hvs⟩ := List.mem_map.mp he
  rw [← hvs]
  exact hw

theorem pmn_files_mono (p : Predicate) (ts : List MatchTerm) (db : Database)
    (rf : RegisterFile) (w : Weight) (d : Nat) (hw : 0 < w) (m r : RegisterSet)
    (hm : pos_entries m.states) (hr : pos_entries r.states) :
    (∀ x ∈ m.files, x ∈ (propagate_match_node_into_output p ts db rf w d m r).1.files) ∧
    (∀ x ∈ r.files, x ∈ (propagate_match_node_into_output p ts db rf w d m r).2.1.files) := by
  have h := propagate_match_fold ts rf w d (db.facts_for_predicate p) m r false
  rw [pmn_eq, h.1, h.2]
  exact ⟨fun x hx => push_all_files_mono _ (mapped_pos w hw _ _ _ _) _ hm x hx,
    fun x hx => push_all_files_mono _ (mapped_pos w hw _ _ _ _) _ hr x hx⟩

theorem pmn_pos (p : Predicate) (ts : List MatchTerm) (db : Database)
    (rf : RegisterFile) (w : Weight) (d : Nat) (hw : 0 < w) (m r : RegisterSet)
    (hm : pos_entries m.states) (hr : pos_entries r.states) :
    pos_entries (propagate_match_node_into_output p ts db rf w d m r).1.states ∧
    pos_entries (propagate_match_node_into_output p ts db rf w d m r).2.1.states := by
  have h := propagate_match_fold ts rf w d (db.facts_for_predicate p) m r false
  rw [pmn_eq, h.1, h.2]
  exact ⟨push_all_pos _ (mapped_pos w hw _ _ _ _) _ hm,
    push_all_pos _ (mapped_pos w hw _ _ _ _) _ hr⟩

theorem pmn_mem (p : Predicate) (ts : List MatchTerm) (db : Database)
    (rf : RegisterFile) (w : Weight) (d : Nat) (hw : 0 < w) (m r : RegisterSet)
    (hm : pos_entries m.states) (hr : pos_entries r.states) :
    ∀ vs ∈ db.facts_for_predicate p,
      (if (match_fact ts rf vs).2 then
        (match_fact ts rf vs).1 ∈ (propagate_match_node_into_output p ts db rf w d m r).2.1.files
      else
        (match_fact ts rf vs).1 ∈
          (propagate_match_node_into_output p ts db rf w d m r).1.files) := by
  intro vs hvs
  have h := propagate_match_fold ts rf w d (db.facts_for_predicate p) m r false
  by_cases hre : (match_fact ts rf vs).2
  · rw [if_pos hre, pmn_eq, h.2]
    have hmem : ((match_fact ts rf vs).1, w, d + 1) ∈
        ((db.facts_for_predicate p).filter (fun vs => (match_fact ts rf vs).2)).map
          (fun vs => ((match_fact ts rf vs).1, w, d + 1)) :=
      List.mem_map_of_mem _ (List.mem_filter.mpr ⟨hvs, hre⟩)
    exact push_all_mem_files _ (mapped_pos w hw _ _ _ _) _ hr _ hmem
  · rw [if_neg hre, pmn_eq, h.1]
    have hmem : ((match_fact ts rf vs).1, w, d + 1) ∈
        ((db.facts_for_predicate p).filter (fun vs => !(match_fact ts rf vs).2)).map
          (fun vs => ((match_fact ts rf vs).1, w, d + 1)) :=
      List.mem_map_of_mem _ (List.mem_filter.mpr ⟨hvs, by simpa using hre⟩)
    exact push_all_mem_files _ (mapped_pos w hw _ _ _ _) _ hm _ hmem

theorem pmn_sound (p : Predicate) (ts : List MatchTerm) (db : Database)
    (rf : RegisterFile) (w : Weight) (d : Nat) (m r : RegisterSet) :
    (∀ x ∈ (propagate_match_node_into_output p ts db rf w d m r).1.files,
      x ∈ m.files ∨ ∃ vs ∈ db.facts_for_predicate p,
        (match_fact ts rf vs).2 = false ∧ x = (match_fact ts rf vs).1) ∧
    (∀ x ∈ (propagate_match_node_into_output p ts db rf w d m r).2.1.files,
      x ∈ r.files ∨ ∃ vs ∈ db.facts_for_predicate p,
        (match_fact ts rf vs).2 = true ∧ x = (match_fact ts rf vs).1) := by
  have h := propagate_match_fold ts rf w d (db.facts_for_predicate p) m r false
  constructor
  · intro x hx
    rw [pmn_eq, h.1] at hx
    rcases push_all_keys_subset _ _ x hx with h2 | ⟨y, hy, hyx⟩
    · exact Or.inl h2
    · obtain ⟨vs, hvs, hvse⟩ := List.mem_map.mp hy
      refine Or.inr ⟨vs, (List.mem_filter.mp hvs).1, by
        simpa using (List.mem_filter.mp hvs).2, ?_⟩
      rw [← hyx, ← hvse]
  · intro x hx
    rw [pmn_eq, h.2] at hx
    rcases push_all_keys_subset _ _ x hx with h2 | ⟨y, hy, hyx⟩
    · exact Or.inl h2
    · obtain ⟨vs, hvs, hvse⟩ := List.mem_map.mp hy
      refine Or.inr ⟨vs, (List.mem_filter.mp hvs).1, (List.mem_filter.mp hvs).2, ?_⟩
      rw [← hyx, ← hvse]

theorem propagate_match_eq (d : GraphDiagram) (n : NodeIndex) (db : Database)
    (regs : RegisterSet) (maxD : Option Nat) (p : Predicate) (ts : List MatchTerm)
    (h : d.get_node n = .matchNode p ts) :
    propagate d n db regs maxD = .matchOut
      (regs.states.foldl (match_prop_step p ts db maxD)
        (RegisterSet.new regs.num_registers, RegisterSet.new regs.num_registers)).1
      (regs.states.foldl (match_prop_step p ts db maxD)
        (RegisterSet.new regs.num_registers, RegisterSet.new regs.num_registers)).2 := by
  unfold propagate
  rw [h]

theorem propagate_output_eq (d : GraphDiagram) (n : NodeIndex) (db : Database)
    (regs : RegisterSet) (maxD : Option Nat) (p : Predicate) (ts : List OutputTerm)
    (h : d.get_node n = .outputNode p ts) :
    propagate d n db regs maxD = .outputOut
      (regs.states.foldl
        (fun db2 e => propagate_output_node_into_output p ts e.1 e.2.1 db2)
        Database.new) := by
  unfold propagate
  rw [h]

theorem match_prop_fold (p : Predicate) (ts : List MatchTerm) (db : Database)
    (maxD : Option Nat) (entries : List (RegisterFile × Weight × Nat))
    (hentries : pos_entries entries) :
    ∀ acc : RegisterSet × RegisterSet,
      pos_entries acc.1.states → pos_entries acc.2.states →
      (pos_entries (entries.foldl (match_prop_step p ts db maxD) acc).1.states ∧
       pos_entries (entries.foldl (match_prop_step p ts db maxD) acc).2.states) ∧
      ((∀ x ∈ acc.1.files,
          x ∈ (entries.foldl (match_prop_step p ts db maxD) acc).1.files) ∧
       (∀ x ∈ acc.2.files,
          x ∈ (entries.foldl (match_prop_step p ts db maxD) acc).2.files)) ∧
      (∀ ent ∈ entries, depth_ok maxD ent.2.2 = true →
        ∀ vs ∈ db.facts_for_predicate p,
          (if (match_fact ts ent.1 vs).2 then
            (match_fact ts ent.1 vs).1 ∈
              (entries.foldl (match_prop_step p ts db maxD) acc).2.files
          else
            (match_fact ts ent.1 vs).1 ∈
              (entries.foldl (match_prop_step p ts db maxD) acc).1.files)) := by
  induction entries with
  | nil =>
    intro acc h1 h2
    exact ⟨⟨h1, h2⟩, ⟨fun x hx => hx, fun x hx => hx⟩, by simp⟩
  | cons ent rest ih =>
    intro acc h1 h2
    have hpos_ent := hentries ent (List.mem_cons_self _ _)
    have hrest : pos_entries rest := fun y hy => hentries y (List.mem_cons_of_mem _ hy)
    by_cases hd : depth_ok maxD ent.2.2
    · have hstep : match_prop_step p ts db maxD acc ent =
          ((propagate_match_node_into_output p ts db ent.1 ent.2.1 ent.2.2 acc.1 acc.2).1,
           (propagate_match_node_into_output p ts db ent.1 ent.2.1 ent.2.2 acc.1 acc.2).2.1)
          := by
        simp [match_prop_step, hd]
      have hpos := pmn_pos p ts db ent.1 ent.2.1 ent.2.2 hpos_ent acc.1 acc.2 h1 h2
      have hmono := pmn_files_mono p ts db ent.1 ent.2.1 ent.2.2 hpos_ent acc.1 acc.2 h1 h2
      have hrec := ih hrest
        ((propagate_match_node_into_output p ts db ent.1 ent.2.1 ent.2.2 acc.1 acc.2).1,
         (propagate_match_node_into_output p ts db ent.1 ent.2.1 ent.2.2 acc.1 acc.2).2.1)
        hpos.1 hpos.2
      rw [List.foldl_cons, hstep]
      refine ⟨hrec.1, ⟨?_, ?_⟩, ?_⟩
      · intro x hx
        exact hrec.2.1.1 x (hmono.1 x hx)
      · intro x hx
        exact hrec.2.1.2 x (hmono.2 x hx)
      · intro ent2 hent2 hd2 vs hvs
        rcases List.mem_cons.mp hent2 with heq | hmem
        · subst heq
          have hin := pmn_mem p ts db ent2.1 ent2.2.1 ent2.2.2 hpos_ent acc.1 acc.2 h1 h2 vs hvs
          by_cases hre : (match_fact ts ent2.1 vs).2
          · rw [if_pos hre] at hin ⊢
            exact hrec.2.1.2 _ hin
          · rw [if_neg hre] at hin ⊢
            exact hrec.2.1.1 _ hin
        · exact hrec.2.2 ent2 hmem hd2 vs hvs
    · have hstep : match_prop_step p ts db maxD acc ent = acc := by
        simp [match_prop_step, hd]
      have hrec := ih hrest acc h1 h2
      rw [List.foldl_cons, hstep]
      refine ⟨hrec.1, hrec.2.1, ?_⟩
      intro ent2 hent2 hd2 vs hvs
      rcases List.mem_cons.mp hent2 with heq | hmem
      · subst heq
        exact absurd hd2 hd
      · exact hrec.2.2 ent2 hmem hd2 vs hvs

theorem match_prop_fold_sound (p : Predicate) (ts : List MatchTerm) (db : Database)
    (maxD : Option Nat) (entries : List (RegisterFile × Weight × Nat)) :
    ∀ acc : RegisterSet × RegisterSet,
      (∀ x ∈ (entries.foldl (match_prop_step p ts db maxD) acc).1.files,
        x ∈ acc.1.files ∨ ∃ ent ∈ entries, depth_ok maxD ent.2.2 = true ∧
          ∃ vs ∈ db.facts_for_predicate p,
            (match_fact ts ent.1 vs).2 = false ∧ x = (match_fact ts ent.1 vs).1) ∧
      (∀ x ∈ (entries.foldl (match_prop_step p ts db maxD) acc).2.files,
        x ∈ acc.2.files ∨ ∃ ent ∈ entries, depth_ok maxD ent.2.2 = true ∧
          ∃ vs ∈ db.facts_for_predicate p,
            (match_fact ts ent.1 vs).2 = true ∧ x = (match_fact ts ent.1 vs).1) := by
  induction entries with
  | nil => intro acc; exact ⟨fun x hx => Or.inl hx, fun x hx => Or.inl hx⟩
  | cons ent rest ih =>
    intro acc
    by_cases hd : depth_ok maxD ent.2.2
    · have hstep : match_prop_step p ts db maxD acc ent =
          ((propagate_match_node_into_output p ts db ent.1 ent.2.1 ent.2.2 acc.1 acc.2).1,
           (propagate_match_node_into_output p ts db ent.1 ent.2.1 ent.2.2 acc.1 acc.2).2.1)
          := by
        simp [match_prop_step, hd]
      rw [List.foldl_cons, hstep]
      constructor
      · intro x hx
        rcases (ih _).1 x hx with h | ⟨ent2, hent2, hd2, hrest⟩
        · rcases (pmn_sound p ts db ent.1 ent.2.1 ent.2.2 acc.1 acc.2).1 x h with
            h2 | ⟨vs, hvs, hre, hxe⟩
          · exact Or.inl h2
          · exact Or.inr ⟨ent, List.mem_cons_self _ _, hd, vs, hvs, hre, hxe⟩
        · exact Or.inr ⟨ent2, List.mem_cons_of_mem _ hent2, hd2, hrest⟩
      · intro x hx
        rcases (ih _).2 x hx with h | ⟨ent2, hent2, hd2, hrest⟩
        · rcases (pmn_sound p ts db ent.1 ent.2.1 ent.2.2 acc.1 acc.2).2 x h with
            h2 | ⟨vs, hvs, hre, hxe⟩
          · exact Or.inl h2
          · exact Or.inr ⟨ent, List.mem_cons_self _ _, hd, vs, hvs, hre, hxe⟩
        · exact Or.inr ⟨ent2, List.mem_cons_of_mem _ hent2, hd2, hrest⟩
    · have hstep : match_prop_step p ts db maxD acc ent = acc := by
        simp [match_prop_step, hd]
      rw [List.foldl_cons, hstep]
      constructor
      · intro x hx
        rcases (ih _).1 x hx with h | ⟨ent2, hent2, hd2, hrest⟩
        · exact Or.inl h
        · exact Or.inr ⟨ent2, List.mem_cons_of_mem _ hent2, hd2, hrest⟩
      · intro x hx
        rcases (ih _).2 x hx with h | ⟨ent2, hent2, hd2, hrest⟩
        · exact Or.inl h
        · exact Or.inr ⟨ent2, List.mem_cons_of_mem _ hent2, hd2, hrest⟩

theorem out_prop_fold (p : Predicate) (ts : List OutputTerm)
    (entries : List (RegisterFile × Weight × Nat)) :
    ∀ db0 : Database,
      (∀ x, db0.containsFact x = true →
        (entries.foldl (fun db2 e => propagate_output_node_into_output p ts e.1 e.2.1 db2)
          db0).containsFact x = true) ∧
      (∀ ent ∈ entries,
        (entries.foldl (fun db2 e => propagate_output_node_into_output p ts e.1 e.2.1 db2)
          db0).containsFact ⟨p, output_values ts ent.1⟩ = true) := by
  induction entries with
  | nil => intro db0; exact ⟨fun x hx => hx, by simp⟩
  | cons ent rest ih =>
    intro db0
    rw [List.foldl_cons]
    constructor
    · intro x hx
      exact (ih _).1 x (contains_insert_mono _ _ _ _ hx)
    · intro ent2 hent2
      rcases List.mem_cons.mp hent2 with heq | hmem
      · subst heq
        exact (ih _).1 _ (contains_insert_self _ _ _)
      · exact (ih _).2 ent2 hmem

theorem out_prop_fold_sound (p : Predicate) (ts : List OutputTerm)
    (entries : List (RegisterFile × Weight × Nat)) :
    ∀ db0 : Database,
      ∀ x ∈ (entries.foldl (fun db2 e => propagate_output_node_into_output p ts e.1 e.2.1 db2)
          db0).all_facts,
        x ∈ db0.all_facts ∨ ∃ ent ∈ entries, x = ⟨p, output_values ts ent.1⟩ := by
  induction entries with
  | nil => intro db0 x hx; exact Or.inl hx
  | cons ent rest ih =>
    intro db0 x hx
    rw [List.foldl_cons] at hx
    rcases ih _ x hx with h | ⟨ent2, hent2, hxe⟩
    · rcases all_facts_insert_sub _ _ _ _ h with h2 | h2
      · exact Or.inl h2
      · exact Or.inr ⟨ent, List.mem_cons_self _ _, h2⟩
    · exact Or.inr ⟨ent2, List.mem_cons_of_mem _ hent2, hxe⟩

/-! State-list access and merge lemmas for the worklist invariant. -/

theorem ns_modify_set (l : List NodeState) (f : NodeState → NodeState) (n : Nat)
    (a : NodeState) : (l.modify f n).set n a = l.set n a := by
  apply List.ext_getElem?
  intro m
  simp only [List.getElem?_set, List.length_modify, List.getElem?_modify]
  by_cases h : n = m
  · subst h
    by_cases hl : n < l.length <;> simp [hl]
  · simp [h]

theorem getD_set_self_ns (l : List NodeState) (i : Nat) (a : NodeState) (h : i < l.length) :
    (l.set i a).getD i junkState = a := by
  rw [List.getD_eq_getElem?_getD, List.getElem?_set, if_pos rfl, if_pos h]
  rfl

theorem getD_set_ne_ns (l : List NodeState) (i j : Nat) (a : NodeState) (h : i ≠ j) :
    (l.set i a).getD j junkState = l.getD j junkState := by
  rw [List.getD_eq_getElem?_getD, List.getElem?_set, if_neg h, ← List.getD_eq_getElem?_getD]

theorem getD_modify_ns (l : List NodeState) (f : NodeState → NodeState) (i : Nat)
    (h : i < l.length) : (l.modify f i).getD i junkState = f (l.getD i junkState) := by
  rw [List.getD_eq_getElem?_getD, List.getElem?_modify, List.getElem?_eq_getElem h,
    List.getD_eq_getElem?_getD, List.getElem?_eq_getElem h]
  simp

theorem getD_mem_ns (l : List NodeState) (i : Nat) (h : i < l.length) :
    l.getD i junkState ∈ l := by
  rw [List.getD_eq_getElem?_getD, List.getElem?_eq_getElem h]
  exact List.getElem_mem h

theorem getD_oob_ns (l : List NodeState) (i : Nat) (h : l.length ≤ i) :
    l.getD i junkState = junkState := by
  rw [List.getD_eq_getElem?_getD, List.getElem?_eq_none h]
  rfl

theorem merge_none (s : NodeState) (out : NodeOutputState) (h : s.output = none) :
    s.merge_output out = ({ s with output := some out }, true) := by
  unfold NodeState.merge_output
  rw [h]

theorem merge_match (s : NodeState) (m r nm nr : RegisterSet)
    (h : s.output = some (.matchOut m r)) :
    s.merge_output (.matchOut nm nr) =
      ({ s with output := some (.matchOut (m.push_all nm.states) (r.push_all nr.states)) },
       (m.push_all_new nm.states).2 || (r.push_all_new nr.states).2) := by
  unfold NodeState.merge_output
  rw [h]
  show ({ s with output := some (.matchOut (m.push_all_new nm.states).1
      (r.push_all_new nr.states).1) },
    (m.push_all_new nm.states).2 || (r.push_all_new nr.states).2) = _
  rw [push_all_new_fst, push_all_new_fst]

theorem merge_out_db (s : NodeState) (odb ndb : Database)
    (h : s.output = some (.outputOut odb)) :
    s.merge_output (.outputOut ndb) =
      ({ s with output := some (.outputOut
          (ndb.weighted_facts.foldl (fun db fw => db.insert_fact_with_weight fw.1 fw.2) odb)) },
       false) := by
  unfold NodeState.merge_output
  rw [h]

theorem merge_mismatch_mo (s : NodeState) (m r : RegisterSet) (ndb : Database)
    (h : s.output = some (.matchOut m r)) :
    s.merge_output (.outputOut ndb) = (s, false) := by
  unfold NodeState.merge_output
  rw [h]

theorem merge_mismatch_om (s : NodeState) (odb : Database) (nm nr : RegisterSet)
    (h : s.output = some (.outputOut odb)) :
    s.merge_output (.matchOut nm nr) = (s, false) := by
  unfold NodeState.merge_output
  rw [h]

theorem push_all_files_of_src (src : RegisterSet) (s : RegisterSet)
    (hsrc : pos_entries src.states) (hs : pos_entries s.states) :
    ∀ x ∈ src.files, x ∈ (s.push_all src.states).files := by
  intro x hx
  obtain ⟨y, hy, hyx⟩ := List.mem_map.mp hx
  rw [← hyx]
  exact push_all_mem_files _ hsrc _ hs y hy

theorem mem_foldl_prepend (S : RegisterSet) (l : List NodeIndex) :
    ∀ init : List (NodeIndex × RegisterSet), ∀ q ∈ init,
      q ∈ l.foldl (fun p t => (t, S) :: p) init := by
  induction l with
  | nil => intro init q hq; exact hq
  | cons t ts ih =>
    intro init q hq
    rw [List.foldl_cons]
    exact ih _ q (List.mem_cons_of_mem _ hq)

theorem foldl_prepend_sub (S : RegisterSet) (l : List NodeIndex) :
    ∀ init : List (NodeIndex × RegisterSet), ∀ q ∈ l.foldl (fun p t => (t, S) :: p) init,
      q ∈ init ∨ q.2 = S := by
  induction l with
  | nil => intro init q hq; exact Or.inl hq
  | cons t ts ih =>
    intro init q hq
    rw [List.foldl_cons] at hq
    rcases ih _ q hq with h | h
    · rcases List.mem_cons.mp h with h2 | h2
      · exact Or.inr (by rw [h2])
      · exact Or.inl h2
    · exact Or.inr h

theorem step_pending_mem (d : GraphDiagram) (node : NodeIndex) (flag : Bool)
    (output : NodeOutputState) (rest : List (NodeIndex × RegisterSet)) :
    ∀ q ∈ rest, q ∈ step_pending d node flag output rest := by
  intro q hq
  unfold step_pending
  cases flag with
  | false => exact hq
  | true =>
    cases output with
    | matchOut ms rs => exact mem_foldl_prepend _ _ _ q (mem_foldl_prepend _ _ _ q hq)
    | outputOut odb => exact hq

theorem step_pending_sub (d : GraphDiagram) (node : NodeIndex) (flag : Bool)
    (output : NodeOutputState) (rest : List (NodeIndex × RegisterSet)) :
    ∀ q ∈ step_pending d node flag output rest,
      q ∈ rest ∨ ∃ ms rs, output = .matchOut ms rs ∧ (q.2 = ms ∨ q.2 = rs) := by
  intro q hq
  unfold step_pending at hq
  cases flag with
  | false => exact Or.inl hq
  | true =>
    cases output with
    | matchOut ms rs =>
      rcases foldl_prepend_sub _ _ _ q hq with h | h
      · rcases foldl_prepend_sub _ _ _ q h with h2 | h2
        · exact Or.inl h2
        · exact Or.inr ⟨ms, rs, rfl, Or.inl h2⟩
      · exact Or.inr ⟨ms, rs, rfl, Or.inr h⟩
    | outputOut odb => exact Or.inl hq

theorem pend_covers_mono (p1 p2 : List (NodeIndex × RegisterSet)) (n : NodeIndex)
    (hsub : ∀ q ∈ p1, q.1 = n → q ∈ p2) (ent : RegisterFile × Weight × Nat)
    (h : pend_covers p1 n ent) : pend_covers p2 n ent := by
  obtain ⟨q, hq, h1, h2⟩ := h
  exact ⟨q, hsub q hq h1, h1, h2⟩

theorem run_pending_aux_cons (d : GraphDiagram) (input : Database) (fuel : Nat)
    (e : Evaluation) (node : NodeIndex) (regs : RegisterSet)
    (rest : List (NodeIndex × RegisterSet)) :
    run_pending_aux d input (fuel + 1) e ((node, regs) :: rest) =
      run_pending_aux d input fuel (step_eval d input e node regs).1
        (step_pending d node (step_eval d input e node regs).2.1
          (step_eval d input e node regs).2.2 rest) := rfl

theorem run_pending_aux_nil (d : GraphDiagram) (input : Database) (fuel : Nat)
    (e : Evaluation) : run_pending_aux d input fuel e [] = some e := by
  cases fuel <;> rfl

theorem step_eval_max_depth (d : GraphDiagram) (input : Database) (e : Evaluation)
    (node : NodeIndex) (regs : RegisterSet) :
    (step_eval d input e node regs).1.max_depth = e.max_depth := rfl

theorem step_eval_length (d : GraphDiagram) (input : Database) (e : Evaluation)
    (node : NodeIndex) (regs : RegisterSet) :
    (step_eval d input e node regs).1.states.length = e.states.length := by
  show ((e.states.modify _ node).set node _).length = _
  rw [List.length_set, List.length_modify]

theorem step_eval_states (d : GraphDiagram) (input : Database) (e : Evaluation)
    (node : NodeIndex) (regs : RegisterSet) (h : node < e.states.length) :
    (step_eval d input e node regs).1.states =
      e.states.set node
        (({ e.states.getD node junkState with
            input := (e.states.getD node junkState).input.push_all regs.states }
          : NodeState).merge_output (propagate d node input regs (some e.max_depth))).1 := by
  show (e.states.modify _ node).set node
      (((e.states.modify _ node).getD node junkState).merge_output _).1 = _
  rw [getD_modify_ns _ _ _ h, ns_modify_set]
  rfl

theorem step_eval_output (d : GraphDiagram) (input : Database) (e : Evaluation)
    (node : NodeIndex) (regs : RegisterSet) :
    (step_eval d input e node regs).2.2 =
      propagate d node input regs (some e.max_depth) := rfl

theorem step_eval_flag (d : GraphDiagram) (input : Database) (e : Evaluation)
    (node : NodeIndex) (regs : RegisterSet) (h : node < e.states.length) :
    (step_eval d input e node regs).2.1 =
      (({ e.states.getD node junkState with
          input := (e.states.getD node junkState).input.push_all regs.states }
        : NodeState).merge_output (propagate d node input regs (some e.max_depth))).2 := by
  show (((e.states.modify _ node).getD node junkState).merge_output _).2 = _
  rw [getD_modify_ns _ _ _ h]
  rfl

theorem step_eval_oob (d : GraphDiagram) (input : Database) (e : Evaluation)
    (node : NodeIndex) (regs : RegisterSet) (h : e.states.length ≤ node) :
    (step_eval d input e node regs).1 = e := by
  show ({ e.modify_state node _ with
    states := (e.modify_state node _).states.set node _ } : Evaluation) = e
  unfold Evaluation.modify_state
  rw [List.modify_eq_self h]
  rw [List.set_eq_of_length_le h]

theorem inv_at_match_iff (d : GraphDiagram) (db : Database) (e : Evaluation)
    (p : List (NodeIndex × RegisterSet)) (n : NodeIndex) (pr : Predicate)
    (ts : List MatchTerm) (hg : d.get_node n = .matchNode pr ts) :
    inv_at d db e p n ↔
      ∀ ent ∈ (e.states.getD n junkState).input.states, ent.2.2 < e.max_depth →
        (∀ vs ∈ db.facts_for_predicate pr,
          resultIn (match_fact ts ent.1 vs) (e.states.getD n junkState).output) ∨
        pend_covers p n ent := by
  unfold inv_at
  rw [hg]

theorem inv_at_output_iff (d : GraphDiagram) (db : Database) (e : Evaluation)
    (p : List (NodeIndex × RegisterSet)) (n : NodeIndex) (pr : Predicate)
    (ts : List OutputTerm) (hg : d.get_node n = .outputNode pr ts) :
    inv_at d db e p n ↔
      ∀ ent ∈ (e.states.getD n junkState).input.states,
        outFactIn ⟨pr, output_values ts ent.1⟩ (e.states.getD n junkState).output ∨
        pend_covers p n ent := by
  unfold inv_at
  rw [hg]

theorem quiescent_at_match_iff (d : GraphDiagram) (db : Database) (e : Evaluation)
    (n : NodeIndex) (pr : Predicate) (ts : List MatchTerm)
    (hg : d.get_node n = .matchNode pr ts) :
    quiescent_at d db e n ↔
      ∀ ent ∈ (e.states.getD n junkState).input.states, ent.2.2 < e.max_depth →
        ∀ vs ∈ db.facts_for_predicate pr,
          resultIn (match_fact ts ent.1 vs) (e.states.getD n junkState).output := by
  unfold quiescent_at
  rw [hg]

theorem quiescent_at_output_iff (d : GraphDiagram) (db : Database) (e : Evaluation)
    (n : NodeIndex) (pr : Predicate) (ts : List OutputTerm)
    (hg : d.get_node n = .outputNode pr ts) :
    quiescent_at d db e n ↔
      ∀ ent ∈ (e.states.getD n junkState).input.states,
        outFactIn ⟨pr, output_values ts ent.1⟩ (e.states.getD n junkState).output := by
  unfold quiescent_at
  rw [hg]

theorem out_kind_ok_none (d : GraphDiagram) (e : Evaluation) (n : NodeIndex)
    (h : (e.states.getD n junkState).output = none) : out_kind_ok d e n := by
  unfold out_kind_ok
  rw [h]
  trivial

theorem out_kind_ok_match (d : GraphDiagram) (e : Evaluation) (n : NodeIndex)
    (m r : RegisterSet) (pr : Predicate) (ts : List MatchTerm)
    (ho : (e.states.getD n junkState).output = some (.matchOut m r))
    (hg : d.get_node n = .matchNode pr ts) : out_kind_ok d e n := by
  unfold out_kind_ok
  rw [ho, hg]
  trivial

theorem out_kind_ok_out (d : GraphDiagram) (e : Evaluation) (n : NodeIndex)
    (odb : Database) (pr : Predicate) (ts : List OutputTerm)
    (ho : (e.states.getD n junkState).output = some (.outputOut odb))
    (hg : d.get_node n = .outputNode pr ts) : out_kind_ok d e n := by
  unfold out_kind_ok
  rw [ho, hg]
  trivial

theorem out_kind_ok_congr (d : GraphDiagram) (e1 e2 : Evaluation) (n : NodeIndex)
    (hstate : e2.states.getD n junkState = e1.states.getD n junkState)
    (h : out_kind_ok d e1 n) : out_kind_ok d e2 n := by
  unfold out_kind_ok at h ⊢
  rw [hstate]
  exact h

theorem resultIn_grow (fr : RegisterFile × Bool) (m r nm nr : RegisterSet)
    (hmpos : pos_entries m.states) (hrpos : pos_entries r.states)
    (hnm : pos_entries nm.states) (hnr : pos_entries nr.states)
    (h : resultIn fr (some (.matchOut m r))) :
    resultIn fr (some (.matchOut (m.push_all nm.states) (r.push_all nr.states))) := by
  show if fr.2 then fr.1 ∈ (r.push_all nr.states).files else fr.1 ∈ (m.push_all nm.states).files
  have h2 : if fr.2 then fr.1 ∈ r.files else fr.1 ∈ m.files := h
  by_cases hb : fr.2
  · rw [if_pos hb] at h2 ⊢
    exact push_all_files_mono _ hnr _ hrpos _ h2
  · rw [if_neg hb] at h2 ⊢
    exact push_all_files_mono _ hnm _ hmpos _ h2

theorem resultIn_new (fr : RegisterFile × Bool) (m r nm nr : RegisterSet)
    (hmpos : pos_entries m.states) (hrpos : pos_entries r.states)
    (hnm : pos_entries nm.states) (hnr : pos_entries nr.states)
    (h : if fr.2 then fr.1 ∈ nr.files else fr.1 ∈ nm.files) :
    resultIn fr (some (.matchOut (m.push_all nm.states) (r.push_all nr.states))) := by
  show if fr.2 then fr.1 ∈ (r.push_all nr.states).files else fr.1 ∈ (m.push_all nm.states).files
  by_cases hb : fr.2
  · rw [if_pos hb] at h ⊢
    exact push_all_files_of_src _ _ hnr hrpos _ h
  · rw [if_neg hb] at h ⊢
    exact push_all_files_of_src _ _ hnm hmpos _ h

theorem match_node_step_covers (maxD : Nat) (ts : List MatchTerm)
    (facts : List (List Value)) (s0in regs : RegisterSet)
    (O1 O2 : Option NodeOutputState) (node : NodeIndex)
    (rest p2 : List (NodeIndex × RegisterSet))
    (hold : ∀ src ∈ s0in.states, src.2.2 < maxD →
      (∀ vs ∈ facts, resultIn (match_fact ts src.1 vs) O1) ∨
      pend_covers ((node, regs) :: rest) node src)
    (htrans : ∀ fr, resultIn fr O1 → resultIn fr O2)
    (hreg : ∀ ent2 ∈ regs.states, ent2.2.2 < maxD → ∀ vs ∈ facts,
      resultIn (match_fact ts ent2.1 vs) O2)
    (hrest : ∀ q ∈ rest, q ∈ p2) :
    ∀ ent ∈ (s0in.push_all regs.states).states, ent.2.2 < maxD →
      (∀ vs ∈ facts, resultIn (match_fact ts ent.1 vs) O2) ∨ pend_covers p2 node ent := by
  intro ent hent hd
  rcases push_all_depth_source regs.states s0in ent hent with ⟨src, hsrc, h1, h2⟩ |
    ⟨x, hx, h1, h2⟩
  · rcases hold src hsrc (h2 ▸ hd) with hdone | ⟨q, hq, hq1, ent2, hent2, he1, he2⟩
    · refine Or.inl (fun vs hvs => ?_)
      have h3 := htrans _ (hdone vs hvs)
      rw [h1] at h3
      exact h3
    · rcases List.mem_cons.mp hq with heq | hq2
      · refine Or.inl (fun vs hvs => ?_)
        rw [heq] at hent2
        have h3 := hreg ent2 hent2 (Nat.lt_of_le_of_lt he2 (h2 ▸ hd)) vs hvs
        rw [he1, h1] at h3
        exact h3
      · exact Or.inr ⟨q, hrest q hq2, hq1, ent2, hent2, he1.trans h1,
          he2.trans (Nat.le_of_eq h2)⟩
  · refine Or.inl (fun vs hvs => ?_)
    have h3 := hreg x hx (h2 ▸ hd) vs hvs
    rw [h1] at h3
    exact h3

theorem output_node_step_covers (pr : Predicate) (ts : List OutputTerm)
    (s0in regs : RegisterSet) (O1 O2 : Option NodeOutputState) (node : NodeIndex)
    (rest p2 : List (NodeIndex × RegisterSet))
    (hold : ∀ src ∈ s0in.states,
      outFactIn ⟨pr, output_values ts src.1⟩ O1 ∨
      pend_covers ((node, regs) :: rest) node src)
    (htrans : ∀ f, outFactIn f O1 → outFactIn f O2)
    (hreg : ∀ ent2 ∈ regs.states, outFactIn ⟨pr, output_values ts ent2.1⟩ O2)
    (hrest : ∀ q ∈ rest, q ∈ p2) :
    ∀ ent ∈ (s0in.push_all regs.states).states,
      outFactIn ⟨pr, output_values ts ent.1⟩ O2 ∨ pend_covers p2 node ent := by
  intro ent hent
  rcases push_all_depth_source regs.states s0in ent hent with ⟨src, hsrc, h1, h2⟩ |
    ⟨x, hx, h1, _⟩
  · rcases hold src hsrc with hdone | ⟨q, hq, hq1, ent2, hent2, he1, he2⟩
    · refine Or.inl ?_
      have h3 := htrans _ hdone
      rw [h1] at h3
      exact h3
    · rcases List.mem_cons.mp hq with heq | hq2
      · refine Or.inl ?_
        rw [heq] at hent2
        have h3 := hreg ent2 hent2
        rw [he1, h1] at h3
        exact h3
      · exact Or.inr ⟨q, hrest q hq2, hq1, ent2, hent2, he1.trans h1,
          he2.trans (Nat.le_of_eq h2)⟩
  · refine Or.inl ?_
    have h3 := hreg x hx
    rw [h1] at h3
    exact h3

theorem inv_at_mono (d : GraphDiagram) (db : Database) (e1 e2 : Evaluation)
    (p1 p2 : List (NodeIndex × RegisterSet)) (n : NodeIndex)
    (hstate : e2.states.getD n junkState = e1.states.getD n junkState)
    (hmd : e2.max_depth = e1.max_depth)
    (hsub : ∀ q ∈ p1, q.1 = n → q ∈ p2) (h : inv_at d db e1 p1 n) : inv_at d db e2 p2 n := by
  cases hg : d.get_node n with
  | matchNode pr ts =>
    rw [inv_at_match_iff d db e1 p1 n pr ts hg] at h
    rw [inv_at_match_iff d db e2 p2 n pr ts hg, hstate, hmd]
    intro ent hent hd
    rcases h ent hent hd with hdone | hcov
    · exact Or.inl hdone
    · exact Or.inr (pend_covers_mono _ _ _ hsub _ hcov)
  | outputNode pr ts =>
    rw [inv_at_output_iff d db e1 p1 n pr ts hg] at h
    rw [inv_at_output_iff d db e2 p2 n pr ts hg, hstate]
    intro ent hent
    rcases h ent hent with hdone | hcov
    · exact Or.inl hdone
    · exact Or.inr (pend_covers_mono _ _ _ hsub _ hcov)

theorem stable_of_inv_nil (d : GraphDiagram) (db : Database) (e : Evaluation)
    (hinv : run_inv d db e []) : e.stable d db := by
  refine ⟨hinv.1, fun n => ?_⟩
  have h := hinv.2.2 n
  cases hg : d.get_node n with
  | matchNode pr ts =>
    rw [inv_at_match_iff d db e [] n pr ts hg] at h
    rw [quiescent_at_match_iff d db e n pr ts hg]
    intro ent hent hd vs hvs
    rcases h ent hent hd with hdone | ⟨q, hq, _⟩
    · exact hdone vs hvs
    · exact absurd hq (List.not_mem_nil _)
  | outputNode pr ts =>
    rw [inv_at_output_iff d db e [] n pr ts hg] at h
    rw [quiescent_at_output_iff d db e n pr ts hg]
    intro ent hent
    rcases h ent hent with hdone | ⟨q, hq, _⟩
    · exact hdone
    · exact absurd hq (List.not_mem_nil _)

theorem step_preserves (d : GraphDiagram) (input : Database) (e : Evaluation)
    (node : NodeIndex) (regs : RegisterSet) (rest : List (NodeIndex × RegisterSet))
    (hinv : run_inv d input e ((node, regs) :: rest)) (hkind : ∀ n, out_kind_ok d e n) :
    run_inv d input (step_eval d input e node regs).1
      (step_pending d node (step_eval d input e node regs).2.1
        (step_eval d input e node regs).2.2 rest) ∧
    ∀ n, out_kind_ok d (step_eval d input e node regs).1 n := by
  obtain ⟨hposO, hpendpos, hiat⟩ := hinv
  have hreg_pos : pos_entries regs.states := hpendpos (node, regs) (List.mem_cons_self _ _)
  have hnil : pos_entries (RegisterSet.new regs.num_registers).states := by
    intro x hx
    simp [RegisterSet.new] at hx
  have hout_pos : ∀ ms rs, propagate d node input regs (some e.max_depth) = .matchOut ms rs →
      pos_entries ms.states ∧ pos_entries rs.states := by
    intro ms rs hpr
    cases hg : d.get_node node with
    | matchNode p ts =>
      rw [propagate_match_eq d node input regs (some e.max_depth) p ts hg] at hpr
      cases hpr
      exact (match_prop_fold p ts input (some e.max_depth) regs.states hreg_pos
        (RegisterSet.new regs.num_registers, RegisterSet.new regs.num_registers)
        hnil hnil).1
    | outputNode p ts =>
      rw [propagate_output_eq d node input regs (some e.max_depth) p ts hg] at hpr
      exact NodeOutputState.noConfusion hpr
  have hpend2 : ∀ q ∈ step_pending d node (step_eval d input e node regs).2.1
      (step_eval d input e node regs).2.2 rest, pos_entries q.2.states := by
    intro q hq
    rcases step_pending_sub d node _ _ rest q hq with h | ⟨ms, rs, hms, hqs⟩
    · exact hpendpos q (List.mem_cons_of_mem _ h)
    · rw [step_eval_output] at hms
      rcases hqs with h2 | h2
      · rw [h2]
        exact (hout_pos ms rs hms).1
      · rw [h2]
        exact (hout_pos ms rs hms).2
  have hpmono := step_pending_mem d node (step_eval d input e node regs).2.1
    (step_eval d input e node regs).2.2 rest
  by_cases hnode : node < e.states.length
  · have hS := step_eval_states d input e node regs hnode
    cases hg : d.get_node node with
    | matchNode pr ts =>
      have hprop := propagate_match_eq d node input regs (some e.max_depth) pr ts hg
      have hFall := match_prop_fold pr ts input (some e.max_depth) regs.states hreg_pos
        (RegisterSet.new regs.num_registers, RegisterSet.new regs.num_registers) hnil hnil
      have hold := (inv_at_match_iff d input e ((node, regs) :: rest) node pr ts hg).mp
        (hiat node)
      cases ho : (e.states.getD node junkState).output with
      | none =>
        have hmerge := merge_none
          ({ e.states.getD node junkState with
             input := (e.states.getD node junkState).input.push_all regs.states } : NodeState)
          (propagate d node input regs (some e.max_depth)) ho
        have hS2 : (step_eval d input e node regs).1.states =
            e.states.set node
              ⟨(e.states.getD node junkState).input.push_all regs.states,
               some (propagate d node input regs (some e.max_depth))⟩ := by
          rw [hS, hmerge]
        have hgd : (step_eval d input e node regs).1.states.getD node junkState =
            ⟨(e.states.getD node junkState).input.push_all regs.states,
             some (propagate d node input regs (some e.max_depth))⟩ := by
          rw [hS2]
          exact getD_set_self_ns _ _ _ hnode
        rw [ho] at hold
        refine ⟨⟨?_, hpend2, ?_⟩, ?_⟩
        · intro s hs
          rw [hS2] at hs
          rcases List.mem_or_eq_of_mem_set hs with h | h
          · exact hposO s h
          · rw [h]
            show pos_output (some (propagate d node input regs (some e.max_depth)))
            rw [hprop]
            exact hFall.1
        · intro n
          by_cases hn : n = node
          · subst hn
            rw [inv_at_match_iff d input _ _ n pr ts hg, hgd, hprop,
              step_eval_max_depth d input e n regs]
            exact match_node_step_covers e.max_depth ts (input.facts_for_predicate pr)
              (e.states.getD n junkState).input regs none _ n rest _
              hold (fun fr h => False.elim h)
              (fun ent2 hent2 hlt vs hvs => by
                have hdok : depth_ok (some e.max_depth) ent2.2.2 = true := by
                  unfold depth_ok
                  simpa using hlt
                exact hFall.2.2 ent2 hent2 hdok vs hvs)
              (fun q hq => hpmono q hq)
          · refine inv_at_mono d input e _ ((node, regs) :: rest) _ n ?_
              (step_eval_max_depth d input e node regs) ?_ (hiat n)
            · rw [hS2]
              exact getD_set_ne_ns _ node n _ (fun h => hn h.symm)
            · intro q hq hq1
              rcases List.mem_cons.mp hq with heq | h2
              · rw [heq] at hq1
                exact absurd hq1.symm hn
              · exact hpmono q h2
        · intro n
          by_cases hn : n = node
          · subst hn
            unfold out_kind_ok
            rw [hgd, hprop, hg]
            trivial
          · refine out_kind_ok_congr d e _ n ?_ (hkind n)
            rw [hS2]
            exact getD_set_ne_ns _ node n _ (fun h => hn h.symm)
      | some out =>
        cases out with
        | matchOut m r =>
          have hm_pos : pos_entries m.states ∧ pos_entries r.states := by
            have h2 := hposO (e.states.getD node junkState) (getD_mem_ns _ _ hnode)
            rw [ho] at h2
            exact h2
          have hmerge := merge_match
            ({ e.states.getD node junkState with
               input := (e.states.getD node junkState).input.push_all regs.states } : NodeState)
            m r
            (regs.states.foldl (match_prop_step pr ts input (some e.max_depth))
              (RegisterSet.new regs.num_registers, RegisterSet.new regs.num_registers)).1
            (regs.states.foldl (match_prop_step pr ts input (some e.max_depth))
              (RegisterSet.new regs.num_registers, RegisterSet.new regs.num_registers)).2 ho
          have hS2 : (step_eval d input e node regs).1.states =
              e.states.set node
                ⟨(e.states.getD node junkState).input.push_all regs.states,
                 some (.matchOut
                   (m.push_all (regs.states.foldl (match_prop_step pr ts input
                     (some e.max_depth)) (RegisterSet.new regs.num_registers,
                       RegisterSet.new regs.num_registers)).1.states)
                   (r.push_all (regs.states.foldl (match_prop_step pr ts input
                     (some e.max_depth)) (RegisterSet.new regs.num_registers,
                       RegisterSet.new regs.num_registers)).2.states))⟩ := by
            rw [hS, hprop, hmerge]
          have hgd : (step_eval d input e node regs).1.states.getD node junkState =
              ⟨(e.states.getD node junkState).input.push_all regs.states,
               some (.matchOut
                 (m.push_all (regs.states.foldl (match_prop_step pr ts input
                   (some e.max_depth)) (RegisterSet.new regs.num_registers,
                     RegisterSet.new regs.num_registers)).1.states)
                 (r.push_all (regs.states.foldl (match_prop_step pr ts input
                   (some e.max_depth)) (RegisterSet.new regs.num_registers,
                     RegisterSet.new regs.num_registers)).2.states))⟩ := by
            rw [hS2]
            exact getD_set_self_ns _ _ _ hnode
          rw [ho] at hold
          refine ⟨⟨?_, hpend2, ?_⟩, ?_⟩
          · intro s hs
            rw [hS2] at hs
            rcases List.mem_or_eq_of_mem_set hs with h | h
            · exact hposO s h
            · rw [h]
              exact ⟨push_all_pos _ hFall.1.1 _ hm_pos.1, push_all_pos _ hFall.1.2 _ hm_pos.2⟩
          · intro n
            by_cases hn : n = node
            · subst hn
              rw [inv_at_match_iff d input _ _ n pr ts hg, hgd,
                step_eval_max_depth d input e n regs]
              exact match_node_step_covers e.max_depth ts (input.facts_for_predicate pr)
                (e.states.getD n junkState).input regs (some (.matchOut m r)) _ n rest _
                hold
                (fun fr h => resultIn_grow fr m r _ _ hm_pos.1 hm_pos.2 hFall.1.1 hFall.1.2 h)
                (fun ent2 hent2 hlt vs hvs => by
                  have hdok : depth_ok (some e.max_depth) ent2.2.2 = true := by
                    unfold depth_ok
                    simpa using hlt
                  exact resultIn_new _ m r _ _ hm_pos.1 hm_pos.2 hFall.1.1 hFall.1.2
                    (hFall.2.2 ent2 hent2 hdok vs hvs))
                (fun q hq => hpmono q hq)
            · refine inv_at_mono d input e _ ((node, regs) :: rest) _ n ?_
                (step_eval_max_depth d input e node regs) ?_ (hiat n)
              · rw [hS2]
                exact getD_set_ne_ns _ node n _ (fun h => hn h.symm)
              · intro q hq hq1
                rcases List.mem_cons.mp hq with heq | h2
                · rw [heq] at hq1
                  exact absurd hq1.symm hn
                · exact hpmono q h2
          · intro n
            by_cases hn : n = node
            · subst hn
              unfold out_kind_ok
              rw [hgd, hg]
              trivial
            · refine out_kind_ok_congr d e _ n ?_ (hkind n)
              rw [hS2]
              exact getD_set_ne_ns _ node n _ (fun h => hn h.symm)
        | outputOut odb =>
          have hk := hkind node
          unfold out_kind_ok at hk
          rw [ho, hg] at hk
          exact False.elim hk
    | outputNode pr ts =>
      have hprop := propagate_output_eq d node input regs (some e.max_depth) pr ts hg
      have hOF := out_prop_fold pr ts regs.states Database.new
      have hold := (inv_at_output_iff d input e ((node, regs) :: rest) node pr ts hg).mp
        (hiat node)
      cases ho : (e.states.getD node junkState).output with
      | none =>
        have hmerge := merge_none
          ({ e.states.getD node junkState with
             input := (e.states.getD node junkState).input.push_all regs.states } : NodeState)
          (propagate d node input regs (some e.max_depth)) ho
        have hS2 : (step_eval d input e node regs).1.states =
            e.states.set node
              ⟨(e.states.getD node junkState).input.push_all regs.states,
               some (propagate d node input regs (some e.max_depth))⟩ := by
          rw [hS, hmerge]
        have hgd : (step_eval d input e node regs).1.states.getD node junkState =
            ⟨(e.states.getD node junkState).input.push_all regs.states,
             some (propagate d node input regs (some e.max_depth))⟩ := by
          rw [hS2]
          exact getD_set_self_ns _ _ _ hnode
        rw [ho] at hold
        refine ⟨⟨?_, hpend2, ?_⟩, ?_⟩
        · intro s hs
          rw [hS2] at hs
          rcases List.mem_or_eq_of_mem_set hs with h | h
          · exact hposO s h
          · rw [h]
            show pos_output (some (propagate d node input regs (some e.max_depth)))
            rw [hprop]
            trivial
        · intro n
          by_cases hn : n = node
          · subst hn
            rw [inv_at_output_iff d input _ _ n pr ts hg, hgd, hprop]
            exact output_node_step_covers pr ts (e.states.getD n junkState).input regs
              none _ n rest _ hold (fun f h => False.elim h)
              (fun ent2 hent2 => hOF.2 ent2 hent2)
              (fun q hq => hpmono q hq)
          · refine inv_at_mono d input e _ ((node, regs) :: rest) _ n ?_
              (step_eval_max_depth d input e node regs) ?_ (hiat n)
            · rw [hS2]
              exact getD_set_ne_ns _ node n _ (fun h => hn h.symm)
            · intro q hq hq1
              rcases List.mem_cons.mp hq with heq | h2
              · rw [heq] at hq1
                exact absurd hq1.symm hn
              · exact hpmono q h2
        · intro n
          by_cases hn : n = node
          · subst hn
            unfold out_kind_ok
            rw [hgd, hprop, hg]
            trivial
          · refine out_kind_ok_congr d e _ n ?_ (hkind n)
            rw [hS2]
            exact getD_set_ne_ns _ node n _ (fun h => hn h.symm)
      | some out =>
        cases out with
        | matchOut m r =>
          have hk := hkind node
          unfold out_kind_ok at hk
          rw [ho, hg] at hk
          exact False.elim hk
        | outputOut odb =>
          have hmerge := merge_out_db
            ({ e.states.getD node junkState with
               input := (e.states.getD node junkState).input.push_all regs.states } : NodeState)
            odb
            (regs.states.foldl
              (fun db2 ent => propagate_output_node_into_output pr ts ent.1 ent.2.1 db2)
              Database.new) ho
          have hS2 : (step_eval d input e node regs).1.states =
              e.states.set node
                ⟨(e.states.getD node junkState).input.push_all regs.states,
                 some (.outputOut
                   ((regs.states.foldl
                     (fun db2 ent => propagate_output_node_into_output pr ts ent.1 ent.2.1 db2)
                     Database.new).weighted_facts.foldl
                       (fun db fw => db.insert_fact_with_weight fw.1 fw.2) odb))⟩ := by
            rw [hS, hprop, hmerge]
          have hgd : (step_eval d input e node regs).1.states.getD node junkState =
              ⟨(e.states.getD node junkState).input.push_all regs.states,
               some (.outputOut
                 ((regs.states.foldl
                   (fun db2 ent => propagate_output_node_into_output pr ts ent.1 ent.2.1 db2)
                   Database.new).weighted_facts.foldl
                     (fun db fw => db.insert_fact_with_weight fw.1 fw.2) odb))⟩ := by
            rw [hS2]
            exact getD_set_self_ns _ _ _ hnode
          rw [ho] at hold
          refine ⟨⟨?_, hpend2, ?_⟩, ?_⟩
          · intro s hs
            rw [hS2] at hs
            rcases List.mem_or_eq_of_mem_set hs with h | h
            · exact hposO s h
            · rw [h]
              trivial
          · intro n
            by_cases hn : n = node
            · subst hn
              rw [inv_at_output_iff d input _ _ n pr ts hg, hgd]
              exact output_node_step_covers pr ts (e.states.getD n junkState).input regs
                (some (.outputOut odb)) _ n rest _ hold
                (fun f h => fold_insert_contains_mono _ f odb h)
                (fun ent2 hent2 => by
                  obtain ⟨fw, hfw, hfw1⟩ := weighted_mem_of_contains _ _ (hOF.2 ent2 hent2)
                  have h3 := fold_insert_contains_mem _ odb fw hfw
                  rw [hfw1] at h3
                  exact h3)
                (fun q hq => hpmono q hq)
            · refine inv_at_mono d input e _ ((node, regs) :: rest) _ n ?_
                (step_eval_max_depth d input e node regs) ?_ (hiat n)
              · rw [hS2]
                exact getD_set_ne_ns _ node n _ (fun h => hn h.symm)
              · intro q hq hq1
                rcases List.mem_cons.mp hq with heq | h2
                · rw [heq] at hq1
                  exact absurd hq1.symm hn
                · exact hpmono q h2
          · intro n
            by_cases hn : n = node
            · subst hn
              unfold out_kind_ok
              rw [hgd, hg]
              trivial
            · refine out_kind_ok_congr d e _ n ?_ (hkind n)
              rw [hS2]
              exact getD_set_ne_ns _ node n _ (fun h => hn h.symm)
  · have hse : (step_eval d input e node regs).1 = e :=
      step_eval_oob d input e node regs (Nat.le_of_not_lt hnode)
    rw [hse]
    refine ⟨⟨hposO, hpend2, ?_⟩, hkind⟩
    intro n
    by_cases hn : n = node
    · subst hn
      have hempty : e.states.getD n junkState = junkState :=
        getD_oob_ns _ _ (Nat.le_of_not_lt hnode)
      cases hg : d.get_node n with
      | matchNode pr ts =>
        rw [inv_at_match_iff d input e _ n pr ts hg, hempty]
        intro ent hent
        exact absurd hent (List.not_mem_nil _)
      | outputNode pr ts =>
        rw [inv_at_output_iff d input e _ n pr ts hg, hempty]
        intro ent hent
        exact absurd hent (List.not_mem_nil _)
    · refine inv_at_mono d input e e _ _ n rfl rfl ?_ (hiat n)
      intro q hq hq1
      rcases List.mem_cons.mp hq with heq | h2
      · rw [heq] at hq1
        exact absurd hq1.symm hn
      · exact hpmono q h2

theorem run_pending_stable (d : GraphDiagram) (input : Database) :
    ∀ fuel (e : Evaluation) (p : List (NodeIndex × RegisterSet)) (e' : Evaluation),
      run_inv d input e p → (∀ n, out_kind_ok d e n) →
      run_pending_aux d input fuel e p = some e' →
      e'.max_depth = e.max_depth ∧ e'.stable d input := by
  intro fuel
  induction fuel with
  | zero =>
    intro e p e' hinv hk h
    cases p with
    | nil =>
      rw [run_pending_aux_nil] at h
      cases h
      exact ⟨rfl, stable_of_inv_nil d input e hinv⟩
    | cons q rest =>
      obtain ⟨node, regs⟩ := q
      exact Option.noConfusion h
  | succ fuel ih =>
    intro e p e' hinv hk h
    cases p with
    | nil =>
      rw [run_pending_aux_nil] at h
      cases h
      exact ⟨rfl, stable_of_inv_nil d input e hinv⟩
    | cons q rest =>
      obtain ⟨node, regs⟩ := q
      rw [run_pending_aux_cons] at h
      have hs := step_preserves d input e node regs rest hinv hk
      have hrec := ih _ _ _ hs.1 hs.2 h
      exact ⟨hrec.1.trans (step_eval_max_depth d input e node regs), hrec.2⟩

theorem stable_no_new_files (d : GraphDiagram) (db : Database) (e : Evaluation)
    (h : e.stable d db) : no_new_files d db e := by
  intro n
  cases hg : d.get_node n with
  | matchNode pr ts =>
    have hq := (quiescent_at_match_iff d db e n pr ts hg).mp (h.2 n)
    rw [propagate_match_eq d n db (e.states.getD n junkState).input (some e.max_depth)
      pr ts hg]
    have hsound := match_prop_fold_sound pr ts db (some e.max_depth)
      (e.states.getD n junkState).input.states
      (RegisterSet.new (e.states.getD n junkState).input.num_registers,
       RegisterSet.new (e.states.getD n junkState).input.num_registers)
    cases ho : (e.states.getD n junkState).output with
    | none =>
      rw [ho] at hq
      constructor
      · cases hst : ((e.states.getD n junkState).input.states.foldl
            (match_prop_step pr ts db (some e.max_depth))
            (RegisterSet.new (e.states.getD n junkState).input.num_registers,
             RegisterSet.new (e.states.getD n junkState).input.num_registers)).1.states with
        | nil => rfl
        | cons a l =>
          exfalso
          have hmem := List.mem_map_of_mem Prod.fst (hst ▸ List.mem_cons_self a l)
          rcases hsound.1 a.1 hmem with h2 | ⟨ent, hent, hdok, vs, hvs, _, _⟩
          · simp [RegisterSet.new, RegisterSet.files] at h2
          · have hlt : ent.2.2 < e.max_depth := by
              unfold depth_ok at hdok
              simpa using hdok
            exact hq ent hent hlt vs hvs
      · cases hst : ((e.states.getD n junkState).input.states.foldl
            (match_prop_step pr ts db (some e.max_depth))
            (RegisterSet.new (e.states.getD n junkState).input.num_registers,
             RegisterSet.new (e.states.getD n junkState).input.num_registers)).2.states with
        | nil => rfl
        | cons a l =>
          exfalso
          have hmem := List.mem_map_of_mem Prod.fst (hst ▸ List.mem_cons_self a l)
          rcases hsound.2 a.1 hmem with h2 | ⟨ent, hent, hdok, vs, hvs, _, _⟩
          · simp [RegisterSet.new, RegisterSet.files] at h2
          · have hlt : ent.2.2 < e.max_depth := by
              unfold depth_ok at hdok
              simpa using hdok
            exact hq ent hent hlt vs hvs
    | some out =>
      cases out with
      | matchOut m2 r2 =>
        rw [ho] at hq
        constructor
        · intro rf hrf
          rcases hsound.1 rf hrf with h2 | ⟨ent, hent, hdok, vs, hvs, href, hx⟩
          · simp [RegisterSet.new, RegisterSet.files] at h2
          · have hlt : ent.2.2 < e.max_depth := by
              unfold depth_ok at hdok
              simpa using hdok
            have h4 : if (match_fact ts ent.1 vs).2 = true then
                (match_fact ts ent.1 vs).1 ∈ r2.files
              else (match_fact ts ent.1 vs).1 ∈ m2.files := hq ent hent hlt vs hvs
            rw [href] at h4
            simp only [Bool.false_eq_true, if_false] at h4
            rw [hx]
            exact h4
        · intro rf hrf
          rcases hsound.2 rf hrf with h2 | ⟨ent, hent, hdok, vs, hvs, href, hx⟩
          · simp [RegisterSet.new, RegisterSet.files] at h2
          · have hlt : ent.2.2 < e.max_depth := by
              unfold depth_ok at hdok
              simpa using hdok
            have h4 : if (match_fact ts ent.1 vs).2 = true then
                (match_fact ts ent.1 vs).1 ∈ r2.files
              else (match_fact ts ent.1 vs).1 ∈ m2.files := hq ent hent hlt vs hvs
            rw [href] at h4
            simp only [if_true] at h4
            rw [hx]
            exact h4
      | outputOut odb =>
        rw [ho] at hq
        constructor
        · cases hst : ((e.states.getD n junkState).input.states.foldl
              (match_prop_step pr ts db (some e.max_depth))
              (RegisterSet.new (e.states.getD n junkState).input.num_registers,
               RegisterSet.new (e.states.getD n junkState).input.num_registers)).1.states with
          | nil => rfl
          | cons a l =>
            exfalso
            have hmem := List.mem_map_of_mem Prod.fst (hst ▸ List.mem_cons_self a l)
            rcases hsound.1 a.1 hmem with h2 | ⟨ent, hent, hdok, vs, hvs, _, _⟩
            · simp [RegisterSet.new, RegisterSet.files] at h2
            · have hlt : ent.2.2 < e.max_depth := by
                unfold depth_ok at hdok
                simpa using hdok
              exact hq ent hent hlt vs hvs
        · cases hst : ((e.states.getD n junkState).input.states.foldl
              (match_prop_step pr ts db (some e.max_depth))
              (RegisterSet.new (e.states.getD n junkState).input.num_registers,
               RegisterSet.new (e.states.getD n junkState).input.num_registers)).2.states with
          | nil => rfl
          | cons a l =>
            exfalso
            have hmem := List.mem_map_of_mem Prod.fst (hst ▸ List.mem_cons_self a l)
            rcases hsound.2 a.1 hmem with h2 | ⟨ent, hent, hdok, vs, hvs, _, _⟩
            · simp [RegisterSet.new, RegisterSet.files] at h2
            · have hlt : ent.2.2 < e.max_depth := by
                unfold depth_ok at hdok
                simpa using hdok
              exact hq ent hent hlt vs hvs
  | outputNode pr ts =>
    have hq := (quiescent_at_output_iff d db e n pr ts hg).mp (h.2 n)
    rw [propagate_output_eq d n db (e.states.getD n junkState).input (some e.max_depth)
      pr ts hg]
    have hsound := out_prop_fold_sound pr ts (e.states.getD n junkState).input.states
      Database.new
    cases ho : (e.states.getD n junkState).output with
    | none =>
      rw [ho] at hq
      cases hf : ((e.states.getD n junkState).input.states.foldl
          (fun db2 ent => propagate_output_node_into_output pr ts ent.1 ent.2.1 db2)
          Database.new).all_facts with
      | nil => exact hf
      | cons f l =>
        exfalso
        rcases hsound f (hf ▸ List.mem_cons_self f l) with h2 | ⟨ent, hent, _⟩
        · simp [Database.new, Database.all_facts] at h2
        · exact hq ent hent
    | some out =>
      cases out with
      | matchOut m2 r2 =>
        rw [ho] at hq
        cases hf : ((e.states.getD n junkState).input.states.foldl
            (fun db2 ent => propagate_output_node_into_output pr ts ent.1 ent.2.1 db2)
            Database.new).all_facts with
        | nil => exact hf
        | cons f l =>
          exfalso
          rcases hsound f (hf ▸ List.mem_cons_self f l) with h2 | ⟨ent, hent, _⟩
          · simp [Database.new, Database.all_facts] at h2
          · exact hq ent hent
      | outputOut odb2 =>
        rw [ho] at hq
        intro f hf
        rcases hsound f hf with h2 | ⟨ent, hent, hx⟩
        · simp [Database.new, Database.all_facts] at h2
        · rw [hx]
          exact hq ent hent

theorem getD_modify_ne_ns (l : List NodeState) (f : NodeState → NodeState) (i j : Nat)
    (h : i ≠ j) : (l.modify f i).getD j junkState = l.getD j junkState := by
  rw [List.getD_eq_getElem?_getD, List.getElem?_modify, List.getD_eq_getElem?_getD]
  cases l[j]? <;> simp [h]

theorem mem_states_getD (l : List NodeState) (s : NodeState) (hs : s ∈ l) :
    ∃ i, i < l.length ∧ l.getD i junkState = s := by
  obtain ⟨i, hi, hsi⟩ := List.mem_iff_getElem.mp hs
  refine ⟨i, hi, ?_⟩
  rw [List.getD_eq_getElem?_getD, List.getElem?_eq_getElem hi]
  exact hsi

theorem grow_new_getD (m k n : Nat) :
    (Evaluation.new.grow m k).states.getD n junkState =
      if n < m then ⟨RegisterSet.new k, none⟩ else junkState := by
  show (([] ++ List.replicate (m - 0) ⟨RegisterSet.new k, none⟩ :
    List NodeState)).getD n junkState = _
  rw [List.nil_append, Nat.sub_zero, List.getD_eq_getElem?_getD, List.getElem?_replicate]
  by_cases h : n < m <;> simp [h]

theorem seed_set_states (k : Nat) :
    (((RegisterSet.new k).push (RegisterFile.new k) 1 0).1).states =
      [(RegisterFile.new k, 1, 0)] := rfl

theorem seed_set_pos (k : Nat) :
    pos_entries ((((RegisterSet.new k).push (RegisterFile.new k) 1 0).1).states) := by
  rw [seed_set_states]
  intro x hx
  rw [List.mem_singleton] at hx
  rw [hx]
  exact Int.zero_lt_one

theorem seed_fold_inv (d : GraphDiagram) (k : Nat) (rts : List NodeIndex) :
    ∀ e : Evaluation,
      (∀ n, ((rts.foldl (seed_root_step d k) e).states.getD n junkState).output =
        (e.states.getD n junkState).output) ∧
      (∀ n, ∀ ent ∈ ((rts.foldl (seed_root_step d k) e).states.getD n junkState).input.states,
        (∃ ent0 ∈ (e.states.getD n junkState).input.states,
          ent0.1 = ent.1 ∧ ent0.2.2 = ent.2.2) ∨
        (ent.1 = RegisterFile.new k ∧ ent.2.2 = 0 ∧ n ∈ rts ∧ n < d.len)) ∧
      (rts.foldl (seed_root_step d k) e).max_depth = e.max_depth ∧
      (rts.foldl (seed_root_step d k) e).states.length = e.states.length := by
  induction rts with
  | nil =>
    intro e
    exact ⟨fun n => rfl, fun n ent hent => Or.inl ⟨ent, hent, rfl, rfl⟩, rfl, rfl⟩
  | cons root rts ih =>
    intro e
    rw [List.foldl_cons]
    have hstep_out : ∀ n, ((seed_root_step d k e root).states.getD n junkState).output =
        (e.states.getD n junkState).output := by
      intro n
      unfold seed_root_step
      by_cases hr : root < d.len
      · rw [if_pos hr]
        by_cases hlen : root < e.states.length
        · by_cases hn : root = n
          · subst hn
            show ((e.states.modify _ root).getD root junkState).output = _
            rw [getD_modify_ns _ _ _ hlen]
          · show ((e.states.modify _ root).getD n junkState).output = _
            rw [getD_modify_ne_ns _ _ _ _ hn]
        · show ((e.states.modify _ root).getD n junkState).output = _
          rw [List.modify_eq_self (Nat.le_of_not_lt hlen)]
      · rw [if_neg hr]
    have hstep_inp : ∀ n, ∀ ent ∈
        ((seed_root_step d k e root).states.getD n junkState).input.states,
        (∃ ent0 ∈ (e.states.getD n junkState).input.states,
          ent0.1 = ent.1 ∧ ent0.2.2 = ent.2.2) ∨
        (ent.1 = RegisterFile.new k ∧ ent.2.2 = 0 ∧ n = root ∧ n < d.len) := by
      intro n ent hent
      unfold seed_root_step at hent
      by_cases hr : root < d.len
      · rw [if_pos hr] at hent
        by_cases hlen : root < e.states.length
        · by_cases hn : root = n
          · subst hn
            rw [show ((e.modify_state root _).states.getD root junkState) =
                _ from getD_modify_ns _ _ _ hlen] at hent
            have hent2 : ent ∈ (push_state_list (e.states.getD root junkState).input.states
                (RegisterFile.new k) 1 0).1 := hent
            rcases push_depth_source (RegisterFile.new k) 1 0 _ ent hent2 with
              ⟨e0, he0, h1, h2⟩ | ⟨h1, h2⟩
            · exact Or.inl ⟨e0, he0, h1, h2⟩
            · exact Or.inr ⟨h1, h2, rfl, hr⟩
          · rw [show ((e.modify_state root _).states.getD n junkState) =
                _ from getD_modify_ne_ns _ _ _ _ hn] at hent
            exact Or.inl ⟨ent, hent, rfl, rfl⟩
        · rw [show ((e.modify_state root _).states.getD n junkState) =
              e.states.getD n junkState from by
                show ((e.states.modify _ root).getD n junkState) = _
                rw [List.modify_eq_self (Nat.le_of_not_lt hlen)]] at hent
          exact Or.inl ⟨ent, hent, rfl, rfl⟩
      · rw [if_neg hr] at hent
        exact Or.inl ⟨ent, hent, rfl, rfl⟩
    have hstep_md : (seed_root_step d k e root).max_depth = e.max_depth := by
      unfold seed_root_step
      by_cases hr : root < d.len
      · rw [if_pos hr]
        rfl
      · rw [if_neg hr]
    have hstep_len : (seed_root_step d k e root).states.length = e.states.length := by
      unfold seed_root_step
      by_cases hr : root < d.len
      · rw [if_pos hr]
        exact List.length_modify _ _ _
      · rw [if_neg hr]
    obtain ⟨ho, hi, hmd, hlen⟩ := ih (seed_root_step d k e root)
    refine ⟨fun n => (ho n).trans (hstep_out n), ?_, hmd.trans hstep_md,
      hlen.trans hstep_len⟩
    intro n ent hent
    rcases hi n ent hent with ⟨ent0, hent0, h1, h2⟩ | ⟨h1, h2, h3, h4⟩
    · rcases hstep_inp n ent0 hent0 with ⟨ent1, hent1, g1, g2⟩ | ⟨g1, g2, g3, g4⟩
      · exact Or.inl ⟨ent1, hent1, g1.trans h1, g2.trans h2⟩
      · exact Or.inr ⟨g1 ▸ h1 ▸ rfl, g2 ▸ h2 ▸ rfl, g3 ▸ List.mem_cons_self _ _, g4⟩
    · exact Or.inr ⟨h1, h2, List.mem_cons_of_mem _ h3, h4⟩

theorem run_multi_stable (d : GraphDiagram) (input : Database) (k fuel : Nat)
    (e' : Evaluation) (h : Evaluation.run_multi d input k fuel = some e') :
    e'.stable d input ∧ no_new_files d input e' := by
  unfold Evaluation.run_multi at h
  obtain ⟨e2, h2, he'⟩ := Option.map_eq_some'.mp h
  have hgrow_out : ∀ n, ((Evaluation.new.grow d.len k).states.getD n junkState).output =
      none := by
    intro n
    rw [grow_new_getD]
    by_cases hn : n < d.len <;> simp [hn, junkState]
  have hgrow_inp : ∀ n, ((Evaluation.new.grow d.len k).states.getD n junkState).input.states =
      [] := by
    intro n
    rw [grow_new_getD]
    by_cases hn : n < d.len <;> simp [hn, junkState, RegisterSet.new]
  have hout : ∀ n, ((d.roots.foldl (seed_root_step d k)
      (Evaluation.new.grow d.len k)).states.getD n junkState).output = none := by
    intro n
    rw [(seed_fold_inv d k d.roots (Evaluation.new.grow d.len k)).1 n]
    exact hgrow_out n
  have hinp : ∀ n, ∀ ent ∈ ((d.roots.foldl (seed_root_step d k)
      (Evaluation.new.grow d.len k)).states.getD n junkState).input.states,
      ent.1 = RegisterFile.new k ∧ ent.2.2 = 0 ∧ n ∈ d.roots ∧ n < d.len := by
    intro n ent hent
    rcases (seed_fold_inv d k d.roots (Evaluation.new.grow d.len k)).2.1 n ent hent with
      ⟨ent0, hent0, _, _⟩ | hok
    · rw [hgrow_inp n] at hent0
      exact absurd hent0 (List.not_mem_nil _)
    · exact hok
  have hkinds : ∀ n, out_kind_ok d (d.roots.foldl (seed_root_step d k)
      (Evaluation.new.grow d.len k)) n :=
    fun n => out_kind_ok_none d _ n (hout n)
  have hpos : ∀ s ∈ (d.roots.foldl (seed_root_step d k)
      (Evaluation.new.grow d.len k)).states, pos_output s.output := by
    intro s hs
    obtain ⟨i, hi, hgd⟩ := mem_states_getD _ s hs
    have h3 := hout i
    rw [hgd] at h3
    rw [h3]
    trivial
  have hpend : ∀ q ∈ (d.roots.filterMap fun n => if n < d.len then
      some (n, ((RegisterSet.new k).push (RegisterFile.new k) 1 0).1) else none).reverse,
      pos_entries q.2.states := by
    intro q hq
    rw [List.mem_reverse] at hq
    obtain ⟨n, hn, hq2⟩ := List.mem_filterMap.mp hq
    by_cases hnl : n < d.len
    · rw [if_pos hnl] at hq2
      cases hq2
      exact seed_set_pos k
    · rw [if_neg hnl] at hq2
      exact Option.noConfusion hq2
  have hiat : ∀ n, inv_at d input
      (d.roots.foldl (seed_root_step d k) (Evaluation.new.grow d.len k))
      (d.roots.filterMap fun n => if n < d.len then
        some (n, ((RegisterSet.new k).push (RegisterFile.new k) 1 0).1) else none).reverse
      n := by
    intro n
    have hcov : ∀ ent ∈ ((d.roots.foldl (seed_root_step d k)
        (Evaluation.new.grow d.len k)).states.getD n junkState).input.states,
        pend_covers (d.roots.filterMap fun n => if n < d.len then
          some (n, ((RegisterSet.new k).push (RegisterFile.new k) 1 0).1) else none).reverse
          n ent := by
      intro ent hent
      obtain ⟨h1, h2, h3, h4⟩ := hinp n ent hent
      refine ⟨(n, ((RegisterSet.new k).push (RegisterFile.new k) 1 0).1), ?_, rfl,
        (RegisterFile.new k, 1, 0), ?_, h1.symm, ?_⟩
      · rw [List.mem_reverse]
        exact List.mem_filterMap.mpr ⟨n, h3, by rw [if_pos h4]⟩
      · rw [seed_set_states]
        exact List.mem_singleton.mpr rfl
      · exact Nat.le_of_eq h2.symm
    cases hg : d.get_node n with
    | matchNode pr ts =>
      rw [inv_at_match_iff d input _ _ n pr ts hg]
      intro ent hent _
      exact Or.inr (hcov ent hent)
    | outputNode pr ts =>
      rw [inv_at_output_iff d input _ _ n pr ts hg]
      intro ent hent
      exact Or.inr (hcov ent hent)
  have hstable := run_pending_stable d input fuel _ _ e2 ⟨hpos, hpend, hiat⟩ hkinds h2
  subst he'
  exact ⟨hstable.2, stable_no_new_files d input _ hstable.2⟩

theorem mem_foldl_prepend_nat (l : List NodeIndex) :
    ∀ init : List NodeIndex, ∀ x ∈ init, x ∈ l.foldl (fun p n => n :: p) init := by
  induction l with
  | nil => intro init x hx; exact hx
  | cons t ts ih =>
    intro init x hx
    rw [List.foldl_cons]
    exact ih _ x (List.mem_cons_of_mem _ hx)

theorem reset_at_reset (e : Evaluation) (k n : Nat)
    (h : e.states.getD n junkState = ⟨RegisterSet.new k, none⟩) : reset_at e n := by
  unfold reset_at
  rw [h]
  exact ⟨rfl, rfl⟩

theorem invalidate_aux_nil (d : GraphDiagram) (k : Nat) (ss : List NodeIndex) (fuel : Nat)
    (e : Evaluation) (inv : List NodeIndex) :
    invalidate_aux d k ss fuel e [] inv = .ok e := by
  cases fuel <;> rfl

theorem invalidate_aux_cons (d : GraphDiagram) (k : Nat) (ss : List NodeIndex) (fuel : Nat)
    (e : Evaluation) (node : NodeIndex) (rest inv : List NodeIndex) :
    invalidate_aux d k ss (fuel + 1) e (node :: rest) inv =
      if inv.contains node then invalidate_aux d k ss fuel e rest inv
      else if (d.match_target_group node ++ d.refute_target_group node).any
          (fun n => ss.contains n) then .cyclic
      else invalidate_aux d k ss fuel
        { e with states := e.states.set node ⟨RegisterSet.new k, none⟩ }
        ((d.match_target_group node ++ d.refute_target_group node).foldl
          (fun p n => n :: p) rest)
        (node :: inv) := rfl

theorem inval_frame (d : GraphDiagram) (k : Nat) (ss : List NodeIndex) :
    ∀ fuel (e : Evaluation) (todo inv : List NodeIndex) (e' : Evaluation),
      invalidate_aux d k ss fuel e todo inv = .ok e' →
      e'.max_depth = e.max_depth ∧ e'.states.length = e.states.length ∧
      ∀ n, e'.states.getD n junkState = e.states.getD n junkState ∨
        e'.states.getD n junkState = ⟨RegisterSet.new k, none⟩ := by
  intro fuel
  induction fuel with
  | zero =>
    intro e todo inv e' h
    cases todo with
    | nil =>
      rw [invalidate_aux_nil] at h
      cases h
      exact ⟨rfl, rfl, fun n => Or.inl rfl⟩
    | cons x rest => exact InvalidateResult.noConfusion h
  | succ fuel ih =>
    intro e todo inv e' h
    cases todo with
    | nil =>
      rw [invalidate_aux_nil] at h
      cases h
      exact ⟨rfl, rfl, fun n => Or.inl rfl⟩
    | cons node rest =>
      rw [invalidate_aux_cons] at h
      by_cases hc : inv.contains node
      · rw [if_pos hc] at h
        exact ih e rest inv e' h
      · rw [if_neg hc] at h
        by_cases hcyc : (d.match_target_group node ++ d.refute_target_group node).any
            (fun n => ss.contains n)
        · rw [if_pos hcyc] at h
          exact InvalidateResult.noConfusion h
        · rw [if_neg hcyc] at h
          have hrec := ih _ _ _ e' h
          refine ⟨hrec.1, hrec.2.1.trans (List.length_set _ _ _), fun n => ?_⟩
          rcases hrec.2.2 n with h2 | h2
          · by_cases hn : node = n
            · subst hn
              by_cases hnl : node < e.states.length
              · rw [getD_set_self_ns _ _ _ hnl] at h2
                exact Or.inr h2
              · rw [show (e.states.set node (⟨RegisterSet.new k, none⟩ : NodeState)) =
                    e.states from List.set_eq_of_length_le (Nat.le_of_not_lt hnl)] at h2
                exact Or.inl h2
            · rw [getD_set_ne_ns _ _ _ _ hn] at h2
              exact Or.inl h2
          · exact Or.inr h2

theorem inval_reset (d : GraphDiagram) (k : Nat) (ss : List NodeIndex) :
    ∀ fuel (e : Evaluation) (todo inv : List NodeIndex) (e' : Evaluation),
      invalidate_aux d k ss fuel e todo inv = .ok e' →
      (∀ n ∈ inv, reset_at e n) →
      ∀ n, n ∈ todo ∨ n ∈ inv → reset_at e' n := by
  intro fuel
  induction fuel with
  | zero =>
    intro e todo inv e' h hres n hn
    cases todo with
    | nil =>
      rw [invalidate_aux_nil] at h
      cases h
      rcases hn with h2 | h2
      · exact absurd h2 (List.not_mem_nil _)
      · exact hres n h2
    | cons x rest => exact InvalidateResult.noConfusion h
  | succ fuel ih =>
    intro e todo inv e' h hres n hn
    cases todo with
    | nil =>
      rw [invalidate_aux_nil] at h
      cases h
      rcases hn with h2 | h2
      · exact absurd h2 (List.not_mem_nil _)
      · exact hres n h2
    | cons node rest =>
      rw [invalidate_aux_cons] at h
      by_cases hc : inv.contains node
      · rw [if_pos hc] at h
        refine ih e rest inv e' h hres n ?_
        rcases hn with h2 | h2
        · rcases List.mem_cons.mp h2 with heq | h3
          · subst heq
            exact Or.inr (by simpa using hc)
          · exact Or.inl h3
        · exact Or.inr h2
      · rw [if_neg hc] at h
        by_cases hcyc : (d.match_target_group node ++ d.refute_target_group node).any
            (fun n => ss.contains n)
        · rw [if_pos hcyc] at h
          exact InvalidateResult.noConfusion h
        · rw [if_neg hcyc] at h
          have hres2 : ∀ m ∈ node :: inv, reset_at
              { e with states := e.states.set node ⟨RegisterSet.new k, none⟩ } m := by
            intro m hm
            rcases List.mem_cons.mp hm with heq | h3
            · subst heq
              by_cases hnl : m < e.states.length
              · exact reset_at_reset _ k m (getD_set_self_ns _ _ _ hnl)
              · refine reset_at_reset _ 0 m ?_
                show (e.states.set m _).getD m junkState = junkState
                rw [show (e.states.set m (⟨RegisterSet.new k, none⟩ : NodeState)) =
                  e.states from List.set_eq_of_length_le (Nat.le_of_not_lt hnl)]
                exact getD_oob_ns _ _ (Nat.le_of_not_lt hnl)
            · have hr := hres m h3
              unfold reset_at at hr ⊢
              by_cases hn2 : node = m
              · subst hn2
                by_cases hnl : node < e.states.length
                · show ((e.states.set node _).getD node junkState).input.states = [] ∧ _
                  rw [getD_set_self_ns _ _ _ hnl]
                  exact ⟨rfl, rfl⟩
                · show ((e.states.set node _).getD node junkState).input.states = [] ∧ _
                  rw [show (e.states.set node (⟨RegisterSet.new k, none⟩ : NodeState)) =
                    e.states from List.set_eq_of_length_le (Nat.le_of_not_lt hnl)]
                  exact hr
              · show ((e.states.set node _).getD m junkState).input.states = [] ∧ _
                rw [getD_set_ne_ns _ _ _ _ hn2]
                exact hr
          refine ih _ _ _ e' h hres2 n ?_
          rcases hn with h2 | h2
          · rcases List.mem_cons.mp h2 with heq | h3
            · subst heq
              exact Or.inr (List.mem_cons_self _ _)
            · exact Or.inl (mem_foldl_prepend_nat _ _ n h3)
          · exact Or.inr (List.mem_cons_of_mem _ h2)

theorem modify_input_output (e : Evaluation) (i : Nat) (g : NodeState → RegisterSet)
    (n : Nat) :
    ((e.modify_state i (fun s => { s with input := g s })).states.getD n junkState).output =
      (e.states.getD n junkState).output := by
  show ((e.states.modify _ i).getD n junkState).output = _
  by_cases hi : i < e.states.length
  · by_cases hn : i = n
    · subst hn
      rw [getD_modify_ns _ _ _ hi]
    · rw [getD_modify_ne_ns _ _ _ _ hn]
  · rw [List.modify_eq_self (Nat.le_of_not_lt hi)]

theorem sources_fold_pos_m (self : Evaluation)
    (hself : ∀ s ∈ self.states, pos_output s.output) (srcs : List NodeIndex) :
    ∀ inp : RegisterSet, pos_entries inp.states →
      pos_entries ((srcs.foldl (fun inp source =>
        if source < self.states.length then
          match (self.states.getD source junkState).output with
          | some (.matchOut ms _) => inp.push_all ms.states
          | _ => inp
        else inp) inp).states) := by
  induction srcs with
  | nil => intro inp h; exact h
  | cons src rest ih =>
    intro inp h
    rw [List.foldl_cons]
    apply ih
    by_cases hs : src < self.states.length
    · rw [if_pos hs]
      have hpo := hself _ (getD_mem_ns _ _ hs)
      cases ho : (self.states.getD src junkState).output with
      | none => exact h
      | some out =>
        cases out with
        | matchOut ms rs =>
          rw [ho] at hpo
          exact push_all_pos _ hpo.1 _ h
        | outputOut db => exact h
    · rw [if_neg hs]
      exact h

theorem sources_fold_pos_r (self : Evaluation)
    (hself : ∀ s ∈ self.states, pos_output s.output) (srcs : List NodeIndex) :
    ∀ inp : RegisterSet, pos_entries inp.states →
      pos_entries ((srcs.foldl (fun inp source =>
        if source < self.states.length then
          match (self.states.getD source junkState).output with
          | some (.matchOut _ rs) => inp.push_all rs.states
          | _ => inp
        else inp) inp).states) := by
  induction srcs with
  | nil => intro inp h; exact h
  | cons src rest ih =>
    intro inp h
    rw [List.foldl_cons]
    apply ih
    by_cases hs : src < self.states.length
    · rw [if_pos hs]
      have hpo := hself _ (getD_mem_ns _ _ hs)
      cases ho : (self.states.getD src junkState).output with
      | none => exact h
      | some out =>
        cases out with
        | matchOut ms rs =>
          rw [ho] at hpo
          exact push_all_pos _ hpo.2 _ h
        | outputOut db => exact h
    · rw [if_neg hs]
      exact h

theorem rerun_input_pos (self : Evaluation) (d : GraphDiagram) (k : Nat)
    (hself : ∀ s ∈ self.states, pos_output s.output) (node : NodeIndex)
    (inp0 : RegisterSet) (h0 : pos_entries inp0.states) :
    pos_entries (rerun_input self d k node inp0).states := by
  unfold rerun_input
  have h1 := sources_fold_pos_m self hself (d.get_match_sources node) inp0 h0
  have h2 := sources_fold_pos_r self hself (d.get_refute_sources node) _ h1
  by_cases hr : d.roots.contains node
  · rw [if_pos hr]
    exact push_pos_preserved _ _ _ Int.zero_lt_one _ h2
  · rw [if_neg hr]
    exact h2

theorem rerun_seed_inv (self : Evaluation) (d : GraphDiagram) (k : Nat)
    (hself : ∀ s ∈ self.states, pos_output s.output) :
    ∀ (start : List NodeIndex), start.Nodup →
    ∀ (ev : Evaluation) (q0 : List (NodeIndex × RegisterSet)),
      (∀ n ∈ start, reset_at ev n) →
      (∀ n, n ∉ start →
        (start.foldl (rerun_seed_step self d k) (ev, q0)).1.states.getD n junkState =
          ev.states.getD n junkState) ∧
      (∀ n, ((start.foldl (rerun_seed_step self d k) (ev, q0)).1.states.getD n
          junkState).output = (ev.states.getD n junkState).output) ∧
      (∀ q ∈ (start.foldl (rerun_seed_step self d k) (ev, q0)).2,
        q ∈ q0 ∨ pos_entries q.2.states) ∧
      (∀ q ∈ q0, q ∈ (start.foldl (rerun_seed_step self d k) (ev, q0)).2) ∧
      (∀ n ∈ start,
        ∀ ent ∈ ((start.foldl (rerun_seed_step self d k) (ev, q0)).1.states.getD n
          junkState).input.states,
        pend_covers (start.foldl (rerun_seed_step self d k) (ev, q0)).2 n ent) ∧
      (start.foldl (rerun_seed_step self d k) (ev, q0)).1.max_depth = ev.max_depth := by
  intro start
  induction start with
  | nil =>
    intro _ ev q0 _
    exact ⟨fun n _ => rfl, fun n => rfl, fun q hq => Or.inl hq, fun q hq => hq,
      by simp, rfl⟩
  | cons node rest ih =>
    intro hnodup ev q0 hreset
    obtain ⟨hnode_rest, hnodup2⟩ := List.nodup_cons.mp hnodup
    rw [List.foldl_cons]
    have hstep : rerun_seed_step self d k (ev, q0) node =
        (ev.modify_state node
          (fun s => { s with input := rerun_input self d k node ((ev.states.getD node junkState)).input }),
         (node, rerun_input self d k node ((ev.states.getD node junkState)).input) :: q0) :=
      rfl
    rw [hstep]
    have hres_node := hreset node (List.mem_cons_self _ _)
    have hinp0_pos : pos_entries ((ev.states.getD node junkState)).input.states := by
      intro x hx
      rw [hres_node.1] at hx
      exact absurd hx (List.not_mem_nil _)
    have hinp_pos : pos_entries (rerun_input self d k node
        ((ev.states.getD node junkState)).input).states :=
      rerun_input_pos self d k hself node _ hinp0_pos
    have hreset1 : ∀ n ∈ rest, reset_at (ev.modify_state node
        (fun s => { s with input := rerun_input self d k node ((ev.states.getD node junkState)).input })) n := by
      intro n hn
      have hne : node ≠ n := fun h => hnode_rest (h ▸ hn)
      have hr := hreset n (List.mem_cons_of_mem _ hn)
      unfold reset_at at hr ⊢
      constructor
      · show ((ev.states.modify _ node).getD n junkState).input.states = []
        rw [getD_modify_ne_ns _ _ _ _ hne]
        exact hr.1
      · show ((ev.states.modify _ node).getD n junkState).output = none
        rw [getD_modify_ne_ns _ _ _ _ hne]
        exact hr.2
    obtain ⟨ha, hb, hc, hd, he, hf⟩ := ih hnodup2 _ _ hreset1
    refine ⟨?_, ?_, ?_, ?_, ?_, ?_⟩
    · intro n hn
      have hn_rest : n ∉ rest := fun h => hn (List.mem_cons_of_mem _ h)
      have hne : node ≠ n := fun h => hn (h ▸ List.mem_cons_self _ _)
      rw [ha n hn_rest]
      show ((ev.states.modify _ node).getD n junkState) = _
      exact getD_modify_ne_ns _ _ _ _ hne
    · intro n
      rw [hb n]
      exact modify_input_output ev node _ n
    · intro q hq
      rcases hc q hq with h2 | h2
      · rcases List.mem_cons.mp h2 with heq | h3
        · refine Or.inr ?_
          rw [heq]
          exact hinp_pos
        · exact Or.inl h3
      · exact Or.inr h2
    · intro q hq
      exact hd q (List.mem_cons_of_mem _ hq)
    · intro n hn ent hent
      rcases List.mem_cons.mp hn with heq | h3
      · subst heq
        rw [ha n hnode_rest] at hent
        by_cases hnl : n < ev.states.length
        · rw [show ((ev.modify_state n
              (fun s => { s with input := rerun_input self d k n ((ev.states.getD n junkState)).input })).states.getD n
              junkState) = _ from getD_modify_ns _ _ _ hnl] at hent
          refine ⟨(n, rerun_input self d k n ((ev.states.getD n junkState)).input),
            hd _ (List.mem_cons_self _ _), rfl, ent, hent, rfl, Nat.le_refl _⟩
        · rw [show ((ev.modify_state n
              (fun s => { s with input := rerun_input self d k n ((ev.states.getD n junkState)).input })).states.getD n
              junkState) = junkState from by
                show ((ev.states.modify _ n).getD n junkState) = _
                rw [List.modify_eq_self (Nat.le_of_not_lt hnl)]
                exact getD_oob_ns _ _ (Nat.le_of_not_lt hnl)] at hent
          exact absurd hent (List.not_mem_nil _)
      · exact he n h3 ent hent
    · exact hf.trans rfl

theorem total_db_set_states (e : Evaluation) (x : Database) :
    (({ e with total_db := x } : Evaluation)).states = e.states := rfl

theorem grow_getD (e : Evaluation) (m k n : Nat) :
    (e.grow m k).states.getD n junkState = e.states.getD n junkState ∨
    (e.grow m k).states.getD n junkState = ⟨RegisterSet.new k, none⟩ := by
  have key : (e.grow m k).states.getD n junkState =
      ((e.states ++ List.replicate (m - e.states.length) ⟨RegisterSet.new k, none⟩ :
        List NodeState)).getD n junkState := rfl
  rw [key, List.getD_eq_getElem?_getD, List.getElem?_append]
  by_cases h : n < e.states.length
  · rw [if_pos h]
    left
    rw [List.getD_eq_getElem?_getD]
  · rw [if_neg h, List.getElem?_replicate]
    by_cases h2 : n - e.states.length < m - e.states.length
    · rw [if_pos h2]
      right
      rfl
    · rw [if_neg h2]
      left
      show junkState = _
      rw [List.getD_eq_getElem?_getD, List.getElem?_eq_none (Nat.le_of_not_lt h)]
      rfl

theorem out_kind_ok_of_output (d : GraphDiagram) (e1 e2 : Evaluation) (n : NodeIndex)
    (h : (e2.states.getD n junkState).output = (e1.states.getD n junkState).output)
    (hk : out_kind_ok d e1 n) : out_kind_ok d e2 n := by
  unfold out_kind_ok at hk ⊢
  rw [h]
  exact hk

theorem rerun_from_eq (self : Evaluation) (d : GraphDiagram) (input : Database)
    (start : List NodeIndex) (k fuel : Nat) :
    self.rerun_from d input start k fuel =
      match invalidate_aux d k start fuel
          ({ self.grow d.len k with total_db := Database.new }) start.reverse [] with
      | .outOfFuel => none
      | .cyclic => Evaluation.run_multi d input k fuel
      | .ok eval =>
        (run_pending_aux d input fuel (rerun_seed self d k eval start).1
          (rerun_seed self d k eval start).2).map Evaluation.build_total_db := rfl

theorem rerun_from_stable (self : Evaluation) (d : GraphDiagram) (input : Database)
    (start : List NodeIndex) (k fuel : Nat) (e' : Evaluation)
    (hstable : self.stable d input) (hkind : ∀ n, out_kind_ok d self n)
    (hnodup : start.Nodup) (h : self.rerun_from d input start k fuel = some e') :
    e'.stable d input ∧ no_new_files d input e' := by
  rw [rerun_from_eq] at h
  cases hi : invalidate_aux d k start fuel
      ({ self.grow d.len k with total_db := Database.new }) start.reverse [] with
  | outOfFuel =>
    rw [hi] at h
    exact Option.noConfusion h
  | cyclic =>
    rw [hi] at h
    exact run_multi_stable d input k fuel e' h
  | ok eval2 =>
    rw [hi] at h
    obtain ⟨e2, h2, he'⟩ := Option.map_eq_some'.mp h
    have hframe := inval_frame d k start fuel _ start.reverse [] eval2 hi
    have hreset2 : ∀ n ∈ start, reset_at eval2 n := by
      intro n hn
      exact inval_reset d k start fuel _ start.reverse [] eval2 hi
        (fun m hm => absurd hm (List.not_mem_nil _)) n
        (Or.inl (List.mem_reverse.mpr hn))
    have hE0_out : ∀ n, pos_output ((({ self.grow d.len k with
        total_db := Database.new } : Evaluation)).states.getD n junkState).output ∧
        out_kind_ok d ({ self.grow d.len k with total_db := Database.new } : Evaluation)
          n := by
      intro n
      rcases grow_getD self d.len k n with h3 | h3
      · have heq : (({ self.grow d.len k with total_db := Database.new } :
            Evaluation)).states.getD n junkState = self.states.getD n junkState := by
          rw [total_db_set_states]
          exact h3
        constructor
        · rw [heq]
          by_cases hl : n < self.states.length
          · exact hstable.1 _ (getD_mem_ns _ _ hl)
          · rw [getD_oob_ns _ _ (Nat.le_of_not_lt hl)]
            trivial
        · exact out_kind_ok_of_output d self _ n (by rw [heq]) (hkind n)
      · have heq : (({ self.grow d.len k with total_db := Database.new } :
            Evaluation)).states.getD n junkState = ⟨RegisterSet.new k, none⟩ := by
          rw [total_db_set_states]
          exact h3
        constructor
        · rw [heq]
          trivial
        · exact out_kind_ok_none d _ n (by rw [heq])
    have hpos2 : ∀ n, pos_output ((eval2.states.getD n junkState).output) ∧
        out_kind_ok d eval2 n := by
      intro n
      rcases hframe.2.2 n with h3 | h3
      · constructor
        · rw [h3]
          exact (hE0_out n).1
        · exact out_kind_ok_of_output d _ eval2 n (by rw [h3]) (hE0_out n).2
      · constructor
        · rw [h3]
          trivial
        · exact out_kind_ok_none d eval2 n (by rw [h3])
    have hseed := rerun_seed_inv self d k hstable.1 start hnodup eval2 [] hreset2
    obtain ⟨ha, hb, hc, _, he, hf⟩ := hseed
    have hkinds2 : ∀ n, out_kind_ok d (start.foldl (rerun_seed_step self d k)
        (eval2, [])).1 n := by
      intro n
      exact out_kind_ok_of_output d eval2 _ n (hb n) (hpos2 n).2
    have hposS : ∀ s ∈ (start.foldl (rerun_seed_step self d k) (eval2, [])).1.states,
        pos_output s.output := by
      intro s hs
      obtain ⟨i, hi2, hgd⟩ := mem_states_getD _ s hs
      have h3 := hb i
      rw [hgd] at h3
      rw [h3]
      exact (hpos2 i).1
    have hpendS : ∀ q ∈ (start.foldl (rerun_seed_step self d k) (eval2, [])).2,
        pos_entries q.2.states := by
      intro q hq
      rcases hc q hq with h3 | h3
      · exact absurd h3 (List.not_mem_nil _)
      · exact h3
    have hmd : (start.foldl (rerun_seed_step self d k) (eval2, [])).1.max_depth =
        self.max_depth := by
      rw [hf, hframe.1]
      rfl
    have hiatS : ∀ n, inv_at d input (start.foldl (rerun_seed_step self d k) (eval2, [])).1
        (start.foldl (rerun_seed_step self d k) (eval2, [])).2 n := by
      intro n
      by_cases hn : n ∈ start
      · cases hg : d.get_node n with
        | matchNode pr ts =>
          rw [inv_at_match_iff d input _ _ n pr ts hg]
          intro ent hent _
          exact Or.inr (he n hn ent hent)
        | outputNode pr ts =>
          rw [inv_at_output_iff d input _ _ n pr ts hg]
          intro ent hent
          exact Or.inr (he n hn ent hent)
      · have hchain := ha n hn
        rcases hframe.2.2 n with h3 | h3
        · rcases grow_getD self d.len k n with h4 | h4
          · have hch : (start.foldl (rerun_seed_step self d k)
                (eval2, [])).1.states.getD n junkState = self.states.getD n junkState := by
              rw [hchain, h3, total_db_set_states]
              exact h4
            cases hg : d.get_node n with
            | matchNode pr ts =>
              have hq := (quiescent_at_match_iff d input self n pr ts hg).mp (hstable.2 n)
              rw [inv_at_match_iff d input _ _ n pr ts hg, hch, hmd]
              intro ent hent hd2
              exact Or.inl (fun vs hvs => hq ent hent hd2 vs hvs)
            | outputNode pr ts =>
              have hq := (quiescent_at_output_iff d input self n pr ts hg).mp (hstable.2 n)
              rw [inv_at_output_iff d input _ _ n pr ts hg, hch]
              intro ent hent
              exact Or.inl (hq ent hent)
          · have hch : (start.foldl (rerun_seed_step self d k)
                (eval2, [])).1.states.getD n junkState = ⟨RegisterSet.new k, none⟩ := by
              rw [hchain, h3, total_db_set_states]
              exact h4
            cases hg : d.get_node n with
            | matchNode pr ts =>
              rw [inv_at_match_iff d input _ _ n pr ts hg, hch]
              intro ent hent
              exact absurd hent (List.not_mem_nil _)
            | outputNode pr ts =>
              rw [inv_at_output_iff d input _ _ n pr ts hg, hch]
              intro ent hent
              exact absurd hent (List.not_mem_nil _)
        · have hch : (start.foldl (rerun_seed_step self d k)
              (eval2, [])).1.states.getD n junkState = ⟨RegisterSet.new k, none⟩ := by
            rw [hchain]
            exact h3
          cases hg : d.get_node n with
          | matchNode pr ts =>
            rw [inv_at_match_iff d input _ _ n pr ts hg, hch]
            intro ent hent
            exact absurd hent (List.not_mem_nil _)
          | outputNode pr ts =>
            rw [inv_at_output_iff d input _ _ n pr ts hg, hch]
            intro ent hent
            exact absurd hent (List.not_mem_nil _)
    have hst := run_pending_stable d input fuel _ _ e2 ⟨hposS, hpendS, hiatS⟩ hkinds2 h2
    subst he'
    exact ⟨hst.2, stable_no_new_files d input _ hst.2⟩

/-! Claim C6: the evaluator reaches a fixpoint. -/

/-- C6: every evaluation produced by `run_multi` is quiescent — per node،
every accumulated input binding (within the depth bound at match nodes)
already has its propagation results recorded, and one more propagation
step at any node over that node's accumulated input produces no register
file (and no output fact) that is not already recorded
(`no_new_files`).  The same holds for every successful `rerun_from`
launched from an evaluation snapshot that is itself stable and
kind-consistent (the state every run of the API produces) with a
duplicate-free start list. -/
theorem evaluation_fixpoint (d : GraphDiagram) (input : Database) (k fuel : Nat) :
    (∀ e', Evaluation.run_multi d input k fuel = some e' →
      e'.stable d input ∧ no_new_files d input e') ∧
    (∀ (self : Evaluation) (start : List NodeIndex) (e' : Evaluation),
      self.stable d input → (∀ n, out_kind_ok d self n) → start.Nodup →
      self.rerun_from d input start k fuel = some e' →
      e'.stable d input ∧ no_new_files d input e') :=
  ⟨fun e' h => run_multi_stable d input k fuel e' h,
   fun self start e' h1 h2 h3 h4 => rerun_from_stable self d input start k fuel e' h1 h2 h3 h4⟩

theorem evaluation_fixpoint_witness :
    ((Evaluation.mk [] 8 Database.new).stable (GraphDiagram.new 0) Database.new ∧
      no_new_files (GraphDiagram.new 0) Database.new (Evaluation.mk [] 8 Database.new)) ∧
    ((Evaluation.mk [] 8 Database.new).stable (GraphDiagram.new 0) Database.new ∧
      no_new_files (GraphDiagram.new 0) Database.new (Evaluation.mk [] 8 Database.new)) := by
  have hstab : (Evaluation.mk [] 8 Database.new).stable (GraphDiagram.new 0) Database.new := by
    constructor
    · intro s hs
      exact absurd hs (List.not_mem_nil _)
    · intro n
      cases hg : (GraphDiagram.new 0).get_node n with
      | matchNode pr ts =>
        rw [quiescent_at_match_iff _ _ _ n pr ts hg]
        intro ent hent
        exact absurd hent (List.not_mem_nil _)
      | outputNode pr ts =>
        rw [quiescent_at_output_iff _ _ _ n pr ts hg]
        intro ent hent
        exact absurd hent (List.not_mem_nil _)
  constructor
  · exact (evaluation_fixpoint (GraphDiagram.new 0) Database.new 0 1).1
      ⟨[], 8, Database.new⟩ (by decide)
  · exact (evaluation_fixpoint (GraphDiagram.new 0) Database.new 0 1).2
      ⟨[], 8, Database.new⟩ [] ⟨[], 8, Database.new⟩ hstab
      (fun n => out_kind_ok_none _ _ n (by rw [getD_oob_ns _ _ (Nat.zero_le n)]; rfl))
      List.nodup_nil (by decide)

/-! Counting and termination machinery for the depth-bound claim. -/

theorem write_fold_slots (l : List (MatchTerm × Value)) :
    ∀ r0 : RegisterFile, ∀ o ∈ l.foldl match_write_step r0,
      o ∈ r0 ∨ ∃ tv ∈ l, o = some tv.2 := by
  induction l with
  | nil => intro r0 o ho; exact Or.inl ho
  | cons tv rest ih =>
    intro r0 o ho
    rw [List.foldl_cons] at ho
    rcases ih _ o ho with h | ⟨tv2, htv2, he⟩
    · unfold match_write_step at h
      cases ht : tv.1.target with
      | none =>
        rw [ht] at h
        exact Or.inl h
      | some t =>
        rw [ht] at h
        rcases List.mem_or_eq_of_mem_set h with h2 | h2
        · exact Or.inl h2
        · exact Or.inr ⟨tv, List.mem_cons_self _ _, h2⟩
    · exact Or.inr ⟨tv2, List.mem_cons_of_mem _ htv2, he⟩

theorem match_fact_universe (k : Nat) (vals : List Value) (ts : List MatchTerm)
    (rf : RegisterFile) (vs : List Value) (hrf : file_in_universe k vals rf)
    (hvs : ∀ v ∈ vs, v ∈ vals) : file_in_universe k vals (match_fact ts rf vs).1 := by
  rw [match_fact_split]
  constructor
  · rw [write_fold_length]
    exact hrf.1
  · intro v hv
    rcases write_fold_slots _ rf (some v) hv with h | ⟨tv, htv, he⟩
    · exact hrf.2 v h
    · have : v = tv.2 := Option.some.inj he
      rw [this]
      exact hvs tv.2 (List.of_mem_zip htv).2

theorem facts_values_sub (db : Database) (p : Predicate) (vs : List Value)
    (h : vs ∈ db.facts_for_predicate p) : ∀ v ∈ vs, v ∈ db_values db := by
  intro v hv
  unfold Database.facts_for_predicate at h
  cases ht : db.table? p with
  | none =>
    rw [ht] at h
    exact absurd h (List.not_mem_nil _)
  | some t =>
    rw [ht] at h
    obtain ⟨r, hr, hrv⟩ := List.mem_map.mp h
    obtain ⟨e, he, hev⟩ := Option.map_eq_some'.mp ht
    unfold db_values Database.all_facts
    rw [List.mem_flatMap]
    refine ⟨⟨e.1, r.1⟩, ?_, ?_⟩
    · rw [List.mem_flatMap]
      exact ⟨e, List.mem_of_find?_eq_some he, List.mem_map.mpr ⟨r, hev ▸ hr, rfl⟩⟩
    · show v ∈ r.1
      rw [hrv]
      exact hv

theorem mem_allFiles (k : Nat) (vals : List Value) :
    ∀ rf : RegisterFile, file_in_universe k vals rf → rf ∈ allFiles k vals := by
  induction k with
  | zero =>
    intro rf h
    have : rf = [] := List.eq_nil_of_length_eq_zero h.1
    rw [this]
    exact List.mem_singleton.mpr rfl
  | succ k ih =>
    intro rf h
    cases rf with
    | nil => exact absurd h.1 (by simp)
    | cons o rest =>
      show (o :: rest) ∈ (none :: vals.map some).flatMap
        (fun o => (allFiles k vals).map (o :: ·))
      rw [List.mem_flatMap]
      refine ⟨o, ?_, List.mem_map.mpr ⟨rest, ih rest ⟨by simpa using h.1, ?_⟩, rfl⟩⟩
      · cases o with
        | none => exact List.mem_cons_self _ _
        | some v =>
          refine List.mem_cons_of_mem _ (List.mem_map.mpr ⟨v, ?_, rfl⟩)
          exact h.2 v (List.mem_cons_self _ _)
      · intro v hv
        exact h.2 v (List.mem_cons_of_mem _ hv)

theorem good_files_length_le (k : Nat) (vals : List Value) (s : RegisterSet)
    (h : good_set k vals s) : s.states.length ≤ (allFiles k vals).length := by
  have hsub : ∀ x ∈ s.states.map Prod.fst, x ∈ allFiles k vals := by
    intro x hx
    obtain ⟨e, he, hx2⟩ := List.mem_map.mp hx
    rw [← hx2]
    exact mem_allFiles k vals e.1 (h.2.2 e he)
  calc s.states.length = (s.states.map Prod.fst).length := (List.length_map _ _).symm
    _ = (s.states.map Prod.fst).toFinset.card := (List.toFinset_card_of_nodup h.1).symm
    _ ≤ (allFiles k vals).toFinset.card := Finset.card_le_card
        (fun x hx => List.mem_toFinset.mpr (hsub x (List.mem_toFinset.mp hx)))
    _ ≤ (allFiles k vals).length := List.toFinset_card_le _

theorem match_prop_step_filter (p : Predicate) (ts : List MatchTerm) (db : Database)
    (maxD : Option Nat) (l : List (RegisterFile × Weight × Nat)) :
    ∀ acc, l.foldl (match_prop_step p ts db maxD) acc =
      (l.filter (fun ent => depth_ok maxD ent.2.2)).foldl (match_prop_step p ts db maxD)
        acc := by
  induction l with
  | nil => intro acc; rfl
  | cons ent rest ih =>
    intro acc
    rw [List.foldl_cons, List.filter_cons]
    by_cases hd : depth_ok maxD ent.2.2
    · rw [if_pos (by simpa using hd), List.foldl_cons]
      exact ih _
    · have hstep : match_prop_step p ts db maxD acc ent = acc := by
        simp [match_prop_step, hd]
      rw [if_neg (by simpa using hd), hstep]
      exact ih _

theorem propagate_depth_filter (d : GraphDiagram) (n : NodeIndex) (db : Database)
    (regs : RegisterSet) (maxD : Nat) (pr : Predicate) (ts : List MatchTerm)
    (hg : d.get_node n = .matchNode pr ts) :
    propagate d n db regs (some maxD) =
      propagate d n db
        ⟨regs.num_registers, regs.states.filter (fun ent => depth_ok (some maxD) ent.2.2)⟩
        (some maxD) := by
  rw [propagate_match_eq d n db regs (some maxD) pr ts hg,
    propagate_match_eq d n db _ (some maxD) pr ts hg,
    match_prop_step_filter pr ts db (some maxD) regs.states]

theorem target_group_oob (d : GraphDiagram) (n : NodeIndex) (h : d.len ≤ n) :
    d.match_target_group n = [] ∧ d.refute_target_group n = [] := by
  unfold GraphDiagram.match_target_group GraphDiagram.refute_target_group
  unfold GraphDiagram.len at h
  rw [List.getD_eq_getElem?_getD, List.getElem?_eq_none h]
  exact ⟨rfl, rfl⟩

theorem sum_set_nat : ∀ (L : List Nat) (i : Nat) (x : Nat), i < L.length →
    (L.set i x).sum + L.getD i 0 = L.sum + x := by
  intro L
  induction L with
  | nil => intro i x h; simp at h
  | cons a l ih =>
    intro i x h
    cases i with
    | zero => simp [Nat.add_comm, Nat.add_left_comm]
    | succ i =>
      have := ih i x (Nat.lt_of_succ_lt_succ h)
      show (a :: l.set i x).sum + l.getD i 0 = (a + l.sum) + x
      rw [List.sum_cons]
      omega

theorem getD_map_out_cap (l : List NodeState) (cc i : Nat) (h : i < l.length) :
    (l.map (fun s => out_cap cc s.output)).getD i 0 =
      out_cap cc ((l.getD i junkState).output) := by
  rw [List.getD_eq_getElem?_getD, List.getElem?_map, List.getElem?_eq_getElem h,
    List.getD_eq_getElem?_getD, List.getElem?_eq_getElem h]
  rfl

theorem capN_set (cc : Nat) (e : Evaluation) (node : Nat) (s2 : NodeState)
    (h : node < e.states.length) :
    ({ e with states := e.states.set node s2 } : Evaluation).capN cc +
      out_cap cc ((e.states.getD node junkState).output) =
      e.capN cc + out_cap cc s2.output := by
  show ((e.states.set node s2).map (fun s => out_cap cc s.output)).sum + _ = _
  rw [List.map_set]
  have h2 := sum_set_nat (e.states.map (fun s => out_cap cc s.output)) node
    (out_cap cc s2.output) (by rw [List.length_map]; exact h)
  rw [getD_map_out_cap _ _ _ h] at h2
  exact h2

theorem push_all_new_false_length (l : List (RegisterFile × Weight × Nat))
    (hl : pos_entries l) :
    ∀ s : RegisterSet, pos_entries s.states → (s.push_all_new l).2 = false →
      (s.push_all l).states.length = s.states.length := by
  induction l with
  | nil => intro s _ _; rfl
  | cons e rest ih =>
    intro s hs hflag
    have hpos_e := hl e (List.mem_cons_self _ _)
    have hrest : pos_entries rest := fun y hy => hl y (List.mem_cons_of_mem _ hy)
    rw [push_all_new_cons_snd] at hflag
    have hb : (s.push e.1 e.2.1 e.2.2).2 = false := by
      cases h2 : (s.push e.1 e.2.1 e.2.2).2
      · rfl
      · rw [h2] at hflag
        simp at hflag
    have hb2 : ((s.push e.1 e.2.1 e.2.2).1.push_all_new rest).2 = false := by
      cases h2 : ((s.push e.1 e.2.1 e.2.2).1.push_all_new rest).2
      · rfl
      · rw [h2] at hflag
        simp at hflag
    rw [push_all_cons, ih hrest _ (push_pos_preserved _ _ _ hpos_e _ hs) hb2,
      push_states, push_length_flag _ _ _ hpos_e _ hs]
    rw [show ((s.push e.1 e.2.1 e.2.2).2 = (push_state_list s.states e.1 e.2.1 e.2.2).2)
      from rfl] at hb
    rw [hb]
    simp

theorem foldl_prepend_length (S : RegisterSet) (l : List NodeIndex) :
    ∀ init : List (NodeIndex × RegisterSet),
      (l.foldl (fun p t => (t, S) :: p) init).length = init.length + l.length := by
  induction l with
  | nil => intro init; simp
  | cons t ts ih =>
    intro init
    rw [List.foldl_cons, ih]
    simp only [List.length_cons]
    omega

theorem groups_le_total (d : GraphDiagram) (node : NodeIndex) (h : node < d.len) :
    (d.match_target_group node).length + (d.refute_target_group node).length ≤
      total_edges d := by
  unfold GraphDiagram.match_target_group GraphDiagram.refute_target_group total_edges
  unfold GraphDiagram.len at h
  rw [List.getD_eq_getElem?_getD, List.getElem?_eq_getElem h]
  exact List.single_le_sum (fun x _ => Nat.zero_le x) _
    (List.mem_map.mpr ⟨d.graph[node], List.getElem_mem h, rfl⟩)

theorem good_new (k : Nat) (vals : List Value) (x : Nat) :
    good_set k vals (RegisterSet.new x) := by
  refine ⟨by simp [RegisterSet.new], ?_, ?_⟩
  · intro e he
    simp [RegisterSet.new] at he
  · intro e he
    simp [RegisterSet.new] at he

theorem pmn_good (k : Nat) (vals : List Value) (p : Predicate) (ts : List MatchTerm)
    (db : Database) (rf : RegisterFile) (w : Weight) (dep : Nat)
    (hw : 0 < w) (hrf : file_in_universe k vals rf)
    (hdb : ∀ vs ∈ db.facts_for_predicate p, ∀ v ∈ vs, v ∈ vals)
    (m r : RegisterSet) (hm : good_set k vals m) (hr : good_set k vals r) :
    good_set k vals (propagate_match_node_into_output p ts db rf w dep m r).1 ∧
    good_set k vals (propagate_match_node_into_output p ts db rf w dep m r).2.1 := by
  have h := propagate_match_fold ts rf w dep (db.facts_for_predicate p) m r false
  rw [pmn_eq, h.1, h.2]
  have hmap1 : ∀ e ∈ ((db.facts_for_predicate p).filter
      (fun vs => !(match_fact ts rf vs).2)).map
      (fun vs => ((match_fact ts rf vs).1, w, dep + 1)), file_in_universe k vals e.1 := by
    intro e he
    obtain ⟨vs, hvs, hee⟩ := List.mem_map.mp he
    rw [← hee]
    exact match_fact_universe k vals ts rf vs hrf (hdb vs (List.mem_filter.mp hvs).1)
  have hmap2 : ∀ e ∈ ((db.facts_for_predicate p).filter
      (fun vs => (match_fact ts rf vs).2)).map
      (fun vs => ((match_fact ts rf vs).1, w, dep + 1)), file_in_universe k vals e.1 := by
    intro e he
    obtain ⟨vs, hvs, hee⟩ := List.mem_map.mp he
    rw [← hee]
    exact match_fact_universe k vals ts rf vs hrf (hdb vs (List.mem_filter.mp hvs).1)
  constructor
  · exact ⟨push_all_nodup _ _ hm.1, push_all_pos _ (mapped_pos w hw _ _ _ _) _ hm.2.1,
      push_all_universe k vals _ hmap1 _ hm.2.2⟩
  · exact ⟨push_all_nodup _ _ hr.1, push_all_pos _ (mapped_pos w hw _ _ _ _) _ hr.2.1,
      push_all_universe k vals _ hmap2 _ hr.2.2⟩

theorem match_prop_fold_good (k : Nat) (vals : List Value) (p : Predicate)
    (ts : List MatchTerm) (db : Database) (maxD : Option Nat)
    (entries : List (RegisterFile × Weight × Nat))
    (hpos : pos_entries entries) (huniv : ∀ e ∈ entries, file_in_universe k vals e.1)
    (hdb : ∀ vs ∈ db.facts_for_predicate p, ∀ v ∈ vs, v ∈ vals) :
    ∀ acc : RegisterSet × RegisterSet, good_set k vals acc.1 → good_set k vals acc.2 →
      good_set k vals (entries.foldl (match_prop_step p ts db maxD) acc).1 ∧
      good_set k vals (entries.foldl (match_prop_step p ts db maxD) acc).2 := by
  induction entries with
  | nil => intro acc h1 h2; exact ⟨h1, h2⟩
  | cons ent rest ih =>
    intro acc h1 h2
    have hpos_ent := hpos ent (List.mem_cons_self _ _)
    have hrest : pos_entries rest := fun y hy => hpos y (List.mem_cons_of_mem _ hy)
    have hurest : ∀ e ∈ rest, file_in_universe k vals e.1 :=
      fun y hy => huniv y (List.mem_cons_of_mem _ hy)
    rw [List.foldl_cons]
    by_cases hd : depth_ok maxD ent.2.2
    · have hstep : match_prop_step p ts db maxD acc ent =
          ((propagate_match_node_into_output p ts db ent.1 ent.2.1 ent.2.2 acc.1 acc.2).1,
           (propagate_match_node_into_output p ts db ent.1 ent.2.1 ent.2.2 acc.1 acc.2).2.1)
          := by
        simp [match_prop_step, hd]
      rw [hstep]
      have hg := pmn_good k vals p ts db ent.1 ent.2.1 ent.2.2 hpos_ent
        (huniv ent (List.mem_cons_self _ _)) hdb acc.1 acc.2 h1 h2
      exact ih hrest hurest _ hg.1 hg.2
    · have hstep : match_prop_step p ts db maxD acc ent = acc := by
        simp [match_prop_step, hd]
      rw [hstep]
      exact ih hrest hurest _ h1 h2

theorem propagate_good (k : Nat) (vals : List Value) (d : GraphDiagram) (n : NodeIndex)
    (db : Database) (regs : RegisterSet) (maxD : Option Nat)
    (hregs : good_set k vals regs)
    (hdb : ∀ p, ∀ vs ∈ db.facts_for_predicate p, ∀ v ∈ vs, v ∈ vals) :
    ∀ ms rs, propagate d n db regs maxD = .matchOut ms rs →
      good_set k vals ms ∧ good_set k vals rs := by
  intro ms rs hpr
  cases hg : d.get_node n with
  | matchNode p ts =>
    rw [propagate_match_eq d n db regs maxD p ts hg] at hpr
    cases hpr
    exact match_prop_fold_good k vals p ts db maxD regs.states hregs.2.1 hregs.2.2 (hdb p)
      (RegisterSet.new regs.num_registers, RegisterSet.new regs.num_registers)
      (good_new k vals _) (good_new k vals _)
  | outputNode p ts =>
    rw [propagate_output_eq d n db regs maxD p ts hg] at hpr
    exact NodeOutputState.noConfusion hpr

theorem step_pending_false (d : GraphDiagram) (node : NodeIndex)
    (output : NodeOutputState) (rest : List (NodeIndex × RegisterSet)) :
    step_pending d node false output rest = rest := rfl

theorem step_pending_true_match (d : GraphDiagram) (node : NodeIndex) (ms rs : RegisterSet)
    (rest : List (NodeIndex × RegisterSet)) :
    step_pending d node true (.matchOut ms rs) rest =
      (d.refute_target_group node).foldl (fun p t => (t, rs) :: p)
        ((d.match_target_group node).foldl (fun p t => (t, ms) :: p) rest) := rfl

theorem step_pending_true_out (d : GraphDiagram) (node : NodeIndex) (db2 : Database)
    (rest : List (NodeIndex × RegisterSet)) :
    step_pending d node true (.outputOut db2) rest = rest := rfl

theorem step_pending_len (d : GraphDiagram) (node : NodeIndex) (flag : Bool)
    (output : NodeOutputState) (rest : List (NodeIndex × RegisterSet)) :
    (step_pending d node flag output rest).length ≤
      rest.length + (d.match_target_group node).length +
        (d.refute_target_group node).length := by
  cases flag with
  | false =>
    rw [step_pending_false]
    omega
  | true =>
    cases output with
    | matchOut ms rs =>
      rw [step_pending_true_match, foldl_prepend_length, foldl_prepend_length]
    | outputOut db2 =>
      rw [step_pending_true_out]
      omega

theorem capN_states (cc : Nat) (e1 e2 : Evaluation) (h : e1.states = e2.states) :
    e1.capN cc = e2.capN cc := by
  unfold Evaluation.capN
  rw [h]

theorem capN_set2 (cc : Nat) (e e2 : Evaluation) (node : Nat) (s2 : NodeState)
    (h : node < e.states.length) (h2 : e2.states = e.states.set node s2) :
    e2.capN cc + out_cap cc ((e.states.getD node junkState).output) =
      e.capN cc + out_cap cc s2.output := by
  have h3 := capN_set cc e node s2 h
  unfold Evaluation.capN
  rw [h2]
  exact h3

theorem run_pending_term (d : GraphDiagram) (input : Database) (k : Nat)
    (vals : List Value) (cc T : Nat)
    (hvals : ∀ p, ∀ vs ∈ input.facts_for_predicate p, ∀ v ∈ vs, v ∈ vals)
    (hcc : cc = (allFiles k vals).length) (hT : T = total_edges d) :
    ∀ N fuel (e : Evaluation) (p : List (NodeIndex × RegisterSet)),
      term_inv k vals e p → e.states.length = d.len →
      phi cc T e p ≤ N → N ≤ fuel →
      (run_pending_aux d input fuel e p).isSome := by
  intro N
  induction N with
  | zero =>
    intro fuel e p hinv hlen hphi hfuel
    cases p with
    | nil =>
      rw [run_pending_aux_nil]
      rfl
    | cons q rest =>
      exfalso
      unfold phi at hphi
      simp only [List.length_cons] at hphi
      omega
  | succ N ih =>
    intro fuel e p hinv hlen hphi hfuel
    cases p with
    | nil =>
      rw [run_pending_aux_nil]
      rfl
    | cons q rest =>
      obtain ⟨node, regs⟩ := q
      cases fuel with
      | zero => exact absurd hfuel (by omega)
      | succ fuel =>
        rw [run_pending_aux_cons]
        obtain ⟨hgout, hgpend⟩ := hinv
        have hgregs : good_set k vals regs := hgpend (node, regs) (List.mem_cons_self _ _)
        have hpend2 : ∀ q ∈ step_pending d node (step_eval d input e node regs).2.1
            (step_eval d input e node regs).2.2 rest, good_set k vals q.2 := by
          intro q hq
          rcases step_pending_sub d node _ _ rest q hq with h | ⟨ms, rs, hms, hqs⟩
          · exact hgpend q (List.mem_cons_of_mem _ h)
          · rw [step_eval_output] at hms
            have h2 := propagate_good k vals d node input regs (some e.max_depth)
              hgregs hvals ms rs hms
            rcases hqs with h3 | h3
            · rw [h3]
              exact h2.1
            · rw [h3]
              exact h2.2
        unfold phi at hphi
        simp only [List.length_cons] at hphi
        have hmulkey : ∀ a b : Nat, b + 1 ≤ a →
            rest.length + 1 + a * (T + 1) ≤ N + 1 →
            ∀ len2, len2 ≤ rest.length + T →
            len2 + b * (T + 1) ≤ N := by
          intro a b hab hp len2 hlen2
          have h3 : (b + 1) * (T + 1) ≤ a * (T + 1) := Nat.mul_le_mul_right _ hab
          rw [Nat.succ_mul] at h3
          omega
        have heqkey : ∀ a b : Nat, b = a →
            rest.length + 1 + a * (T + 1) ≤ N + 1 →
            rest.length + b * (T + 1) ≤ N := by
          intro a b hab hp
          subst hab
          omega
        by_cases hnode : node < e.states.length
        · have hS := step_eval_states d input e node regs hnode
          have hndl : node < d.len := hlen ▸ hnode
          have hTgroups : (d.match_target_group node).length +
              (d.refute_target_group node).length ≤ T := hT ▸ groups_le_total d node hndl
          have hp2gen := step_pending_len d node (step_eval d input e node regs).2.1
            (step_eval d input e node regs).2.2 rest
          have hp2T : (step_pending d node (step_eval d input e node regs).2.1
              (step_eval d input e node regs).2.2 rest).length ≤ rest.length + T := by
            omega
          cases hgnode : d.get_node node with
          | matchNode pr ts =>
            obtain ⟨F1, F2, hprop⟩ : ∃ F1 F2,
                propagate d node input regs (some e.max_depth) =
                  NodeOutputState.matchOut F1 F2 :=
              ⟨_, _, propagate_match_eq d node input regs (some e.max_depth) pr ts hgnode⟩
            have hFg := propagate_good k vals d node input regs (some e.max_depth)
              hgregs hvals F1 F2 hprop
            have hlF1 : F1.states.length ≤ cc := hcc ▸ good_files_length_le k vals F1 hFg.1
            have hlF2 : F2.states.length ≤ cc := hcc ▸ good_files_length_le k vals F2 hFg.2
            cases ho : (e.states.getD node junkState).output with
            | none =>
              have hmerge := merge_none
                ({ e.states.getD node junkState with
                   input := (e.states.getD node junkState).input.push_all regs.states }
                  : NodeState) (NodeOutputState.matchOut F1 F2) ho
              have hS2 : (step_eval d input e node regs).1.states =
                  e.states.set node
                    ⟨(e.states.getD node junkState).input.push_all regs.states,
                     some (NodeOutputState.matchOut F1 F2)⟩ := by
                rw [hS, hprop, hmerge]
              have hcapN := capN_set2 cc e (step_eval d input e node regs).1 node
                ⟨(e.states.getD node junkState).input.push_all regs.states,
                 some (NodeOutputState.matchOut F1 F2)⟩ hnode hS2
              rw [ho] at hcapN
              have hcap2 : (step_eval d input e node regs).1.capN cc + (1 + 2 * cc) =
                  e.capN cc + ((cc - F1.states.length) + (cc - F2.states.length)) := hcapN
              have hdec : (step_eval d input e node regs).1.capN cc + 1 ≤ e.capN cc := by
                omega
              refine ih fuel _ _ ⟨?_, hpend2⟩
                (by rw [step_eval_length]; exact hlen) ?_ (by omega)
              · intro s hs
                rw [hS2] at hs
                rcases List.mem_or_eq_of_mem_set hs with h5 | h5
                · exact hgout s h5
                · rw [h5]
                  exact ⟨hFg.1, hFg.2⟩
              · unfold phi
                exact hmulkey (e.capN cc) ((step_eval d input e node regs).1.capN cc)
                  hdec hphi _ hp2T
            | some out =>
              cases out with
              | matchOut m r =>
                have hg0 : good_set k vals m ∧ good_set k vals r := by
                  have h5 := hgout _ (getD_mem_ns _ _ hnode)
                  rw [ho] at h5
                  exact h5
                have hmerge := merge_match
                  ({ e.states.getD node junkState with
                     input := (e.states.getD node junkState).input.push_all regs.states }
                    : NodeState) m r F1 F2 ho
                have hS2 : (step_eval d input e node regs).1.states =
                    e.states.set node
                      ⟨(e.states.getD node junkState).input.push_all regs.states,
                       some (NodeOutputState.matchOut (m.push_all F1.states)
                         (r.push_all F2.states))⟩ := by
                  rw [hS, hprop, hmerge]
                have hm2 : good_set k vals (m.push_all F1.states) :=
                  ⟨push_all_nodup _ _ hg0.1.1, push_all_pos _ hFg.1.2.1 _ hg0.1.2.1,
                   push_all_universe k vals _ hFg.1.2.2 _ hg0.1.2.2⟩
                have hr2 : good_set k vals (r.push_all F2.states) :=
                  ⟨push_all_nodup _ _ hg0.2.1, push_all_pos _ hFg.2.2.1 _ hg0.2.2.1,
                   push_all_universe k vals _ hFg.2.2.2 _ hg0.2.2.2⟩
                have hlm2 : (m.push_all F1.states).states.length ≤ cc :=
                  hcc ▸ good_files_length_le k vals _ hm2
                have hlr2 : (r.push_all F2.states).states.length ≤ cc :=
                  hcc ▸ good_files_length_le k vals _ hr2
                have hgem : m.states.length ≤ (m.push_all F1.states).states.length :=
                  push_all_length_ge F1.states hFg.1.2.1 m hg0.1.2.1
                have hger : r.states.length ≤ (r.push_all F2.states).states.length :=
                  push_all_length_ge F2.states hFg.2.2.1 r hg0.2.2.1
                have hcapN := capN_set2 cc e (step_eval d input e node regs).1 node
                  ⟨(e.states.getD node junkState).input.push_all regs.states,
                   some (NodeOutputState.matchOut (m.push_all F1.states)
                     (r.push_all F2.states))⟩ hnode hS2
                rw [ho] at hcapN
                have hcap2 : (step_eval d input e node regs).1.capN cc +
                    ((cc - m.states.length) + (cc - r.states.length)) =
                    e.capN cc + ((cc - (m.push_all F1.states).states.length) +
                      (cc - (r.push_all F2.states).states.length)) := hcapN
                have hflag : (step_eval d input e node regs).2.1 =
                    ((m.push_all_new F1.states).2 || (r.push_all_new F2.states).2) := by
                  rw [step_eval_flag d input e node regs hnode, hprop, hmerge]
                have hgout2 : ∀ s ∈ (step_eval d input e node regs).1.states,
                    good_output k vals s.output := by
                  intro s hs
                  rw [hS2] at hs
                  rcases List.mem_or_eq_of_mem_set hs with h5 | h5
                  · exact hgout s h5
                  · rw [h5]
                    exact ⟨hm2, hr2⟩
                by_cases hfl : ((m.push_all_new F1.states).2 ||
                    (r.push_all_new F2.states).2) = true
                · have hdec : (step_eval d input e node regs).1.capN cc + 1 ≤
                      e.capN cc := by
                    rcases Bool.or_eq_true_iff.mp hfl with hside | hside
                    · have hstep := push_all_new_flag_length F1.states hFg.1.2.1 m
                        hg0.1.2.1 hside
                      omega
                    · have hstep := push_all_new_flag_length F2.states hFg.2.2.1 r
                        hg0.2.2.1 hside
                      omega
                  refine ih fuel _ _ ⟨hgout2, hpend2⟩
                    (by rw [step_eval_length]; exact hlen) ?_ (by omega)
                  unfold phi
                  exact hmulkey (e.capN cc) ((step_eval d input e node regs).1.capN cc)
                    hdec hphi _ hp2T
                · have hfalse : ((m.push_all_new F1.states).2 ||
                      (r.push_all_new F2.states).2) = false :=
                    Bool.eq_false_iff.mpr hfl
                  obtain ⟨hmf, hrf⟩ := Bool.or_eq_false_iff.mp hfalse
                  have hml := push_all_new_false_length F1.states hFg.1.2.1 m
                    hg0.1.2.1 hmf
                  have hrl := push_all_new_false_length F2.states hFg.2.2.1 r
                    hg0.2.2.1 hrf
                  have hcapEq : (step_eval d input e node regs).1.capN cc = e.capN cc := by
                    omega
                  have hsp : step_pending d node (step_eval d input e node regs).2.1
                      (step_eval d input e node regs).2.2 rest = rest := by
                    rw [hflag, hfalse]
                    exact step_pending_false d node _ rest
                  refine ih fuel _ _ ⟨hgout2, hpend2⟩
                    (by rw [step_eval_length]; exact hlen) ?_ (by omega)
                  unfold phi
                  rw [hsp]
                  exact heqkey (e.capN cc) _ hcapEq hphi
              | outputOut odb =>
                have hmerge := merge_mismatch_om
                  ({ e.states.getD node junkState with
                     input := (e.states.getD node junkState).input.push_all regs.states }
                    : NodeState) odb F1 F2 ho
                have hS2 : (step_eval d input e node regs).1.states =
                    e.states.set node
                      ⟨(e.states.getD node junkState).input.push_all regs.states,
                       (e.states.getD node junkState).output⟩ := by
                  rw [hS, hprop, hmerge]
                have hcapN := capN_set2 cc e (step_eval d input e node regs).1 node
                  ⟨(e.states.getD node junkState).input.push_all regs.states,
                   (e.states.getD node junkState).output⟩ hnode hS2
                have hcapN2 : (step_eval d input e node regs).1.capN cc +
                    out_cap cc ((e.states.getD node junkState).output) =
                    e.capN cc + out_cap cc ((e.states.getD node junkState).output) := hcapN
                have hcapEq : (step_eval d input e node regs).1.capN cc = e.capN cc := by
                  omega
                have hflag : (step_eval d input e node regs).2.1 = false := by
                  rw [step_eval_flag d input e node regs hnode, hprop, hmerge]
                have hsp : step_pending d node (step_eval d input e node regs).2.1
                    (step_eval d input e node regs).2.2 rest = rest := by
                  rw [hflag]
                  exact step_pending_false d node _ rest
                refine ih fuel _ _ ⟨?_, hpend2⟩
                  (by rw [step_eval_length]; exact hlen) ?_ (by omega)
                · intro s hs
                  rw [hS2] at hs
                  rcases List.mem_or_eq_of_mem_set hs with h5 | h5
                  · exact hgout s h5
                  · rw [h5]
                    have h6 := hgout (e.states.getD node junkState)
                      (getD_mem_ns e.states node hnode)
                    exact h6
                · unfold phi
                  rw [hsp]
                  exact heqkey (e.capN cc) _ hcapEq hphi
          | outputNode pr ts =>
            obtain ⟨NDB, hprop⟩ : ∃ ndb,
                propagate d node input regs (some e.max_depth) =
                  NodeOutputState.outputOut ndb :=
              ⟨_, propagate_output_eq d node input regs (some e.max_depth) pr ts hgnode⟩
            cases ho : (e.states.getD node junkState).output with
            | none =>
              have hmerge := merge_none
                ({ e.states.getD node junkState with
                   input := (e.states.getD node junkState).input.push_all regs.states }
                  : NodeState) (NodeOutputState.outputOut NDB) ho
              have hS2 : (step_eval d input e node regs).1.states =
                  e.states.set node
                    ⟨(e.states.getD node junkState).input.push_all regs.states,
                     some (NodeOutputState.outputOut NDB)⟩ := by
                rw [hS, hprop, hmerge]
              have hcapN := capN_set2 cc e (step_eval d input e node regs).1 node
                ⟨(e.states.getD node junkState).input.push_all regs.states,
                 some (NodeOutputState.outputOut NDB)⟩ hnode hS2
              rw [ho] at hcapN
              have hcap2 : (step_eval d input e node regs).1.capN cc + (1 + 2 * cc) =
                  e.capN cc + 0 := hcapN
              have hdec : (step_eval d input e node regs).1.capN cc + 1 ≤ e.capN cc := by
                omega
              have hflag : (step_eval d input e node regs).2.1 = true := by
                rw [step_eval_flag d input e node regs hnode, hprop, hmerge]
              have hout2 : (step_eval d input e node regs).2.2 =
                  NodeOutputState.outputOut NDB := by
                rw [step_eval_output, hprop]
              have hsp : step_pending d node (step_eval d input e node regs).2.1
                  (step_eval d input e node regs).2.2 rest = rest := by
                rw [hflag, hout2]
                exact step_pending_true_out d node NDB rest
              refine ih fuel _ _ ⟨?_, hpend2⟩
                (by rw [step_eval_length]; exact hlen) ?_ (by omega)
              · intro s hs
                rw [hS2] at hs
                rcases List.mem_or_eq_of_mem_set hs with h5 | h5
                · exact hgout s h5
                · rw [h5]
                  trivial
              · unfold phi
                rw [hsp]
                exact hmulkey (e.capN cc) ((step_eval d input e node regs).1.capN cc)
                  hdec hphi _ (Nat.le_add_right _ _)
            | some out =>
              cases out with
              | matchOut m r =>
                have hmerge := merge_mismatch_mo
                  ({ e.states.getD node junkState with
                     input := (e.states.getD node junkState).input.push_all regs.states }
                    : NodeState) m r NDB ho
                have hS2 : (step_eval d input e node regs).1.states =
                    e.states.set node
                      ⟨(e.states.getD node junkState).input.push_all regs.states,
                       (e.states.getD node junkState).output⟩ := by
                  rw [hS, hprop, hmerge]
                have hcapN := capN_set2 cc e (step_eval d input e node regs).1 node
                  ⟨(e.states.getD node junkState).input.push_all regs.states,
                   (e.states.getD node junkState).output⟩ hnode hS2
                have hcapN2 : (step_eval d input e node regs).1.capN cc +
                    out_cap cc ((e.states.getD node junkState).output) =
                    e.capN cc + out_cap cc ((e.states.getD node junkState).output) := hcapN
                have hcapEq : (step_eval d input e node regs).1.capN cc = e.capN cc := by
                  omega
                have hflag : (step_eval d input e node regs).2.1 = false := by
                  rw [step_eval_flag d input e node regs hnode, hprop, hmerge]
                have hsp : step_pending d node (step_eval d input e node regs).2.1
                    (step_eval d input e node regs).2.2 rest = rest := by
                  rw [hflag]
                  exact step_pending_false d node _ rest
                refine ih fuel _ _ ⟨?_, hpend2⟩
                  (by rw [step_eval_length]; exact hlen) ?_ (by omega)
                · intro s hs
                  rw [hS2] at hs
                  rcases List.mem_or_eq_of_mem_set hs with h5 | h5
                  · exact hgout s h5
                  · rw [h5]
                    have h6 := hgout (e.states.getD node junkState)
                      (getD_mem_ns e.states node hnode)
                    exact h6
                · unfold phi
                  rw [hsp]
                  exact heqkey (e.capN cc) _ hcapEq hphi
              | outputOut odb =>
                have hmerge := merge_out_db
                  ({ e.states.getD node junkState with
                     input := (e.states.getD node junkState).input.push_all regs.states }
                    : NodeState) odb NDB ho
                have hS2 : (step_eval d input e node regs).1.states =
                    e.states.set node
                      ⟨(e.states.getD node junkState).input.push_all regs.states,
                       some (NodeOutputState.outputOut
                         (NDB.weighted_facts.foldl
                           (fun db fw => db.insert_fact_with_weight fw.1 fw.2) odb))⟩ := by
                  rw [hS, hprop, hmerge]
                have hcapN := capN_set2 cc e (step_eval d input e node regs).1 node
                  ⟨(e.states.getD node junkState).input.push_all regs.states,
                   some (NodeOutputState.outputOut
                     (NDB.weighted_facts.foldl
                       (fun db fw => db.insert_fact_with_weight fw.1 fw.2) odb))⟩ hnode hS2
                rw [ho] at hcapN
                have hcapN2 : (step_eval d input e node regs).1.capN cc + 0 =
                    e.capN cc + 0 := hcapN
                have hcapEq : (step_eval d input e node regs).1.capN cc = e.capN cc := by
                  omega
                have hflag : (step_eval d input e node regs).2.1 = false := by
                  rw [step_eval_flag d input e node regs hnode, hprop, hmerge]
                have hsp : step_pending d node (step_eval d input e node regs).2.1
                    (step_eval d input e node regs).2.2 rest = rest := by
                  rw [hflag]
                  exact step_pending_false d node _ rest
                refine ih fuel _ _ ⟨?_, hpend2⟩
                  (by rw [step_eval_length]; exact hlen) ?_ (by omega)
                · intro s hs
                  rw [hS2] at hs
                  rcases List.mem_or_eq_of_mem_set hs with h5 | h5
                  · exact hgout s h5
                  · rw [h5]
                    trivial
                · unfold phi
                  rw [hsp]
                  exact heqkey (e.capN cc) _ hcapEq hphi
        · have hse : (step_eval d input e node regs).1 = e :=
            step_eval_oob d input e node regs (Nat.le_of_not_lt hnode)
          have hoob : d.len ≤ node := hlen ▸ Nat.le_of_not_lt hnode
          have hsp : step_pending d node (step_eval d input e node regs).2.1
              (step_eval d input e node regs).2.2 rest = rest := by
            by_cases hfl : (step_eval d input e node regs).2.1
            · rw [hfl]
              cases hout : (step_eval d input e node regs).2.2 with
              | matchOut ms rs =>
                rw [step_pending_true_match, (target_group_oob d node hoob).1,
                  (target_group_oob d node hoob).2]
                rfl
              | outputOut db2 => rw [step_pending_true_out]
            · rw [Bool.eq_false_iff.mpr hfl]
              exact step_pending_false d node _ rest
          rw [hsp, hse]
          refine ih fuel e rest
            ⟨hgout, fun q hq => hgpend q (List.mem_cons_of_mem _ hq)⟩ hlen ?_ (by omega)
          unfold phi
          omega

theorem run_multi_eq (d : GraphDiagram) (input : Database) (k fuel : Nat) :
    Evaluation.run_multi d input k fuel =
      (run_pending_aux d input fuel
        (d.roots.foldl (seed_root_step d k) (Evaluation.new.grow d.len k))
        ((d.roots.filterMap fun n => if n < d.len then
          some (n, ((RegisterSet.new k).push (RegisterFile.new k) 1 0).1) else none).reverse)).map
        Evaluation.build_total_db := rfl

theorem newfile_universe (k : Nat) (vals : List Value) :
    file_in_universe k vals (RegisterFile.new k) := by
  constructor
  · show (List.replicate k (none : Option Value)).length = k
    simp
  · intro v hv
    have h2 := List.eq_of_mem_replicate hv
    exact absurd h2 (by simp)

theorem seed_set_good (k : Nat) (vals : List Value) :
    good_set k vals (((RegisterSet.new k).push (RegisterFile.new k) 1 0).1) := by
  refine ⟨?_, seed_set_pos k, ?_⟩
  · rw [seed_set_states]
    simp
  · intro e he
    rw [seed_set_states] at he
    rw [List.mem_singleton] at he
    rw [he]
    exact newfile_universe k vals

theorem run_multi_terminates (d : GraphDiagram) (input : Database) (k : Nat) :
    ∃ fuel, (Evaluation.run_multi d input k fuel).isSome := by
  refine ⟨phi ((allFiles k (db_values input)).length) (total_edges d)
    (d.roots.foldl (seed_root_step d k) (Evaluation.new.grow d.len k))
    ((d.roots.filterMap fun n => if n < d.len then
      some (n, ((RegisterSet.new k).push (RegisterFile.new k) 1 0).1) else none).reverse), ?_⟩
  have hgrow_out : ∀ n, ((Evaluation.new.grow d.len k).states.getD n junkState).output =
      none := by
    intro n
    rw [grow_new_getD]
    by_cases hn : n < d.len <;> simp [hn, junkState]
  have hout : ∀ n, ((d.roots.foldl (seed_root_step d k)
      (Evaluation.new.grow d.len k)).states.getD n junkState).output = none := by
    intro n
    rw [(seed_fold_inv d k d.roots (Evaluation.new.grow d.len k)).1 n]
    exact hgrow_out n
  have hgout : ∀ s ∈ (d.roots.foldl (seed_root_step d k)
      (Evaluation.new.grow d.len k)).states, good_output k (db_values input) s.output := by
    intro s hs
    obtain ⟨i, hi, hgd⟩ := mem_states_getD _ s hs
    have h3 := hout i
    rw [hgd] at h3
    rw [h3]
    trivial
  have hgpend : ∀ q ∈ (d.roots.filterMap fun n => if n < d.len then
      some (n, ((RegisterSet.new k).push (RegisterFile.new k) 1 0).1) else none).reverse,
      good_set k (db_values input) q.2 := by
    intro q hq
    rw [List.mem_reverse] at hq
    obtain ⟨n, hn, hq2⟩ := List.mem_filterMap.mp hq
    by_cases hnl : n < d.len
    · rw [if_pos hnl] at hq2
      cases hq2
      exact seed_set_good k (db_values input)
    · rw [if_neg hnl] at hq2
      exact Option.noConfusion hq2
  have hlen : (d.roots.foldl (seed_root_step d k)
      (Evaluation.new.grow d.len k)).states.length = d.len := by
    rw [(seed_fold_inv d k d.roots (Evaluation.new.grow d.len k)).2.2.2]
    show (([] : List NodeState) ++
      List.replicate (d.len - 0) (⟨RegisterSet.new k, none⟩ : NodeState)).length = d.len
    simp
  have hterm := run_pending_term d input k (db_values input)
    ((allFiles k (db_values input)).length) (total_edges d)
    (fun p vs hvs => facts_values_sub input p vs hvs) rfl rfl
    (phi ((allFiles k (db_values input)).length) (total_edges d)
      (d.roots.foldl (seed_root_step d k) (Evaluation.new.grow d.len k))
      ((d.roots.filterMap fun n => if n < d.len then
        some (n, ((RegisterSet.new k).push (RegisterFile.new k) 1 0).1) else none).reverse))
    (phi ((allFiles k (db_values input)).length) (total_edges d)
      (d.roots.foldl (seed_root_step d k) (Evaluation.new.grow d.len k))
      ((d.roots.filterMap fun n => if n < d.len then
        some (n, ((RegisterSet.new k).push (RegisterFile.new k) 1 0).1) else none).reverse))
    (d.roots.foldl (seed_root_step d k) (Evaluation.new.grow d.len k))
    ((d.roots.filterMap fun n => if n < d.len then
      some (n, ((RegisterSet.new k).push (RegisterFile.new k) 1 0).1) else none).reverse)
    ⟨hgout, hgpend⟩ hlen (Nat.le_refl _) (Nat.le_refl _)
  obtain ⟨e2, he2⟩ := Option.isSome_iff_exists.mp hterm
  rw [run_multi_eq, he2]
  rfl

/-! Claim C3: the depth bound and termination. -/

/-- C3: the depth bound defaults to `DEFAULT_MAX_DEPTH = 8`; the bound
check `depth_ok` is exactly `d < max_depth`; a match node's propagation
is unchanged when every input binding at depth `≥ max_depth` is dropped
(such bindings contribute no further propagation); and consequently
every evaluation terminates: for every diagram — cyclic ones included —
and every input database some finite fuel makes `run_multi` finish its
worklist and return a result. -/
theorem depth_bound_and_termination :
    DEFAULT_MAX_DEPTH = 8 ∧
    (∀ maxD x, depth_ok (some maxD) x = true ↔ x < maxD) ∧
    (∀ (d : GraphDiagram) (n : NodeIndex) (db : Database) (regs : RegisterSet)
      (maxD : Nat) (pr : Predicate) (ts : List MatchTerm),
      d.get_node n = .matchNode pr ts →
      propagate d n db regs (some maxD) =
        propagate d n db
          ⟨regs.num_registers,
           regs.states.filter (fun ent => depth_ok (some maxD) ent.2.2)⟩
          (some maxD)) ∧
    (∀ (d : GraphDiagram) (input : Database) (k : Nat),
      ∃ fuel, (Evaluation.run_multi d input k fuel).isSome) := by
  refine ⟨rfl, ?_, ?_, run_multi_terminates⟩
  · intro maxD x
    unfold depth_ok
    simp
  · intro d n db regs maxD pr ts hg
    exact propagate_depth_filter d n db regs maxD pr ts hg

theorem depth_bound_and_termination_witness :
    DEFAULT_MAX_DEPTH = 8 ∧
    (depth_ok (some 8) 7 = true ↔ 7 < 8) ∧
    (propagate ((GraphDiagram.new 0).insert_node (.matchNode 0 [])).1 0 Database.new
        (RegisterSet.new 0) (some 8) =
      propagate ((GraphDiagram.new 0).insert_node (.matchNode 0 [])).1 0 Database.new
        ⟨(RegisterSet.new 0).num_registers,
         (RegisterSet.new 0).states.filter (fun ent => depth_ok (some 8) ent.2.2)⟩
        (some 8)) ∧
    (∃ fuel, (Evaluation.run_multi (GraphDiagram.new 0) Database.new 0 fuel).isSome) := by
  obtain ⟨h1, h2, h3, h4⟩ := depth_bound_and_termination
  exact ⟨h1, h2 8 7,
    h3 ((GraphDiagram.new 0).insert_node (.matchNode 0 [])).1 0 Database.new
      (RegisterSet.new 0) 8 0 [] (by decide),
    h4 (GraphDiagram.new 0) Database.new 0⟩

end MatchDiagram
